import Mathlib

/-!
# boost.histogram: `unlimited_storage`

A shallow embedding of `include/boost/histogram/unlimited_storage.hpp`.

* The element types of `buffer_type::types` are named by their `type_index`:
  `uint8_t = 0`, `uint16_t = 1`, `uint32_t = 2`, `uint64_t = 3`, `large_int = 4`,
  `double = 5`.
* Unsigned machine integers and `large_int` values are natural numbers; a cell of a
  fixed-width type holds a value below `2 ^ bits T`.
* The headers `detail/large_int.hpp`, `detail/safe_comparison.hpp`,
  `detail/iterator_adaptor.hpp`, `detail/variant.hpp` and the helpers
  `detail::safe_increment`, `detail::safe_radd` are not part of the sources at hand; they are
  modelled from the specification and marked so.
* The last part embeds `get_if` and the converting assignment of `axis::variant` from
  `include/boost/histogram/axis/variant.hpp`.
* The C++ type `double` is a parameter `D` with its operations (`DoubleOps`): every
  theorem holds for whatever floating-point arithmetic is plugged in.
* The allocator is not modelled: allocation succeeds, except in the functions named
  `*_alloc`, where an allocation may fail.
* Buffers are passed by value, except in the namespace `lifetime`, where the arrays live in
  a free store, `destroy` releases an array, and an operand may be a reference to a cell.
-/

namespace boost_histogram

/-- Operations of the C++ type double that the storage uses. The three conversions are kept
apart because they are different functions in C++: from an unsigned integer, from a signed
integer and from a large_int. -/
class DoubleOps (D : Type) where
  /-- The value of a value-initialised double and of the literal 0. -/
  zero : D
  /-- The literal 1.0, also what prefix increment adds. -/
  one : D
  /-- Conversion static_cast<double>(x) of an unsigned integer x. -/
  ofUInt : Nat → D
  /-- Conversion static_cast<double>(x) of a signed integer x. -/
  ofInt : Int → D
  /-- Conversion static_cast<double>(x) of a large_int x. -/
  ofLarge : Nat → D
  add : D → D → D
  mul : D → D → D
  neg : D → D
  div : D → D → D
  /-- Comparison a == b of two doubles. -/
  eq : D → D → Bool
  /-- Comparison a < b of two doubles. -/
  lt : D → D → Bool

/-- Integer arithmetic as a stand-in for double (division truncates), used to evaluate the
model on concrete inputs. -/
instance : DoubleOps Int where
  zero := 0
  one := 1
  ofUInt n := n
  ofInt z := z
  ofLarge n := n
  add a b := a + b
  mul a b := a * b
  neg a := -a
  div a b := a / b
  eq a b := decide (a = b)
  lt a b := decide (a < b)

/-- Number of bits of the fixed-width type with index `T` (8, 16, 32, 64 for `T` = 0..3). -/
def bits (T : Nat) : Nat := 8 * 2 ^ T

/-- The value `std::numeric_limits<T>::max()` of the fixed-width type with index `T`. -/
def max_value (T : Nat) : Nat := 2 ^ bits T - 1

/-- The value an integer cell of type `T` holds after `v` is stored into it without a check:
reduced modulo `2 ^ bits T` for the fixed-width types, exact for `large_int`. -/
def wrap (T : Nat) (v : Nat) : Nat := if T < 4 then v % 2 ^ bits T else v

/-- Modelled from the spec: `detail::large_int` (large_int.hpp is outside src/), "an
unbounded nonnegative integer" whose value is `low + Σ extra_words[i] · 2^(64·(i+1))`,
with exact add and increment; its addition tolerates the addend aliasing the
destination. The model is the value. -/
abbrev large_int : Type := Nat

/-- A value of one of the C++ numeric types that can be an operand of a cursor operation
or of a comparison. -/
inductive number (D : Type) where
  /-- A value of an unsigned integral type. -/
  | unsigned (x : Nat)
  /-- A value of a signed integral type. -/
  | signed (x : Int)
  /-- A value of type large_int. -/
  | large (x : large_int)
  /-- A value of type double. -/
  | floating (x : D)
  deriving DecidableEq

/-- The conversion `static_cast<double>(x)`. -/
def number.to_double {D : Type} [DoubleOps D] : number D → D
  | .unsigned x => DoubleOps.ofUInt x
  | .signed x => DoubleOps.ofInt x
  | .large x => DoubleOps.ofLarge x
  | .floating x => x

/-- The value of an integer operand as an integer (0 for a double, which has none). -/
def number.to_int {D : Type} : number D → Int
  | .unsigned x => x
  | .signed x => x
  | .large x => x
  | .floating _ => 0

namespace detail

/-- Modelled from the spec: `detail::equal` of safe_comparison.hpp (outside src/), the
"representation-safe comparator" for `==`. Two integers of any width and signedness are
equal when their values are, so that a negative value never equals an unsigned one by
wrapping; when an operand is a double the other one is converted to double and the
doubles are compared. -/
def equal {D : Type} [DoubleOps D] : number D → number D → Bool
  | .floating a, y => DoubleOps.eq a y.to_double
  | x, .floating b => DoubleOps.eq x.to_double b
  | x, y => decide (x.to_int = y.to_int)

end detail

namespace detail

/-- Modelled from the spec: `detail::safe_increment` (declared outside src/), the "in-place
overflow-checked increment on the current integer width". The result is the incremented
value, or `none` when the cell already holds the largest value of its type (the C++
function then returns false and leaves the cell as it is). -/
def safe_increment (T : Nat) (t : Nat) : Option Nat :=
  if t < max_value T then some (t + 1) else none

/-- Modelled from the spec: `detail::safe_radd` (declared outside src/), the
"overflow-checked in-place add". The result is the sum, or `none` when the sum does not fit
the type `T` (the C++ function then returns false and leaves the cell as it is). -/
def safe_radd (T : Nat) (t u : Nat) : Option Nat :=
  if t + u ≤ max_value T then some (t + u) else none

end detail

/-- The array behind `buffer_type::ptr`: integer cells (any of the five integer
types, told apart by `buffer_type::type`) or double cells. -/
inductive cells (D : Type) where
  | integral (p : List Nat)
  | floating (p : List D)
  deriving DecidableEq

/-- The struct `unlimited_storage::buffer_type` without its allocator: `ptr = none` is the
null pointer. -/
structure buffer_type (D : Type) where
  size : Nat := 0
  type : Nat := 0
  ptr : Option (cells D) := none
  deriving DecidableEq

namespace detail

/-- The two-argument `detail::buffer_create(a, n)`: `n` value-initialised cells of type `T`. -/
def buffer_create (D : Type) [DoubleOps D] (T n : Nat) : cells D :=
  if T = 5 then .floating (List.replicate n DoubleOps.zero)
  else .integral (List.replicate n 0)

/-- The three-argument `detail::buffer_create(a, n, iter)`: `n` cells of type `T`, cell `k`
constructed from `iter[k]`, where `iter` points to cells of type `U`. An integer becomes a
double by `static_cast<double>`, which for `U = large_int` is the conversion operator of
large_int. No instantiation in the header builds integer cells from doubles; the model
copies the doubles there. A null `iter` is outside the precondition of the call; the model
builds no cell from it. -/
def buffer_create_from {D : Type} [DoubleOps D] (T U n : Nat) (iter : Option (cells D)) :
    cells D :=
  match iter with
  | some (.integral xs) =>
    if T = 5 then
      .floating ((xs.take n).map
        (fun v => if U = 4 then (DoubleOps.ofLarge v : D) else DoubleOps.ofUInt v))
    else .integral ((xs.take n).map (wrap T))
  | some (.floating xs) => .floating (xs.take n)
  | none => if T = 5 then .floating [] else .integral []

end detail

namespace buffer_type

variable {D : Type} [DoubleOps D]

/-- Reads `static_cast<T*>(ptr)[i]` for an integer type `T`. -/
def int_at (b : buffer_type D) (i : Nat) : Nat :=
  match b.ptr with
  | some (.integral xs) => xs.getD i 0
  | _ => 0

/-- Reads `static_cast<double*>(ptr)[i]`. -/
def dbl_at (b : buffer_type D) (i : Nat) : D :=
  match b.ptr with
  | some (.floating xs) => xs.getD i DoubleOps.zero
  | _ => DoubleOps.zero

/-- Writes `static_cast<T*>(ptr)[i] = v` for an integer type `T`. -/
def store_int (b : buffer_type D) (i : Nat) (v : Nat) : buffer_type D :=
  match b.ptr with
  | some (.integral xs) => { b with ptr := some (.integral (xs.set i v)) }
  | _ => b

/-- Writes `static_cast<double*>(ptr)[i] = v`. -/
def store_dbl (b : buffer_type D) (i : Nat) (v : D) : buffer_type D :=
  match b.ptr with
  | some (.floating xs) => { b with ptr := some (.floating (xs.set i v)) }
  | _ => b

/-- The member `buffer_type::visit`: the if-chain over `type`; `f T` is the call of the
functor with `ptr` cast to a pointer to the type with index `T`. -/
def visit {α : Type} (b : buffer_type D) (f : Nat → α) : α :=
  if b.type = 0 then f 0
  else if b.type = 1 then f 1
  else if b.type = 2 then f 2
  else if b.type = 3 then f 3
  else if b.type = 4 then f 4
  else f 5

/-- The member `buffer_type::destroy`. -/
def destroy (b : buffer_type D) : buffer_type D :=
  match b.ptr with
  | none => b
  | some _ => { b with size := 0, type := 0, ptr := none }

/-- The member `buffer_type::make<T>(n)`. -/
def make (b : buffer_type D) (T n : Nat) : buffer_type D :=
  let b1 := b.destroy
  let b2 := if n > 0 then { b1 with ptr := some (detail.buffer_create D T n) } else b1
  { b2 with size := n, type := T }

/-- The member `buffer_type::make<T, U>(n, iter)`, `iter` pointing to cells of type `U`:
the new array is built from `iter` before the old one is destroyed. -/
def make_from (b : buffer_type D) (T U n : Nat) (iter : Option (cells D)) : buffer_type D :=
  let new_ptr := if n > 0 then some (detail.buffer_create_from T U n iter) else none
  let new_type := T
  let b1 := b.destroy
  { b1 with size := n, type := new_type, ptr := new_ptr }

/-- The move constructor `buffer_type(buffer_type&& o)`: the new buffer and what is left
of `o`. -/
def move (o : buffer_type D) : buffer_type D × buffer_type D :=
  ({ size := o.size, type := o.type, ptr := o.ptr }, { o with size := 0, type := 0, ptr := none })

/-- The move assignment `operator=(buffer_type&& o)` for `this != &o`: the members are
swapped. The result is the pair (`*this`, `o`). -/
def move_assign (this o : buffer_type D) : buffer_type D × buffer_type D :=
  (o, this)

/-- The copy constructor `buffer_type(const buffer_type& x)`. -/
def copy (x : buffer_type D) : buffer_type D :=
  x.visit (fun T => ({} : buffer_type D).make_from T T x.size x.ptr)

/-- The copy assignment `operator=(const buffer_type& o)`: move-assigns a temporary copy;
the temporary, now holding the old members, is destroyed. -/
def copy_assign (this o : buffer_type D) : buffer_type D :=
  (move_assign this (copy o)).1

end buffer_type

variable {D : Type} [DoubleOps D]

/-- The functor `unlimited_storage::incrementor` called on `b` with `tp = b.ptr` cast to a
pointer to the type with index `T`. The overloads are the branches: `double*`,
`large_int*`, and the template for the fixed-width types, where `U = next_type<types, T>`
has index `T + 1` and the final `++` is the unchecked increment of a `U` cell. -/
def incrementor (T : Nat) (b : buffer_type D) (i : Nat) : buffer_type D :=
  if T = 5 then b.store_dbl i (DoubleOps.add (b.dbl_at i) DoubleOps.one)
  else if T = 4 then b.store_int i (b.int_at i + 1)
  else
    match detail.safe_increment T (b.int_at i) with
    | some v => b.store_int i v
    | none =>
      let b1 := b.make_from (T + 1) T b.size b.ptr
      b1.store_int i (wrap (T + 1) (b1.int_at i + 1))

namespace adder

/-- The overload `adder::operator()(double* tp, buffer_type&, i, x)`:
`tp[i] += static_cast<double>(x)`. -/
def call_double (b : buffer_type D) (i : Nat) (x : number D) : buffer_type D :=
  b.store_dbl i (DoubleOps.add (b.dbl_at i) x.to_double)

/-- The overload `adder::operator()(large_int* tp, buffer_type&, i, const large_int& x)`:
`tp[i] += x`. -/
def call_large_int (b : buffer_type D) (i : Nat) (x : Nat) : buffer_type D :=
  b.store_int i (b.int_at i + x)

/-- The overload `is_x_integral(std::false_type, T* tp, b, i, const U& x)`: the operand is
converted to double, the buffer is rebuilt as doubles, then the double overload adds. -/
def is_x_integral_false (T : Nat) (b : buffer_type D) (i : Nat) (x : number D) :
    buffer_type D :=
  let v : D := x.to_double
  let b1 := b.make_from 5 T b.size b.ptr
  call_double b1 i (.floating v)

/-- The overload `is_x_integral(std::false_type, T* tp, b, i, const large_int& x)`: the
operand is copied, the buffer is rebuilt as large_int, then the large_int overload adds. -/
def is_x_integral_false_large_int (T : Nat) (b : buffer_type D) (i : Nat) (x : Nat) :
    buffer_type D :=
  let v := x
  let b1 := b.make_from 4 T b.size b.ptr
  call_large_int b1 i v

/-- The two overloads `is_x_unsigned(std::true_type, T* tp, b, i, x)`. The first argument
counts the fixed-width types from `T` up to `uint64_t`, so it is `4 - T`: each C++
instantiation calls the instantiation for the next type, and `0` is the overload for
`large_int*`, which adds without a check. -/
def is_x_unsigned_true : Nat → buffer_type D → Nat → Nat → buffer_type D
  | 0, b, i, x => b.store_int i (b.int_at i + x)
  | k + 1, b, i, x =>
    let T := 3 - k
    match detail.safe_radd T (b.int_at i) x with
    | some v => b.store_int i v
    | none =>
      let y := x
      let b1 := b.make_from (T + 1) T b.size b.ptr
      is_x_unsigned_true k b1 i y

/-- The overload `is_x_unsigned(std::false_type, T* tp, b, i, x)` for a signed `x`. -/
def is_x_unsigned_false (T : Nat) (b : buffer_type D) (i : Nat) (x : Int) : buffer_type D :=
  if x ≥ 0 then is_x_unsigned_true (4 - T) b i x.toNat
  else is_x_integral_false T b i (.floating (DoubleOps.ofInt x))

/-- The call `adder()(tp, b, i, x)` with `tp = b.ptr` cast to a pointer to the type with
index `T`, as overload resolution selects it: the `double*` overload; the non-template
`large_int*` overload for a `large_int` operand; otherwise the template, which goes to
`is_x_integral` with `std::is_integral<U>`. -/
def call (T : Nat) (b : buffer_type D) (i : Nat) (x : number D) : buffer_type D :=
  if T = 5 then call_double b i x
  else
    match x with
    | .large v => if T = 4 then call_large_int b i v else is_x_integral_false_large_int T b i v
    | .unsigned v => is_x_unsigned_true (4 - T) b i v
    | .signed v => is_x_unsigned_false T b i v
    | .floating v => is_x_integral_false T b i (.floating v)

/-- The first instantiation of `is_x_unsigned(std::true_type, T* tp, b, i, x)` when `x` is
a reference to the cell `tp[ix]` of the buffer being changed: every read of `x` is a read
of that cell at that moment, and the copy `y` is taken before `make` replaces the array. -/
def is_x_unsigned_true_aliased (T : Nat) (b : buffer_type D) (i ix : Nat) : buffer_type D :=
  match detail.safe_radd T (b.int_at i) (b.int_at ix) with
  | some v => b.store_int i v
  | none =>
    let y := b.int_at ix
    let b1 := b.make_from (T + 1) T b.size b.ptr
    is_x_unsigned_true (3 - T) b1 i y

/-- The call `adder()(tp, b, i, x)` when `x` is a reference to the cell `tp[ix]` of the
buffer being changed, so that the operand has the element type of the buffer. -/
def call_aliased (T : Nat) (b : buffer_type D) (i ix : Nat) : buffer_type D :=
  if T = 5 then b.store_dbl i (DoubleOps.add (b.dbl_at i) (b.dbl_at ix))
  else if T = 4 then b.store_int i (b.int_at i + b.int_at ix)
  else is_x_unsigned_true_aliased T b i ix

end adder

namespace multiplier

/-- The overload `multiplier::operator()(double* tp, buffer_type& b, const double x)`: the
loop scales the first `b.size` cells. -/
def call_double (b : buffer_type D) (x : D) : buffer_type D :=
  match b.ptr with
  | some (.floating xs) =>
    { b with ptr := some (.floating
        ((xs.take b.size).map (fun d => DoubleOps.mul d x) ++ xs.drop b.size)) }
  | _ => b

/-- The call `multiplier()(tp, b, x)` on the whole buffer. -/
def call (T : Nat) (b : buffer_type D) (x : D) : buffer_type D :=
  if T = 5 then call_double b x
  else call_double (b.make_from 5 T b.size b.ptr) x

/-- The overload `multiplier::operator()(double* tp, buffer_type&, i, const double x)`. -/
def call_double_at (b : buffer_type D) (i : Nat) (x : D) : buffer_type D :=
  b.store_dbl i (DoubleOps.mul (b.dbl_at i) x)

/-- The call `multiplier()(tp, b, i, x)` on one cell. -/
def call_at (T : Nat) (b : buffer_type D) (i : Nat) (x : D) : buffer_type D :=
  if T = 5 then call_double_at b i x
  else call_double_at (b.make_from 5 T b.size b.ptr) i x

end multiplier

/-- The element `p[i]` as a value of its C++ type, `p = b.ptr` cast to a pointer to the
type with index `T`. -/
def buffer_type.element (b : buffer_type D) (T i : Nat) : number D :=
  if T = 5 then .floating (b.dbl_at i)
  else if T = 4 then .large (b.int_at i)
  else .unsigned (b.int_at i)

/-- The cell `i` as a value of its C++ type, through `visit`. -/
def buffer_type.cell (b : buffer_type D) (i : Nat) : number D :=
  b.visit (fun T => b.element T i)

namespace reference

/-- The conversion `const_reference::operator double()` of the cursor to cell `i`. -/
def to_double (b : buffer_type D) (i : Nat) : D :=
  b.visit (fun T => (b.element T i).to_double)

/-- Prefix increment `reference::operator++()` of the cursor to cell `i` of `b`. -/
def increment (b : buffer_type D) (i : Nat) : buffer_type D :=
  b.visit (fun T => incrementor T b i)

/-- The operators `reference::operator+=(const U& x)` and `operator+=(const large_int& x)`. -/
def add_assign (b : buffer_type D) (i : Nat) (x : number D) : buffer_type D :=
  b.visit (fun T => adder.call T b i x)

/-- The operator `reference::operator+=(const const_reference& x)` when `x` is a cursor
to cell `ix` of the same buffer: the element is passed on by reference. -/
def add_assign_cursor (b : buffer_type D) (i ix : Nat) : buffer_type D :=
  b.visit (fun _ => b.visit (fun T => adder.call_aliased T b i ix))

/-- The operator `reference::operator-=(const double x)`. -/
def sub_assign (b : buffer_type D) (i : Nat) (x : D) : buffer_type D :=
  add_assign b i (.floating (DoubleOps.neg x))

/-- The operator `reference::operator*=(const double x)`. -/
def mul_assign (b : buffer_type D) (i : Nat) (x : D) : buffer_type D :=
  b.visit (fun T => multiplier.call_at T b i x)

/-- The operator `reference::operator/=(const double x)`. -/
def div_assign (b : buffer_type D) (i : Nat) (x : D) : buffer_type D :=
  mul_assign b i (DoubleOps.div DoubleOps.one x)

/-- The statement `p[this->idx_] = 0` for `p` a pointer to the type with index `T`. -/
def zero_cell (T : Nat) (b : buffer_type D) (i : Nat) : buffer_type D :=
  if T = 5 then b.store_dbl i DoubleOps.zero else b.store_int i 0

/-- The operators `reference::operator=(const U& x)` and `operator=(const large_int& x)`. -/
def assign (b : buffer_type D) (i : Nat) (x : number D) : buffer_type D :=
  b.visit (fun T => adder.call T (zero_cell T b i) i x)

/-- The operator `reference::operator=(const const_reference& x)` for a cursor `x` to
cell `ix` of the buffer `xb`: the element is copied to `xi` first. -/
def assign_cursor (b : buffer_type D) (i : Nat) (xb : buffer_type D) (ix : Nat) :
    buffer_type D :=
  xb.visit (fun U => let xi := xb.element U ix; assign b i xi)

end reference

/-- The class `unlimited_storage` without its allocator. -/
structure unlimited_storage (D : Type) where
  buffer_ : buffer_type D := {}
  deriving DecidableEq

namespace unlimited_storage

/-- The member `unlimited_storage::reset(n)`. -/
def reset (s : unlimited_storage D) (n : Nat) : unlimited_storage D :=
  { buffer_ := s.buffer_.make 0 n }

/-- The member `unlimited_storage::size()`. -/
def size (s : unlimited_storage D) : Nat := s.buffer_.size

/-- The member `unlimited_storage::operator*=(const double x)`. -/
def mul_assign (s : unlimited_storage D) (x : D) : unlimited_storage D :=
  { buffer_ := s.buffer_.visit (fun T => multiplier.call T s.buffer_ x) }

/-- The algorithm `std::equal(p, p + n, xp, detail::equal{})` over two arrays given by
their element readers. -/
def std_equal (n : Nat) (p xp : Nat → number D) : Bool :=
  (List.range n).all (fun k => detail.equal (p k) (xp k))

/-- The member `unlimited_storage::operator==(const unlimited_storage& x)`. -/
def operator_eq (s x : unlimited_storage D) : Bool :=
  if s.size ≠ x.size then false
  else s.buffer_.visit (fun T => x.buffer_.visit (fun U =>
    std_equal x.size (s.buffer_.element T) (x.buffer_.element U)))

/-- The defaulted copy constructor. -/
def copy (s : unlimited_storage D) : unlimited_storage D :=
  { buffer_ := s.buffer_.copy }

/-- The defaulted copy assignment `*this = o`. -/
def copy_assign (this o : unlimited_storage D) : unlimited_storage D :=
  { buffer_ := this.buffer_.copy_assign o.buffer_ }

end unlimited_storage

/-- The operator `reference::operator+=(const const_reference& x)` for a cursor `x` to
cell `ix` of another buffer `xb`: the element is passed on as the operand. -/
def reference.add_assign_other (b : buffer_type D) (i : Nat) (xb : buffer_type D) (ix : Nat) :
    buffer_type D :=
  xb.visit (fun U => reference.add_assign b i (xb.element U ix))

/-- The arithmetic operations on a storage: the operators of the cursor to cell `i` and the
whole-storage `*=`. -/
inductive operation (D : Type) where
  /-- Prefix increment of cell `i`. -/
  | increment (i : Nat)
  /-- The operator `cell[i] += x` for a numeric or large_int `x`. -/
  | add_assign (i : Nat) (x : number D)
  /-- The operator `cell[i] += cell[ix]`, the operand a cursor into the same buffer. -/
  | add_assign_cursor (i ix : Nat)
  /-- The operator `cell[i] += x` for a cursor `x` to cell `ix` of another buffer `xb`. -/
  | add_assign_other (i : Nat) (xb : buffer_type D) (ix : Nat)
  /-- The operator `cell[i] -= x`. -/
  | sub_assign (i : Nat) (x : D)
  /-- The operator `cell[i] *= x`. -/
  | mul_assign (i : Nat) (x : D)
  /-- The operator `cell[i] /= x`. -/
  | div_assign (i : Nat) (x : D)
  /-- The assignment `cell[i] = x` for a numeric or large_int `x`. -/
  | assign (i : Nat) (x : number D)
  /-- The assignment `cell[i] = x` for a cursor `x` to cell `ix` of the buffer `xb`. -/
  | assign_cursor (i : Nat) (xb : buffer_type D) (ix : Nat)
  /-- The whole-storage `*= x`. -/
  | storage_mul_assign (x : D)

/-- The buffer after an operation. -/
def operation.apply (op : operation D) (b : buffer_type D) : buffer_type D :=
  match op with
  | .increment i => reference.increment b i
  | .add_assign i x => reference.add_assign b i x
  | .add_assign_cursor i ix => reference.add_assign_cursor b i ix
  | .add_assign_other i xb ix => reference.add_assign_other b i xb ix
  | .sub_assign i x => reference.sub_assign b i x
  | .mul_assign i x => reference.mul_assign b i x
  | .div_assign i x => reference.div_assign b i x
  | .assign i x => reference.assign b i x
  | .assign_cursor i xb ix => reference.assign_cursor b i xb ix
  | .storage_mul_assign x => (unlimited_storage.mul_assign { buffer_ := b } x).buffer_

/-- The value `v` is in the range of the integer type with index `T`: below `2 ^ bits T`
for a fixed-width type, any value for `large_int`. -/
def fits (T v : Nat) : Prop := T < 4 → v < 2 ^ bits T

instance (T v : Nat) : Decidable (fits T v) := by unfold fits; infer_instance

/-- Well-formed buffers: the invariant of `buffer_type`. The pointer is null exactly when
`size` is 0, `type` is one of the six indices, the array has `size` cells of the type named
by `type`, and a fixed-width cell holds a value of its type. -/
def buffer_type.well_formed (b : buffer_type D) : Prop :=
  match b.ptr with
  | none => b.size = 0 ∧ b.type < 6
  | some (.integral xs) =>
    0 < b.size ∧ xs.length = b.size ∧ b.type < 5 ∧ ∀ v ∈ xs, fits b.type v
  | some (.floating xs) => 0 < b.size ∧ xs.length = b.size ∧ b.type = 5

instance (b : buffer_type D) : Decidable b.well_formed := by
  unfold buffer_type.well_formed
  split <;> infer_instance

/-- A sample storage of two large_int cells holding `2 ^ 70` and 5. -/
def sample_large_int : buffer_type Int :=
  { size := 2, type := 4, ptr := some (.integral [2 ^ 70, 5]) }

/-- The conversion `static_cast<double>` of an integer cell of the type with index `T`. -/
def cell_to_double {D : Type} [DoubleOps D] (T v : Nat) : D :=
  if T = 4 then DoubleOps.ofLarge v else DoubleOps.ofUInt v

/-- A sample storage of three 8-bit cells holding 255, 7 and 0. -/
def sample_uint8 : buffer_type Int :=
  { size := 3, type := 0, ptr := some (.integral [255, 7, 0]) }

/-- The two conditions of the buffer invariant that `destroy` relies on: the pointer is null
exactly when `size` is 0 (the `BOOST_ASSERT` of `destroy`), and `type` is the index of one
of the six types. -/
def buffer_type.invariant {D : Type} (b : buffer_type D) : Prop :=
  (b.ptr.isNone = true ↔ b.size = 0) ∧ b.type < 6

instance {D : Type} (b : buffer_type D) : Decidable b.invariant := by
  unfold buffer_type.invariant
  infer_instance

/-- The buffer states that can arise: a default-constructed buffer, and the result of any
member or promotion algorithm applied to such states. The writes to one cell are steps of
their own, so that the states inside an operation are covered as well. -/
inductive reachable {D : Type} [DoubleOps D] : buffer_type D → Prop where
  /-- The default-constructed buffer. -/
  | default : reachable {}
  /-- The member `make<T>(n)`; `reset(n)` is the case `T = uint8_t`. -/
  | make (b : buffer_type D) (T n : Nat) : reachable b → T < 6 → reachable (b.make T n)
  /-- The member `make<T, U>(n, iter)`. -/
  | make_from (b : buffer_type D) (T U n : Nat) (iter : Option (cells D)) :
    reachable b → T < 6 → reachable (b.make_from T U n iter)
  /-- The member `destroy()`. -/
  | destroy (b : buffer_type D) : reachable b → reachable b.destroy
  /-- The copy constructor. -/
  | copy (x : buffer_type D) : reachable x → reachable x.copy
  /-- The copy assignment. -/
  | copy_assign (d o : buffer_type D) : reachable d → reachable o →
    reachable (d.copy_assign o)
  /-- The buffer built by the move constructor. -/
  | move_new (o : buffer_type D) : reachable o → reachable (buffer_type.move o).1
  /-- The source of the move constructor afterwards. -/
  | move_source (o : buffer_type D) : reachable o → reachable (buffer_type.move o).2
  /-- The target of the move assignment afterwards. -/
  | move_assign_target (d o : buffer_type D) : reachable d → reachable o →
    reachable (buffer_type.move_assign d o).1
  /-- The source of the move assignment afterwards. -/
  | move_assign_source (d o : buffer_type D) : reachable d → reachable o →
    reachable (buffer_type.move_assign d o).2
  /-- A write to an integer cell. -/
  | store_int (b : buffer_type D) (i v : Nat) : reachable b → reachable (b.store_int i v)
  /-- A write to a double cell. -/
  | store_dbl (b : buffer_type D) (i : Nat) (v : D) : reachable b →
    reachable (b.store_dbl i v)
  /-- An operation of a cursor or the whole-storage `*=`: the increment, add and multiply
  promotion algorithms. -/
  | operation (op : operation D) (b : buffer_type D) : reachable b → reachable (op.apply b)

namespace detail

/-- Modelled from the spec: `detail::less` of safe_comparison.hpp (outside src/), the
"representation-safe comparator" for `<`. Two integers of any width and signedness are
compared by value, so that a negative value is less than every unsigned one; when an
operand is a double the other one is converted to double and the doubles are compared. -/
def less {D : Type} [DoubleOps D] : number D → number D → Bool
  | .floating a, y => DoubleOps.lt a y.to_double
  | x, .floating b => DoubleOps.lt x.to_double b
  | x, y => decide (x.to_int < y.to_int)

/-- Modelled from the spec: `detail::greater` of safe_comparison.hpp (outside src/), the
"representation-safe comparator" for `>`: `less` with the operands exchanged. -/
def greater {D : Type} [DoubleOps D] : number D → number D → Bool
  | .floating a, y => DoubleOps.lt y.to_double a
  | x, .floating b => DoubleOps.lt b x.to_double
  | x, y => decide (y.to_int < x.to_int)

end detail

/-- The trait `detail::is_unsigned_integral<U>` on the type of a value. -/
def number.is_unsigned_integral {D : Type} : number D → Bool
  | .unsigned _ => true
  | _ => false

namespace const_reference

/-- The member `const_reference::op<Binary>(const U& x)` of the cursor to cell `i` of
`b`. -/
def op_value (binary : number D → number D → Bool) (b : buffer_type D) (i : Nat)
    (x : number D) : Bool :=
  b.visit (fun T => binary (b.element T i) x)

/-- The member `const_reference::op<Binary>(const const_reference& x)` of the cursor to
cell `i` of `b`, for the cursor `x` to cell `ix` of `xb`. -/
def op_cursor (binary : number D → number D → Bool) (b : buffer_type D) (i : Nat)
    (xb : buffer_type D) (ix : Nat) : Bool :=
  xb.visit (fun U => op_value binary b i (xb.element U ix))

/-- The operator `x < y` of two cursors. -/
def lt (b : buffer_type D) (i : Nat) (yb : buffer_type D) (iy : Nat) : Bool :=
  op_cursor detail.less b i yb iy

/-- The operator `x > y` of two cursors. -/
def gt (b : buffer_type D) (i : Nat) (yb : buffer_type D) (iy : Nat) : Bool :=
  op_cursor detail.greater b i yb iy

/-- The operator `x == y` of two cursors. -/
def eq (b : buffer_type D) (i : Nat) (yb : buffer_type D) (iy : Nat) : Bool :=
  op_cursor detail.equal b i yb iy

/-- The friend `operator<=(x, y)` of two cursors: `!(y < x)`. -/
def le (b : buffer_type D) (i : Nat) (yb : buffer_type D) (iy : Nat) : Bool :=
  !(lt yb iy b i)

/-- The friend `operator>=(x, y)` of two cursors: `!(y > x)`. -/
def ge (b : buffer_type D) (i : Nat) (yb : buffer_type D) (iy : Nat) : Bool :=
  !(gt yb iy b i)

/-- The friend `operator!=` of two cursors, called as `x != y`: its parameters are named
`(y, x)` and it returns `!(x == y)`, the comparison of the right operand with the left. -/
def ne (b : buffer_type D) (i : Nat) (yb : buffer_type D) (iy : Nat) : Bool :=
  !(eq yb iy b i)

/-- The operator `x < u` of a cursor and a value. -/
def lt_value (b : buffer_type D) (i : Nat) (u : number D) : Bool :=
  op_value detail.less b i u

/-- The operator `x > u` of a cursor and a value. -/
def gt_value (b : buffer_type D) (i : Nat) (u : number D) : Bool :=
  op_value detail.greater b i u

/-- The operator `x == u` of a cursor and a value. -/
def eq_value (b : buffer_type D) (i : Nat) (u : number D) : Bool :=
  op_value detail.equal b i u

/-- The friend `operator<=(x, u)` of a cursor and a value. -/
def le_value (b : buffer_type D) (i : Nat) (u : number D) : Bool :=
  if u.is_unsigned_integral then !(gt_value b i u)
  else lt_value b i u || eq_value b i u

/-- The friend `operator>=(x, u)` of a cursor and a value. -/
def ge_value (b : buffer_type D) (i : Nat) (u : number D) : Bool :=
  if u.is_unsigned_integral then !(lt_value b i u)
  else gt_value b i u || eq_value b i u

/-- The friend `operator!=(y, u)` of a cursor and a value. -/
def ne_value (b : buffer_type D) (i : Nat) (u : number D) : Bool :=
  !(eq_value b i u)

/-- The friend `operator>(u, y)` of a value and a cursor: `y < u`. -/
def value_gt (u : number D) (b : buffer_type D) (i : Nat) : Bool :=
  lt_value b i u

/-- The friend `operator<(u, y)` of a value and a cursor: `y > u`. -/
def value_lt (u : number D) (b : buffer_type D) (i : Nat) : Bool :=
  gt_value b i u

/-- The friend `operator<=(u, y)` of a value and a cursor. -/
def value_le (u : number D) (b : buffer_type D) (i : Nat) : Bool :=
  if u.is_unsigned_integral then !(lt_value b i u)
  else gt_value b i u || eq_value b i u

/-- The friend `operator>=(u, y)` of a value and a cursor. -/
def value_ge (u : number D) (b : buffer_type D) (i : Nat) : Bool :=
  if u.is_unsigned_integral then !(gt_value b i u)
  else lt_value b i u || eq_value b i u

/-- The friend `operator==(u, x)` of a value and a cursor: `x == u`. -/
def value_eq (u : number D) (b : buffer_type D) (i : Nat) : Bool :=
  eq_value b i u

/-- The friend `operator!=(u, x)` of a value and a cursor: `!(x == u)`. -/
def value_ne (u : number D) (b : buffer_type D) (i : Nat) : Bool :=
  !(eq_value b i u)

end const_reference

/-- The member `unlimited_storage::operator==(const Iterable& iterable)`, the iterable given
as the list of its elements. -/
def unlimited_storage.operator_eq_iterable (s : unlimited_storage D)
    (iterable : List (number D)) : Bool :=
  if s.size ≠ iterable.length then false
  else s.buffer_.visit (fun T =>
    unlimited_storage.std_equal iterable.length (s.buffer_.element T)
      (fun k => iterable.getD k (.unsigned 0)))

/-- Integers extended by a NaN (`none`), as a stand-in for double with its NaN: every
operation on a NaN gives a NaN, and every comparison with a NaN is false, as for the NaN
of IEEE 754. -/
instance : DoubleOps (Option Int) where
  zero := some 0
  one := some 1
  ofUInt n := some n
  ofInt z := some z
  ofLarge n := some n
  add a b := a.bind (fun x => b.map (fun y => x + y))
  mul a b := a.bind (fun x => b.map (fun y => x * y))
  neg a := a.map (fun x => -x)
  div a b := a.bind (fun x => b.map (fun y => x / y))
  eq a b := match a, b with
    | some x, some y => decide (x = y)
    | _, _ => false
  lt a b := match a, b with
    | some x, some y => decide (x < y)
    | _, _ => false

/-- A sample storage of two double cells holding NaN and 1.0. -/
def sample_nan : buffer_type (Option Int) :=
  { size := 2, type := 5, ptr := some (.floating [none, some 1]) }

/-- The two overloads `is_x_unsigned(std::true_type, T* tp, b, i, x)` as in
`adder.is_x_unsigned_true`, together with the number of calls of `make` (widenings) the
chain of instantiations performs. -/
def adder.is_x_unsigned_true_counted : Nat → buffer_type D → Nat → Nat → buffer_type D × Nat
  | 0, b, i, x => (b.store_int i (b.int_at i + x), 0)
  | k + 1, b, i, x =>
    let T := 3 - k
    match detail.safe_radd T (b.int_at i) x with
    | some v => (b.store_int i v, 0)
    | none =>
      let y := x
      let b1 := b.make_from (T + 1) T b.size b.ptr
      let r := adder.is_x_unsigned_true_counted k b1 i y
      (r.1, r.2 + 1)

/-- The functor `incrementor` as in `incrementor`, together with the number of calls of
`make` it performs. -/
def incrementor_counted (T : Nat) (b : buffer_type D) (i : Nat) : buffer_type D × Nat :=
  if T = 5 then (b.store_dbl i (DoubleOps.add (b.dbl_at i) DoubleOps.one), 0)
  else if T = 4 then (b.store_int i (b.int_at i + 1), 0)
  else
    match detail.safe_increment T (b.int_at i) with
    | some v => (b.store_int i v, 0)
    | none =>
      let b1 := b.make_from (T + 1) T b.size b.ptr
      (b1.store_int i (wrap (T + 1) (b1.int_at i + 1)), 1)

/-- Prefix increment of the cursor to cell `i`, with the number of widenings. -/
def reference.increment_counted (b : buffer_type D) (i : Nat) : buffer_type D × Nat :=
  b.visit (fun T => incrementor_counted T b i)

/-- The operator `cell[i] += x` for an unsigned integer `x`, with the number of widenings:
the `double*` overload of `adder` performs none, the other buffers go to
`is_x_unsigned`. -/
def reference.add_assign_unsigned_counted (b : buffer_type D) (i x : Nat) :
    buffer_type D × Nat :=
  b.visit (fun T =>
    if T = 5 then (adder.call_double b i (.unsigned x), 0)
    else adder.is_x_unsigned_true_counted (4 - T) b i x)

/-- A cursor (`const_reference` or `reference`): the buffer `bref_` it refers to and the
index `idx_` of its cell. -/
structure cursor (D : Type) where
  bref_ : buffer_type D
  idx_ : Nat
  deriving DecidableEq

/-- The member `unlimited_storage::operator[](i)`: the cursor `{buffer_, i}`. -/
def unlimited_storage.at (s : unlimited_storage D) (i : Nat) : cursor D :=
  { bref_ := s.buffer_, idx_ := i }

/-- The class `unlimited_storage::iterator_impl`: the buffer `buffer_` points to and the
position `base()` kept by its base class `detail::iterator_adaptor`. -/
structure iterator_impl (D : Type) where
  buffer_ : buffer_type D
  base : Nat
  deriving DecidableEq

namespace iterator_impl

/-- The member `iterator_impl::operator*()`: the fresh cursor `{*buffer_, this->base()}`. -/
def deref (it : iterator_impl D) : cursor D :=
  { bref_ := it.buffer_, idx_ := it.base }

/-- Modelled from the spec: `operator++` of `detail::iterator_adaptor` (outside src/), a
random-access traversal over positions: the position moves on by one. -/
def increment (it : iterator_impl D) : iterator_impl D :=
  { it with base := it.base + 1 }

/-- Modelled from the spec: `operator+` of `detail::iterator_adaptor` (outside src/),
the position plus an offset. -/
def advance (it : iterator_impl D) (n : Nat) : iterator_impl D :=
  { it with base := it.base + n }

/-- Modelled from the spec: `operator==` of `detail::iterator_adaptor` (outside src/):
"equality/ordering compares positions, not values". -/
def equal (a b : iterator_impl D) : Bool :=
  a.base == b.base

/-- The loop `for (it = first; it != last; ++it)` collecting the cursors `*it`. The first
argument bounds the number of evaluations of the loop condition; `none` means that the
loop has not ended within the bound. -/
def traverse : Nat → iterator_impl D → iterator_impl D → Option (List (cursor D))
  | 0, _, _ => none
  | fuel + 1, it, last =>
    if it.equal last then some []
    else (traverse fuel it.increment last).map (fun cs => it.deref :: cs)

end iterator_impl

/-- The member `unlimited_storage::begin()`: `{&buffer_, 0}`. -/
def unlimited_storage.begin (s : unlimited_storage D) : iterator_impl D :=
  { buffer_ := s.buffer_, base := 0 }

/-- The member `unlimited_storage::end()`: `{&buffer_, size()}`. -/
def unlimited_storage.end_ (s : unlimited_storage D) : iterator_impl D :=
  { buffer_ := s.buffer_, base := s.size }

/-- An iterable passed to the converting constructor of `unlimited_storage`, told apart by
the value type `V` of its iterator, with its elements. -/
inductive iterable (D : Type) : Type 1 where
  /-- The value type is the fixed-width unsigned type with index `T` (0..3). -/
  | unsigned (T : Nat) (xs : List Nat)
  /-- The value type is large_int. -/
  | large_int (xs : List Nat)
  /-- The value type is double. -/
  | floating (xs : List D)
  /-- The value type is a signed integer type such as int, which is no member of `types`. -/
  | signed (xs : List Int)
  /-- The value type is any other type that is no member of `types`: bool, char16_t, an
  unsigned integer type that is none of the four fixed-width ones, float, long double and
  so on. Its values are the elements of `E`, and `cast` is `static_cast<double>` on them. -/
  | other (E : Type) (cast : E → D) (xs : List E)

namespace iterable

/-- The constant `type_index<V>()`, that is `mp_find<types, V>`: the position of `V` in
`types`, or the length 6 of the list for a type that is not in it. -/
def type_index : iterable D → Nat
  | .unsigned T _ => T
  | .large_int _ => 4
  | .floating _ => 5
  | .signed _ => 6
  | .other _ _ _ => 6

/-- The value `std::distance(begin(s), end(s))`. -/
def distance : iterable D → Nat
  | .unsigned _ xs => xs.length
  | .large_int xs => xs.length
  | .floating xs => xs.length
  | .signed xs => xs.length
  | .other _ _ xs => xs.length

end iterable

/-- The member `buffer_type::make<double, U>(n, iter)` for an iterator `iter` over signed
integers: as `make_from`, each cell constructed by `static_cast<double>` of the signed
element. -/
def buffer_type.make_from_signed (b : buffer_type D) (n : Nat) (iter : List Int) :
    buffer_type D :=
  let new_ptr : Option (cells D) :=
    if n > 0 then some (.floating ((iter.take n).map (fun z => DoubleOps.ofInt z))) else none
  let new_type := 5
  let b1 := b.destroy
  { b1 with size := n, type := new_type, ptr := new_ptr }

/-- The member `buffer_type::make<double, U>(n, iter)` for an iterator `iter` over elements
of a type outside `types`: as `make_from`, each cell constructed by `static_cast<double>`
of the element, which is `cast`. -/
def buffer_type.make_from_other {E : Type} (b : buffer_type D) (n : Nat) (cast : E → D)
    (iter : List E) : buffer_type D :=
  let new_ptr : Option (cells D) :=
    if n > 0 then some (.floating ((iter.take n).map cast)) else none
  let new_type := 5
  let b1 := b.destroy
  { b1 with size := n, type := new_type, ptr := new_ptr }

/-- The member `buffer_type::make<T, U>(n, iter)` for `iter` the begin iterator of an
iterable: `make_from` for the element types of `types`; for the other element types only
`T = double` is instantiated. -/
def buffer_type.make_from_iterable (b : buffer_type D) (T n : Nat) (s : iterable D) :
    buffer_type D :=
  match s with
  | .unsigned U xs => b.make_from T U n (some (.integral xs))
  | .large_int xs => b.make_from T 4 n (some (.integral xs))
  | .floating xs => b.make_from T 5 n (some (.floating xs))
  | .signed xs => b.make_from_signed n xs
  | .other _ cast xs => b.make_from_other n cast xs

/-- The constructor `unlimited_storage(const Iterable& s)`: `make<V>` when `V` is a member of
`types` (`ti < nt`), else `make<double>`, on the default-constructed buffer. -/
def unlimited_storage.from_iterable (s : iterable D) : unlimited_storage D :=
  let ti := s.type_index
  let nt := 6
  let size := s.distance
  if ti < nt then { buffer_ := ({} : buffer_type D).make_from_iterable ti size s }
  else { buffer_ := ({} : buffer_type D).make_from_iterable 5 size s }

/-- A sample iterable of two values of an unsigned 64-bit type that is not `uint64_t`
(such as `unsigned long long` where `uint64_t` is `unsigned long`). -/
def sample_other_unsigned : iterable Int := .other Nat DoubleOps.ofUInt [0, 2 ^ 64 - 1]


/-- The result of an operation under an allocator that may fail: the buffer afterwards and
whether the operation left by the exception of a failed allocation. -/
structure outcome (D : Type) where
  buffer : buffer_type D
  thrown : Bool
  deriving DecidableEq

/-- The member `buffer_type::make<T, U>(n, iter)` under an allocator that may fail: `ok`
tells whether the allocation in `buffer_create` succeeds. `buffer_create` runs before
`destroy`, so a failure leaves the buffer as it was; for `n = 0` nothing is allocated. -/
def buffer_type.make_from_alloc (ok : Bool) (b : buffer_type D) (T U n : Nat)
    (iter : Option (cells D)) : outcome D :=
  if n > 0 ∧ ok = false then { buffer := b, thrown := true }
  else { buffer := b.make_from T U n iter, thrown := false }

/-- The functor `incrementor` under an allocator of which the next `a` allocations succeed
and the one after fails. -/
def incrementor_alloc (a : Nat) (T : Nat) (b : buffer_type D) (i : Nat) : outcome D :=
  if T = 5 then
    { buffer := b.store_dbl i (DoubleOps.add (b.dbl_at i) DoubleOps.one), thrown := false }
  else if T = 4 then { buffer := b.store_int i (b.int_at i + 1), thrown := false }
  else
    match detail.safe_increment T (b.int_at i) with
    | some v => { buffer := b.store_int i v, thrown := false }
    | none =>
      let r := b.make_from_alloc (decide (0 < a)) (T + 1) T b.size b.ptr
      if r.thrown then r
      else { buffer := r.buffer.store_int i (wrap (T + 1) (r.buffer.int_at i + 1)),
             thrown := false }

namespace adder

/-- The overload `is_x_integral(std::false_type, T* tp, b, i, const U& x)` under an
allocator that may fail. -/
def is_x_integral_false_alloc (a : Nat) (T : Nat) (b : buffer_type D) (i : Nat)
    (x : number D) : outcome D :=
  let v : D := x.to_double
  let r := b.make_from_alloc (decide (0 < a)) 5 T b.size b.ptr
  if r.thrown then r else { buffer := call_double r.buffer i (.floating v), thrown := false }

/-- The overload `is_x_integral(std::false_type, T* tp, b, i, const large_int& x)` under an
allocator that may fail. -/
def is_x_integral_false_large_int_alloc (a : Nat) (T : Nat) (b : buffer_type D) (i : Nat)
    (x : Nat) : outcome D :=
  let v := x
  let r := b.make_from_alloc (decide (0 < a)) 4 T b.size b.ptr
  if r.thrown then r else { buffer := call_large_int r.buffer i v, thrown := false }

/-- The two overloads `is_x_unsigned(std::true_type, T* tp, b, i, x)` under an allocator of
which the next `a` allocations succeed and the one after fails; the first argument is
`4 - T` as in `is_x_unsigned_true`. -/
def is_x_unsigned_true_alloc : Nat → Nat → buffer_type D → Nat → Nat → outcome D
  | 0, _, b, i, x => { buffer := b.store_int i (b.int_at i + x), thrown := false }
  | k + 1, a, b, i, x =>
    let T := 3 - k
    match detail.safe_radd T (b.int_at i) x with
    | some v => { buffer := b.store_int i v, thrown := false }
    | none =>
      let y := x
      let r := b.make_from_alloc (decide (0 < a)) (T + 1) T b.size b.ptr
      if r.thrown then r else is_x_unsigned_true_alloc k (a - 1) r.buffer i y

/-- The overload `is_x_unsigned(std::false_type, T* tp, b, i, x)` under an allocator that
may fail. -/
def is_x_unsigned_false_alloc (a : Nat) (T : Nat) (b : buffer_type D) (i : Nat) (x : Int) :
    outcome D :=
  if x ≥ 0 then is_x_unsigned_true_alloc (4 - T) a b i x.toNat
  else is_x_integral_false_alloc a T b i (.floating (DoubleOps.ofInt x))

/-- The call `adder()(tp, b, i, x)` under an allocator that may fail. -/
def call_alloc (a : Nat) (T : Nat) (b : buffer_type D) (i : Nat) (x : number D) :
    outcome D :=
  if T = 5 then { buffer := call_double b i x, thrown := false }
  else
    match x with
    | .large v =>
      if T = 4 then { buffer := call_large_int b i v, thrown := false }
      else is_x_integral_false_large_int_alloc a T b i v
    | .unsigned v => is_x_unsigned_true_alloc (4 - T) a b i v
    | .signed v => is_x_unsigned_false_alloc a T b i v
    | .floating v => is_x_integral_false_alloc a T b i (.floating v)

end adder

namespace multiplier

/-- The call `multiplier()(tp, b, x)` on the whole buffer under an allocator that may
fail. -/
def call_alloc (a : Nat) (T : Nat) (b : buffer_type D) (x : D) : outcome D :=
  if T = 5 then { buffer := call_double b x, thrown := false }
  else
    let r := b.make_from_alloc (decide (0 < a)) 5 T b.size b.ptr
    if r.thrown then r else { buffer := call_double r.buffer x, thrown := false }

/-- The call `multiplier()(tp, b, i, x)` on one cell under an allocator that may fail. -/
def call_at_alloc (a : Nat) (T : Nat) (b : buffer_type D) (i : Nat) (x : D) : outcome D :=
  if T = 5 then { buffer := call_double_at b i x, thrown := false }
  else
    let r := b.make_from_alloc (decide (0 < a)) 5 T b.size b.ptr
    if r.thrown then r else { buffer := call_double_at r.buffer i x, thrown := false }

end multiplier

/-- The operations of a storage under an allocator of which the next `a` allocations succeed
and the one after fails. A cursor operand is read before the buffer is changed, as the
header does (`xi` in the assignment, `y` in `is_x_unsigned`). -/
def operation.apply_alloc (a : Nat) (op : operation D) (b : buffer_type D) : outcome D :=
  match op with
  | .increment i => b.visit (fun T => incrementor_alloc a T b i)
  | .add_assign i x => b.visit (fun T => adder.call_alloc a T b i x)
  | .mul_assign i x => b.visit (fun T => multiplier.call_at_alloc a T b i x)
  | .assign i x => b.visit (fun T => adder.call_alloc a T (reference.zero_cell T b i) i x)
  | .storage_mul_assign x => b.visit (fun T => multiplier.call_alloc a T b x)
  | .sub_assign i x =>
    b.visit (fun T => adder.call_alloc a T b i (.floating (DoubleOps.neg x)))
  | .div_assign i x =>
    b.visit (fun T => multiplier.call_at_alloc a T b i (DoubleOps.div DoubleOps.one x))
  | .add_assign_other i xb ix =>
    xb.visit (fun U => b.visit (fun T => adder.call_alloc a T b i (xb.element U ix)))
  | .assign_cursor i xb ix =>
    xb.visit (fun U => b.visit (fun T =>
      adder.call_alloc a T (reference.zero_cell T b i) i (xb.element U ix)))
  | .add_assign_cursor i ix =>
    b.visit (fun T => adder.call_alloc a T b i (b.element T ix))

/-- A C++ type that occurs as an alternative of an axis variant or as the template argument
of `get_if`: an axis class (named by a number), the same class const-qualified, or
`std::reference_wrapper` of such a type. -/
inductive cpp_type where
  | axis (id : Nat)
  | const_axis (id : Nat)
  | reference_wrapper (t : cpp_type)
  deriving DecidableEq

namespace cpp_type

/-- The type `const T`. -/
def add_const : cpp_type → cpp_type
  | .axis id => .const_axis id
  | t => t

/-- The type `detail::remove_cvref_t<T>`. -/
def remove_cvref : cpp_type → cpp_type
  | .const_axis id => .axis id
  | t => t

/-- The axis class behind a type: the class itself, with `const` and `reference_wrapper`
taken off. -/
def axis_id : cpp_type → Nat
  | .axis id => id
  | .const_axis id => id
  | .reference_wrapper t => t.axis_id

/-- The type is an axis class. -/
def is_axis : cpp_type → Bool
  | .axis _ => true
  | _ => false

/-- The type is `reference_wrapper` of an axis class. -/
def is_ref_axis : cpp_type → Bool
  | .reference_wrapper (.axis _) => true
  | _ => false

/-- The type is `reference_wrapper` of a const axis class. -/
def is_cref_axis : cpp_type → Bool
  | .reference_wrapper (.const_axis _) => true
  | _ => false

end cpp_type

namespace detail

/-- The trait `detail::ref_handler<T, V>` for a variant `V` whose first alternative is
`first`: the pair (`is_ref`, `type`). The specialization for `reference_wrapper<const U>` is
the more specialized one and wins for a wrapper of a const type. -/
def ref_handler (T : cpp_type) (first : cpp_type) : Bool × cpp_type :=
  match first with
  | .reference_wrapper (.const_axis _) => (true, .reference_wrapper T.add_const)
  | .reference_wrapper _ => (true, .reference_wrapper T)
  | _ => (false, T)

end detail

namespace axis

/-- The exception thrown by the converting assignment. -/
inductive exception where
  | runtime_error
  deriving DecidableEq

/-- An object of class `axis::variant<Ts...>`: the alternatives `first :: rest` (the list
`Ts...`, not empty), the index of the alternative held, the address of the held alternative
inside the variant, the address of the axis a held `reference_wrapper` refers to, and the
state of the axis held or referred to. -/
structure variant where
  first : cpp_type
  rest : List cpp_type
  index : Nat
  object : Nat
  target : Nat
  value : Nat
  deriving DecidableEq

namespace variant

/-- The list `Ts...`. -/
def types (v : variant) : List cpp_type := v.first :: v.rest

/-- The type of the alternative held. -/
def held (v : variant) : Option cpp_type := v.types.get? v.index

/-- Modelled from the spec: `detail::variant<Ts...>::get_if<X>()` (detail/variant.hpp is
outside src/). The specification leaves the variant mechanism to an external collaborator;
the model follows the documentation of `axis::get_if` in variant.hpp, "pointer to T in
variant or null pointer if type does not match": the address of the held alternative when
its type is `X`, else the null pointer. -/
def impl_get_if (X : cpp_type) (v : variant) : Option Nat :=
  if v.held = some X then some v.object else none

/-- The address of the axis held by `v`: the axis referred to when the held alternative is
a `reference_wrapper`, else the held alternative itself. -/
def axis_address (v : variant) : Nat :=
  match v.held with
  | some (.reference_wrapper _) => v.target
  | _ => v.object

/-- The variant holds, by value or through a `reference_wrapper`, an axis of the class
`id`. -/
def holds_axis (v : variant) (id : Nat) : Prop :=
  v.held.map cpp_type.axis_id = some id

instance (v : variant) (id : Nat) : Decidable (v.holds_axis id) := by
  unfold holds_axis
  infer_instance

/-- The three kinds of variant the class is written for: every alternative an axis class,
every alternative a `reference_wrapper` of an axis class, or every alternative a
`reference_wrapper` of a const axis class. The members decide the kind from the first
alternative alone. -/
def uniform (v : variant) : Prop :=
  v.types.all cpp_type.is_axis = true ∨
  v.types.all cpp_type.is_ref_axis = true ∨
  v.types.all cpp_type.is_cref_axis = true

instance (v : variant) : Decidable v.uniform := by
  unfold uniform
  infer_instance

/-- Modelled from the spec: the assignment `impl = t` of `detail::variant<Ts...>`
(detail/variant.hpp is outside src/) for an object `t` of the alternative type `U`: the
variant then holds the alternative `U` with the state of `t`. -/
def impl_assign (v : variant) (U : cpp_type) (target value : Nat) : variant :=
  { v with index := v.types.indexOf U, target := target, value := value }

end variant

/-- The member `detail::variant_access::get_if<T>(v)`: with `H = ref_handler<T, Variant>`,
`p = v.impl.get_if<H::type>()`, and the result `p ? &p->get() : nullptr` for a reference
variant, `p` otherwise. -/
def variant_access_get_if (T : cpp_type) (v : variant) : Option Nat :=
  let H := detail.ref_handler T v.first
  let p := v.impl_get_if H.2
  if H.1 then
    match p with
    | some _ => some v.target
    | none => none
  else p

/-- The functions `axis::get_if<T>(variant<Us...>* v)` and its const overload. -/
def get_if (T : cpp_type) (v : variant) : Option Nat :=
  variant_access_get_if T v

/-- The pass-through `axis::get_if<T>(U* u)` and its const overload for an object of type
`U` at the address `u`. -/
def get_if_pass_through (T U : cpp_type) (u : Option Nat) : Option Nat :=
  if T = U.remove_cvref then u else none

/-- Modelled from the spec: the call of the visitor by `detail::variant<Ts...>::apply`
(detail/variant.hpp is outside src/) as `variant_access::apply` uses it: the visitor
receives the held alternative, or `ref.get()` of it for a reference variant, and
`remove_cvref_t` of that is the type `U` in the lambda of the converting assignment. The
result is `none` when no alternative is held or `ref.get()` does not apply. -/
def visited_type (u : variant) : Option cpp_type :=
  let H := detail.ref_handler (.axis 0) u.first
  match u.held with
  | none => none
  | some t =>
    if H.1 then
      match t with
      | .reference_wrapper r => some r.remove_cvref
      | _ => none
    else some t.remove_cvref

/-- The member `variant::operator=(const variant<Us...>& u)`: the variant afterwards and
the exception thrown, if any. When `U` is one of the alternatives of `v`
(`is_bounded_type<U>`), `this->operator=(u)` assigns the axis to `impl`; otherwise
`std::runtime_error` is thrown before `v` is touched. -/
def operator_assign (v u : variant) : variant × Option exception :=
  match visited_type u with
  | none => (v, none)
  | some U =>
    if U ∈ v.types then (v.impl_assign U u.target u.value, none)
    else (v, some .runtime_error)

end axis

/-- A sample variant over two axis classes holding an axis of class 1. -/
def sample_variant : axis.variant :=
  { first := .axis 0, rest := [.axis 1], index := 1, object := 100, target := 0, value := 7 }

/-- A sample variant over references to const axes of two classes, holding a reference to
an axis of class 1 at address 200. -/
def sample_variant_cref : axis.variant :=
  { first := .reference_wrapper (.const_axis 0),
    rest := [.reference_wrapper (.const_axis 1)],
    index := 1, object := 100, target := 200, value := 7 }

/-- A sample variant that mixes the kinds, over the axis class 0 and a reference to an axis
of class 1: it holds the reference, to an axis at address 200. -/
def sample_variant_mixed : axis.variant :=
  { first := .axis 0, rest := [.reference_wrapper (.axis 1)],
    index := 1, object := 100, target := 200, value := 7 }

/-- A sample variant that mixes the kinds, over a reference to a const axis of class 0 and
a reference to a non-const axis of class 1: it holds the latter, to an axis at address
200. -/
def sample_variant_mixed_ref : axis.variant :=
  { first := .reference_wrapper (.const_axis 0), rest := [.reference_wrapper (.axis 1)],
    index := 1, object := 100, target := 200, value := 7 }

/-! ### Arrays with a lifetime

The definitions above pass a buffer by value, so that a pointer into its array cannot
outlive the array. The definitions of this part keep the arrays in a free store in which
`destroy` releases an array, and follow `cell[i] += x` for an operand `x` that is a
reference to a cell of an array. Reading or writing a released array is undefined
behaviour, the result `none`. -/

namespace lifetime

/-- The struct `unlimited_storage::buffer_type` without its allocator, together with the
free store: `arrays` holds the arrays allocated so far, by address, `none` for an array that
has been released; `ptr` is the address of the array of the buffer, `none` for the null
pointer. -/
structure buffer_type (D : Type) where
  arrays : List (Option (cells D)) := []
  size : Nat := 0
  type : Nat := 0
  ptr : Option Nat := none
  deriving DecidableEq

/-- The operand `const U& x` of the adder, of an unsigned integer type: a reference to an
object that is no cell of an array (a temporary, or a local such as `y`), given by the value
of the object, or a reference to the cell `ix` of the array at the address `p`. -/
inductive operand where
  | value (v : Nat)
  | element (p ix : Nat)
  deriving DecidableEq

namespace buffer_type

/-- The array at the address `p`, `none` when it has been released or was never
allocated. -/
def load (s : buffer_type D) (p : Nat) : Option (cells D) :=
  s.arrays.getD p none

/-- Reads `p[i]` for a pointer `p` to an integer type. -/
def int_at (s : buffer_type D) (p i : Nat) : Option Nat :=
  match s.load p with
  | some (.integral xs) => some (xs.getD i 0)
  | _ => none

/-- Reads `p[i]` for a pointer `p` to double. -/
def dbl_at (s : buffer_type D) (p i : Nat) : Option D :=
  match s.load p with
  | some (.floating xs) => some (xs.getD i DoubleOps.zero)
  | _ => none

/-- Writes `p[i] = v` for a pointer `p` to an integer type. -/
def store_int (s : buffer_type D) (p i v : Nat) : Option (buffer_type D) :=
  match s.load p with
  | some (.integral xs) =>
    some { s with arrays := s.arrays.set p (some (.integral (xs.set i v))) }
  | _ => none

/-- Writes `p[i] = v` for a pointer `p` to double. -/
def store_dbl (s : buffer_type D) (p i : Nat) (v : D) : Option (buffer_type D) :=
  match s.load p with
  | some (.floating xs) =>
    some { s with arrays := s.arrays.set p (some (.floating (xs.set i v))) }
  | _ => none

/-- The value read through the operand `x`. -/
def read (s : buffer_type D) : operand → Option Nat
  | .value v => some v
  | .element p ix => s.int_at p ix

/-- The buffer by value: the members with the array behind `ptr`, `none` when `ptr` points
to a released array. -/
def value (s : buffer_type D) : Option (boost_histogram.buffer_type D) :=
  match s.ptr with
  | none => some { size := s.size, type := s.type, ptr := none }
  | some p =>
    match s.load p with
    | some c => some { size := s.size, type := s.type, ptr := some c }
    | none => none

/-- The member `buffer_type::visit`: the if-chain over `type`. -/
def visit {α : Type} (s : buffer_type D) (f : Nat → α) : α :=
  if s.type = 0 then f 0
  else if s.type = 1 then f 1
  else if s.type = 2 then f 2
  else if s.type = 3 then f 3
  else if s.type = 4 then f 4
  else f 5

/-- The member `buffer_type::destroy`: `buffer_destroy` releases the array. -/
def destroy (s : buffer_type D) : buffer_type D :=
  match s.ptr with
  | none => s
  | some p => { s with arrays := s.arrays.set p none, size := 0, type := 0, ptr := none }

/-- The member `buffer_type::make<T, U>(n, iter)` for a pointer `iter` to cells of type `U`:
`buffer_create(a, n, iter)` allocates the new array at a fresh address and reads the cells
`iter[0..n)`, then `destroy` releases the old array, then the members are set. -/
def make_from (s : buffer_type D) (T U n : Nat) (iter : Nat) : Option (buffer_type D) :=
  let created : Option (List (Option (cells D)) × Option Nat) :=
    if n > 0 then
      match s.load iter with
      | some src =>
        some (s.arrays ++ [some (detail.buffer_create_from T U n (some src))],
          some s.arrays.length)
      | none => none
    else some (s.arrays, none)
  match created with
  | none => none
  | some (arrays, new_ptr) =>
    let new_type := T
    let s1 := ({ s with arrays := arrays } : buffer_type D).destroy
    some { s1 with size := n, type := new_type, ptr := new_ptr }

end buffer_type

namespace adder

/-- The two overloads `is_x_unsigned(std::true_type, T* tp, b, i, const U& x)`, the first
argument counting the fixed-width types from `T` up to `uint64_t` as in the by-value
definition. `safe_radd(tp[i], x)` reads the cell and the operand; `const auto y = x` reads
the operand again, before `make` releases the array `tp`; the next instantiation gets the
new `b.ptr` and a reference to the local `y`. -/
def is_x_unsigned_true :
    Nat → buffer_type D → Nat → Nat → operand → Option (buffer_type D)
  | 0, s, tp, i, x =>
    match s.int_at tp i, s.read x with
    | some t, some u => s.store_int tp i (t + u)
    | _, _ => none
  | k + 1, s, tp, i, x =>
    let T := 3 - k
    match s.int_at tp i, s.read x with
    | some t, some u =>
      match detail.safe_radd T t u with
      | some v => s.store_int tp i v
      | none =>
        match s.read x with
        | none => none
        | some y =>
          match s.make_from (T + 1) T s.size tp with
          | none => none
          | some s1 =>
            match s1.ptr with
            | none => none
            | some tp1 => is_x_unsigned_true k s1 tp1 i (.value y)
    | _, _ => none

/-- The call `adder()(tp, b, i, x)` with `tp` a pointer to the type with index `T` and `x`
a reference to the cell `xp[ix]` of the same type: the `double*` overload, the `large_int*`
overload (`tp[i] += x`, of which the header notes that adding a large_int to itself is
safe), and the template, which for an unsigned integral operand goes to
`is_x_unsigned(std::true_type, ...)`. -/
def call (T : Nat) (s : buffer_type D) (tp i xp ix : Nat) : Option (buffer_type D) :=
  if T = 5 then
    match s.dbl_at tp i, s.dbl_at xp ix with
    | some t, some u => s.store_dbl tp i (DoubleOps.add t u)
    | _, _ => none
  else if T = 4 then
    match s.int_at tp i, s.int_at xp ix with
    | some t, some u => s.store_int tp i (t + u)
    | _, _ => none
  else is_x_unsigned_true (4 - T) s tp i (.element xp ix)

end adder

namespace reference

/-- The operator `reference::operator+=(const const_reference& x)` when `x` is a cursor to
cell `ix` of the same buffer: `x.bref_.visit` passes the reference `xp[ix]` on to
`operator+=(const U& x)`, which visits the buffer again and calls the adder with `tp`. A
null `ptr` is outside the precondition `idx_ < bref_.size` of a cursor. -/
def add_assign_cursor (s : buffer_type D) (i ix : Nat) : Option (buffer_type D) :=
  s.visit (fun _ =>
    match s.ptr with
    | none => none
    | some xp =>
      s.visit (fun T =>
        match s.ptr with
        | none => none
        | some tp => adder.call T s tp i xp ix))

end reference

/-- A sample storage of three 8-bit cells holding 255, 7 and 0, its array at the address
0 of the free store. -/
def sample_uint8 : buffer_type Int :=
  { arrays := [some (.integral [255, 7, 0])], size := 3, type := 0, ptr := some 0 }

end lifetime

/-! ## Auxiliary facts -/

section lemmas

variable {D : Type}

theorem bits_mono {T U : Nat} (h : T ≤ U) : bits T ≤ bits U := by
  unfold bits
  exact Nat.mul_le_mul_left 8 (Nat.pow_le_pow_right (by decide) h)

theorem bits_lt_succ (T : Nat) : bits T < bits (T + 1) := by
  unfold bits
  have h : 0 < 2 ^ T := Nat.pow_pos (by decide)
  rw [Nat.pow_succ]
  omega

theorem fits_mono {T U v : Nat} (h : T ≤ U) (hv : fits T v) : fits U v := by
  intro hU
  have hT4 : T < 4 := by omega
  exact Nat.lt_of_lt_of_le (hv hT4) (Nat.pow_le_pow_right (by decide) (bits_mono h))

theorem wrap_of_fits {T v : Nat} (hv : fits T v) : wrap T v = v := by
  unfold wrap
  split
  · rename_i h
    exact Nat.mod_eq_of_lt (hv h)
  · rfl

theorem map_wrap_of_fits {T : Nat} {xs : List Nat} (h : ∀ v ∈ xs, fits T v) :
    xs.map (wrap T) = xs := by
  induction xs with
  | nil => rfl
  | cons a t ih =>
    simp only [List.map_cons, List.mem_cons, forall_eq_or_imp] at h ⊢
    rw [wrap_of_fits h.1, ih h.2]

theorem visit_of_lt {α : Type} (b : buffer_type D) (f : Nat → α) (h : b.type < 6) :
    b.visit f = f b.type := by
  unfold buffer_type.visit
  have : b.type = 0 ∨ b.type = 1 ∨ b.type = 2 ∨ b.type = 3 ∨ b.type = 4 ∨ b.type = 5 := by
    omega
  rcases this with h | h | h | h | h | h <;> simp [h]

theorem well_formed_type_lt (b : buffer_type D) (h : b.well_formed) : b.type < 6 := by
  unfold buffer_type.well_formed at h
  split at h
  · exact h.2
  · omega
  · omega

/-- A well-formed buffer of an integer type with at least one cell is an array of `size`
integers in the range of its type. -/
theorem well_formed_integral (b : buffer_type D) (h : b.well_formed) (hT : b.type < 5)
    (hn : 0 < b.size) :
    ∃ xs : List Nat, b = { size := b.size, type := b.type, ptr := some (.integral xs) } ∧
      xs.length = b.size ∧ ∀ v ∈ xs, fits b.type v := by
  obtain ⟨n, T, p⟩ := b
  unfold buffer_type.well_formed at h
  simp only at h hT hn ⊢
  match p, h with
  | none, h => omega
  | some (.integral xs), h => exact ⟨xs, rfl, h.2.1, h.2.2.2⟩
  | some (.floating xs), h => omega

/-- A well-formed buffer of doubles with at least one cell is an array of `size` doubles. -/
theorem well_formed_floating (b : buffer_type D) (h : b.well_formed) (hT : b.type = 5)
    (hn : 0 < b.size) :
    ∃ xs : List D, b = { size := b.size, type := 5, ptr := some (.floating xs) } ∧
      xs.length = b.size := by
  obtain ⟨n, T, p⟩ := b
  unfold buffer_type.well_formed at h
  simp only at h hT hn ⊢
  match p, h with
  | none, h => omega
  | some (.integral xs), h => omega
  | some (.floating xs), h => subst hT; exact ⟨xs, rfl, h.2.1⟩

/-- The three shapes of a well-formed buffer: empty, an integer array, an array of
doubles. -/
theorem well_formed_cases (b : buffer_type D) (h : b.well_formed) :
    (b = { size := 0, type := b.type, ptr := none } ∧ b.type < 6) ∨
    (∃ xs : List Nat, b = { size := b.size, type := b.type, ptr := some (.integral xs) } ∧
      0 < b.size ∧ xs.length = b.size ∧ b.type < 5 ∧ ∀ v ∈ xs, fits b.type v) ∨
    (∃ ds : List D, b = { size := b.size, type := 5, ptr := some (.floating ds) } ∧
      0 < b.size ∧ ds.length = b.size) := by
  obtain ⟨n, T, p⟩ := b
  unfold buffer_type.well_formed at h
  match p, h with
  | none, h =>
    simp only at h
    left
    exact ⟨by rw [h.1], h.2⟩
  | some (.integral xs), h => exact Or.inr (Or.inl ⟨xs, rfl, h⟩)
  | some (.floating ds), h =>
    simp only at h
    right
    right
    exact ⟨ds, by rw [h.2.2], h.1, h.2.1⟩

/-- The if-chain of `visit` calls the functor at one index, the same for every functor. -/
theorem visit_eq_apply {α : Type} (b : buffer_type D) (f : Nat → α) :
    b.visit f = f (b.visit id) := by
  unfold buffer_type.visit
  repeat' split
  all_goals rfl

theorem store_int_type (b : buffer_type D) (i v : Nat) : (b.store_int i v).type = b.type := by
  unfold buffer_type.store_int
  split <;> rfl

theorem store_dbl_type (b : buffer_type D) (i : Nat) (v : D) :
    (b.store_dbl i v).type = b.type := by
  unfold buffer_type.store_dbl
  split <;> rfl

/-- The index at which `visit` calls the functor: `type` itself below 5, else 5. -/
theorem visit_id_cases (b : buffer_type D) :
    (b.type < 5 ∧ b.visit id = b.type) ∨ (5 ≤ b.type ∧ b.visit id = 5) := by
  by_cases h : b.type < 5
  · exact Or.inl ⟨h, visit_of_lt b id (by omega)⟩
  · refine Or.inr ⟨by omega, ?_⟩
    unfold buffer_type.visit
    rw [if_neg (by omega), if_neg (by omega), if_neg (by omega), if_neg (by omega),
      if_neg (by omega)]
    rfl

variable [DoubleOps D]

/-- Rebuilding an array of integers of type `T` as integers of a wider type `U` keeps
every value. -/
theorem make_from_integral (n T U V : Nat) (xs : List Nat) (hn : 0 < n) (hl : xs.length = n)
    (hfit : ∀ v ∈ xs, fits T v) (hTU : T ≤ U) (hU : U ≤ 4) :
    ({ size := n, type := T, ptr := some (.integral xs) } : buffer_type D).make_from U V n
        (some (.integral xs)) =
      { size := n, type := U, ptr := some (.integral xs) } := by
  have hU5 : U ≠ 5 := by omega
  have hfit2 : ∀ v ∈ xs, fits U v := fun v hv => fits_mono hTU (hfit v hv)
  subst hl
  simp [buffer_type.make_from, buffer_type.destroy, detail.buffer_create_from, hn, hU5,
    map_wrap_of_fits hfit2]

/-- Rebuilding an array of integers of type `T` as doubles converts every value. -/
theorem make_from_integral_double (n T : Nat) (xs : List Nat) (hn : 0 < n)
    (hl : xs.length = n) :
    ({ size := n, type := T, ptr := some (.integral xs) } : buffer_type D).make_from 5 T n
        (some (.integral xs)) =
      { size := n, type := 5, ptr := some (.floating (xs.map
        (fun v => if T = 4 then (DoubleOps.ofLarge v : D) else DoubleOps.ofUInt v))) } := by
  subst hl
  simp [buffer_type.make_from, buffer_type.destroy, detail.buffer_create_from, hn]

end lemmas
section add_lemmas

variable {D : Type}

theorem int_at_mk (n T : Nat) (xs : List Nat) (i : Nat) :
    ({ size := n, type := T, ptr := some (.integral xs) } : buffer_type D).int_at i
      = xs.getD i 0 := rfl

theorem store_int_mk (n T : Nat) (xs : List Nat) (i v : Nat) :
    ({ size := n, type := T, ptr := some (.integral xs) } : buffer_type D).store_int i v
      = { size := n, type := T, ptr := some (.integral (xs.set i v)) } := rfl

variable [DoubleOps D]

/-- The retry chain of `is_x_unsigned` on a well-formed integer array: the cell receives the
exact sum, no other cell changes, and the type is the first one from the current type on
whose range holds the sum. -/
theorem is_x_unsigned_true_mk (k : Nat) (hk : k ≤ 4) (n : Nat) (xs : List Nat) (i x : Nat)
    (hn : 0 < n) (hl : xs.length = n) (hfit : ∀ v ∈ xs, fits (4 - k) v) :
    ∃ U, adder.is_x_unsigned_true k
        ({ size := n, type := 4 - k, ptr := some (.integral xs) } : buffer_type D) i x
        = { size := n, type := U, ptr := some (.integral (xs.set i (xs.getD i 0 + x))) } ∧
      4 - k ≤ U ∧ U ≤ 4 ∧ fits U (xs.getD i 0 + x) ∧
      ∀ T, 4 - k ≤ T → T < U → ¬ fits T (xs.getD i 0 + x) := by
  induction k with
  | zero =>
    refine ⟨4, rfl, le_refl _, le_refl _, fun h => absurd h (by decide), ?_⟩
    intro T h1 h2
    omega
  | succ k ih =>
    have hT : 4 - (k + 1) = 3 - k := by omega
    have hT1 : 3 - k + 1 = 4 - k := by omega
    rw [hT] at hfit ⊢
    simp only [adder.is_x_unsigned_true, int_at_mk, detail.safe_radd]
    split
    · rename_i v hv
      split at hv
      · rename_i hle
        injection hv with hv
        subst hv
        refine ⟨3 - k, rfl, le_refl _, by omega, ?_, ?_⟩
        · intro _
          unfold max_value at hle
          have : 0 < 2 ^ bits (3 - k) := Nat.pow_pos (by decide)
          omega
        · intro T h1 h2
          omega
      · exact absurd hv (by simp)
    · rename_i hv
      split at hv
      · exact absurd hv (by simp)
      · rename_i hgt
        rw [make_from_integral n (3 - k) (3 - k + 1) (3 - k) xs hn hl hfit (by omega) (by omega),
          hT1]
        obtain ⟨U, hU, h1, h2, h3, h4⟩ :=
          ih (by omega) (fun v hv => fits_mono (by omega) (hfit v hv))
        refine ⟨U, hU, by omega, h2, h3, ?_⟩
        intro T hT2 hT3
        by_cases hc : T = 3 - k
        · subst hc
          intro hf
          have := hf (by omega)
          unfold max_value at hgt
          omega
        · exact h4 T (by omega) hT3

/-- The operator `+=` with a nonnegative integer operand on a well-formed integer array. -/
theorem add_assign_nonneg_mk (n T : Nat) (xs : List Nat) (i x : Nat) (op : number D)
    (hn : 0 < n) (hl : xs.length = n) (hfit : ∀ v ∈ xs, fits T v) (hT : T ≤ 4)
    (hop : op = .unsigned x ∨ op = .signed (x : Int)) :
    ∃ U, reference.add_assign
        ({ size := n, type := T, ptr := some (.integral xs) } : buffer_type D) i op
        = { size := n, type := U, ptr := some (.integral (xs.set i (xs.getD i 0 + x))) } ∧
      T ≤ U ∧ U ≤ 4 ∧ fits U (xs.getD i 0 + x) ∧
      ∀ V, T ≤ V → V < U → ¬ fits V (xs.getD i 0 + x) := by
  have hk : 4 - (4 - T) = T := by omega
  have key := is_x_unsigned_true_mk (D := D) (4 - T) (by omega) n xs i x hn hl
    (by rw [hk]; exact hfit)
  rw [hk] at key
  have h5 : T ≠ 5 := by omega
  have hcall : reference.add_assign
      ({ size := n, type := T, ptr := some (.integral xs) } : buffer_type D) i op
      = adder.is_x_unsigned_true (4 - T)
        ({ size := n, type := T, ptr := some (.integral xs) } : buffer_type D) i x := by
    unfold reference.add_assign
    rw [visit_of_lt _ _ (by simp only; omega)]
    rcases hop with h | h <;> subst h
    · simp [adder.call, h5]
    · simp [adder.call, h5, adder.is_x_unsigned_false]
  rw [hcall]
  exact key

end add_lemmas

/-! ## The claims -/

section claims

variable {D : Type} [DoubleOps D]

/-- C1: on a well-formed storage in an integer representation (8/16/32/64-bit or
large_int), for a valid index `i` and a nonnegative fixed-width integer `x` (unsigned, or
signed with `x ≥ 0`), after `cell[i] += x` the cell holds exactly `old_value + x` and the
representation is the first ladder member at or after the previous one whose range
contains `old_value + x`. -/
theorem add_assign_nonneg_integer (b : buffer_type D) (i x : Nat) (op : number D)
    (hwf : b.well_formed) (hT : b.type < 5) (hi : i < b.size) (_hx : x < 2 ^ 64)
    (hop : op = .unsigned x ∨ op = .signed (x : Int)) :
    (reference.add_assign b i op).int_at i = b.int_at i + x ∧
    b.type ≤ (reference.add_assign b i op).type ∧
    (reference.add_assign b i op).type < 5 ∧
    fits (reference.add_assign b i op).type (b.int_at i + x) ∧
    ∀ T, b.type ≤ T → T < (reference.add_assign b i op).type → ¬ fits T (b.int_at i + x) := by
  obtain ⟨xs, hb, hl, hfit⟩ := well_formed_integral b hwf hT (by omega)
  obtain ⟨U, hU, h1, h2, h3, h4⟩ :=
    add_assign_nonneg_mk (D := D) b.size b.type xs i x op (by omega) hl hfit (by omega) hop
  rw [← hb] at hU
  have hat : b.int_at i = xs.getD i 0 := by rw [hb]; rfl
  rw [hU, hat]
  refine ⟨?_, h1, by simp only; omega, h3, h4⟩
  rw [int_at_mk]
  simp [List.getD, hl, hi]

/-- Witness for C1: adding 70000 to the cell holding 7 of a 3-cell 8-bit storage. -/
theorem add_assign_nonneg_integer_witness :
    sample_uint8.well_formed ∧
    (reference.add_assign sample_uint8 1 (.unsigned 70000)).int_at 1 = 7 + 70000 :=
  ⟨by decide, (add_assign_nonneg_integer sample_uint8 1 70000 (.unsigned 70000)
    (by decide) (by decide) (by decide) (by decide) (Or.inl rfl)).1⟩

/-- The buffer after `reset(n)` does not depend on the prior state: `n` zero cells of the
8-bit type, or the empty buffer for `n = 0`. -/
theorem reset_buffer (s : unlimited_storage D) (n : Nat) :
    (s.reset n).buffer_ =
      if 0 < n then { size := n, type := 0, ptr := some (.integral (List.replicate n 0)) }
      else { size := 0, type := 0, ptr := none } := by
  obtain ⟨⟨m, T, p⟩⟩ := s
  by_cases hn : 0 < n
  · cases p <;>
      simp [unlimited_storage.reset, buffer_type.make, buffer_type.destroy,
        detail.buffer_create, hn]
  · have h0 : n = 0 := by omega
    subst h0
    cases p <;> simp [unlimited_storage.reset, buffer_type.make, buffer_type.destroy]

/-- C3: for every `n` and every prior state of the storage, after `reset(n)` the storage
has `size() == n`, is in the 8-bit unsigned representation, and every cell `i < n` is 0. -/
theorem reset_zero (s : unlimited_storage D) (n : Nat) :
    (s.reset n).size = n ∧ (s.reset n).buffer_.type = 0 ∧
    (s.reset n).buffer_.well_formed ∧
    ∀ i, i < n → (s.reset n).buffer_.cell i = .unsigned 0 ∧
      reference.to_double (s.reset n).buffer_ i = (DoubleOps.ofUInt 0 : D) := by
  unfold unlimited_storage.size
  rw [reset_buffer]
  by_cases hn : 0 < n
  · simp only [hn, if_true]
    refine ⟨trivial, trivial, ?_, ?_⟩
    · simp [buffer_type.well_formed, hn, fits]
    · intro i hi
      simp [buffer_type.cell, reference.to_double, buffer_type.visit, buffer_type.element,
        buffer_type.int_at, List.getD, hi, number.to_double]
  · have h0 : n = 0 := by omega
    subst h0
    simp [buffer_type.well_formed]

/-- Reading a cell of a fixed-width integer array. -/
theorem cell_mk_fixed (n T : Nat) (xs : List Nat) (i : Nat) (hT : T < 4) :
    ({ size := n, type := T, ptr := some (.integral xs) } : buffer_type D).cell i
      = .unsigned (xs.getD i 0) := by
  unfold buffer_type.cell
  rw [visit_of_lt _ _ (by simp only; omega)]
  have h5 : T ≠ 5 := by omega
  have h4 : T ≠ 4 := by omega
  simp only [buffer_type.element, h5, h4, if_false, int_at_mk]

/-- Prefix increment of a cell below the maximum of a fixed-width type. -/
theorem increment_mk_lt (n T : Nat) (xs : List Nat) (i : Nat) (hT : T < 4)
    (hv : xs.getD i 0 < max_value T) :
    reference.increment
        ({ size := n, type := T, ptr := some (.integral xs) } : buffer_type D) i
      = { size := n, type := T, ptr := some (.integral (xs.set i (xs.getD i 0 + 1))) } := by
  unfold reference.increment
  rw [visit_of_lt _ _ (by simp only; omega)]
  have h5 : T ≠ 5 := by omega
  have h4 : T ≠ 4 := by omega
  simp only [incrementor, h5, h4, if_false, detail.safe_increment, int_at_mk, hv, if_true,
    store_int_mk]

/-- Prefix increment of a cell that holds the maximum of a fixed-width type: the array is
rebuilt in the next type and the cell is incremented there. -/
theorem increment_mk_max (n T : Nat) (xs : List Nat) (i : Nat) (hT : T < 4) (hn : 0 < n)
    (hl : xs.length = n) (hfit : ∀ v ∈ xs, fits T v) (hv : xs.getD i 0 = max_value T) :
    reference.increment
        ({ size := n, type := T, ptr := some (.integral xs) } : buffer_type D) i
      = { size := n, type := T + 1,
          ptr := some (.integral (xs.set i (xs.getD i 0 + 1))) } := by
  unfold reference.increment
  rw [visit_of_lt _ _ (by simp only; omega)]
  have h5 : T ≠ 5 := by omega
  have h4 : T ≠ 4 := by omega
  have hw : wrap (T + 1) (max_value T + 1) = max_value T + 1 := by
    apply wrap_of_fits
    intro _
    have h1 : 0 < 2 ^ bits T := Nat.pow_pos (by decide)
    have h2 : 2 ^ bits T < 2 ^ bits (T + 1) :=
      Nat.pow_lt_pow_right (by decide) (bits_lt_succ T)
    unfold max_value
    omega
  simp only [incrementor, h5, h4, if_false, detail.safe_increment, int_at_mk, hv,
    lt_irrefl]
  rw [make_from_integral n T (T + 1) T xs hn hl hfit (by omega) (by omega)]
  simp only [int_at_mk, store_int_mk, hv, hw]

/-- The buffer after `k ≤ 255` increments of cell `i` of a freshly reset storage. -/
theorem iterate_increment_reset (s : unlimited_storage D) (n i k : Nat) (hn : 0 < n)
    (hi : i < n) (hk : k ≤ 255) :
    (fun b => reference.increment b i)^[k] (s.reset n).buffer_ =
      { size := n, type := 0, ptr := some (.integral ((List.replicate n 0).set i k)) } := by
  induction k with
  | zero =>
    rw [reset_buffer]
    simp only [hn, if_true, Function.iterate_zero, id]
    congr 3
    apply List.ext_getElem <;> simp
  | succ k ih =>
    rw [Function.iterate_succ_apply', ih (by omega)]
    have hg : ((List.replicate n 0).set i k).getD i 0 = k := by simp [List.getD, hi]
    rw [increment_mk_lt n 0 _ i (by decide) (by rw [hg]; unfold max_value bits; omega), hg]
    simp

/-- C2: starting from a storage freshly reset to size `n > 0` and incrementing cell
`i < n` repeatedly, after `k ≤ 255` increments the buffer is still 8-bit and cell `i` equals
`k`; after the 256th increment the buffer is 16-bit and cell `i` equals exactly 256. -/
theorem increment_256 (s : unlimited_storage D) (n i : Nat) (hn : 0 < n) (hi : i < n) :
    (∀ k, k ≤ 255 →
      ((fun b => reference.increment b i)^[k] (s.reset n).buffer_).type = 0 ∧
      ((fun b => reference.increment b i)^[k] (s.reset n).buffer_).cell i = .unsigned k) ∧
    ((fun b => reference.increment b i)^[256] (s.reset n).buffer_).type = 1 ∧
    ((fun b => reference.increment b i)^[256] (s.reset n).buffer_).cell i = .unsigned 256 := by
  have hg : ∀ k, ((List.replicate n 0).set i k).getD i 0 = k := by
    intro k
    simp [List.getD, hi]
  constructor
  · intro k hk
    rw [iterate_increment_reset s n i k hn hi hk, cell_mk_fixed _ _ _ _ (by decide), hg]
    exact ⟨rfl, rfl⟩
  · rw [Function.iterate_succ_apply', iterate_increment_reset s n i 255 hn hi (le_refl _)]
    rw [increment_mk_max n 0 _ i (by decide) hn (by simp) ?_ (by rw [hg]; rfl), hg]
    · rw [cell_mk_fixed _ _ _ _ (by decide)]
      simp [List.getD, hi]
    · intro v hv _
      have := List.mem_or_eq_of_mem_set hv
      rcases this with h | h
      · rw [List.eq_of_mem_replicate h]
        exact Nat.pow_pos (by decide)
      · subst h
        unfold bits
        omega

/-- Witness for C2: the second cell of a storage reset to three cells. -/
theorem increment_256_witness :
    ((fun b => reference.increment b 1)^[256]
      ((({} : unlimited_storage Int).reset 3).buffer_)).cell 1 = .unsigned 256 :=
  (increment_256 ({} : unlimited_storage Int) 3 1 (by decide) (by decide)).2.2

/-- Reading cell `i` of an integer array as a double. -/
theorem to_double_mk_integral (n T : Nat) (xs : List Nat) (i : Nat) (hT : T < 5) :
    reference.to_double
        ({ size := n, type := T, ptr := some (.integral xs) } : buffer_type D) i
      = cell_to_double T (xs.getD i 0) := by
  unfold reference.to_double
  rw [visit_of_lt _ _ (by simp only; omega)]
  have h5 : T ≠ 5 := by omega
  by_cases h4 : T = 4
  · subst h4
    simp only [buffer_type.element, h5, if_false, if_true, int_at_mk, number.to_double,
      cell_to_double]
  · simp only [buffer_type.element, h5, h4, if_false, int_at_mk, number.to_double,
      cell_to_double]

/-- Reading cell `i` of an array of doubles. -/
theorem to_double_mk_floating (n : Nat) (ds : List D) (i : Nat) :
    reference.to_double
        ({ size := n, type := 5, ptr := some (.floating ds) } : buffer_type D) i
      = ds.getD i DoubleOps.zero := by
  unfold reference.to_double
  rw [visit_of_lt _ _ (by simp only; omega)]
  rfl

theorem getD_map_of_lt {α β : Type} (f : α → β) (xs : List α) (i : Nat) (a : α) (c : β)
    (hi : i < xs.length) : (xs.map f).getD i c = f (xs.getD i a) := by
  simp [List.getD, hi]

theorem getD_set_self {α : Type} (xs : List α) (i : Nat) (v a : α) (hi : i < xs.length) :
    (xs.set i v).getD i a = v := by
  simp [List.getD, hi]

theorem getD_set_ne {α : Type} (xs : List α) (i j : Nat) (v a : α) (hij : j ≠ i) :
    (xs.set i v).getD j a = xs.getD j a := by
  simp [List.getD, List.getElem?_set_ne (Ne.symm hij)]

/-- Adding a value that is not a nonnegative integer to a cell of an integer array: the
array is rebuilt as doubles and the double cell receives the sum. -/
theorem is_x_integral_false_mk (n T : Nat) (xs : List Nat) (i : Nat) (x : number D)
    (hn : 0 < n) (hl : xs.length = n) :
    adder.is_x_integral_false T
        ({ size := n, type := T, ptr := some (.integral xs) } : buffer_type D) i x
      = { size := n, type := 5,
          ptr := some (.floating ((xs.map (cell_to_double T)).set i
            (DoubleOps.add ((xs.map (cell_to_double T)).getD i DoubleOps.zero)
              x.to_double))) } := by
  unfold adder.is_x_integral_false
  simp only []
  rw [make_from_integral_double n T xs hn hl]
  rfl

/-- C4: on a well-formed storage in an integer representation, for a valid index `i` and a
negative signed integer `x`, after `cell[i] += x` the whole buffer is in the floating
representation, cell `i` reads as `(double)old_value_i + (double)x`, and every other cell
reads as a double the value it read before. -/
theorem add_assign_negative (b : buffer_type D) (i : Nat) (x : Int) (hwf : b.well_formed)
    (hT : b.type < 5) (hi : i < b.size) (hx : x < 0) :
    (reference.add_assign b i (.signed x)).type = 5 ∧
    (reference.add_assign b i (.signed x)).size = b.size ∧
    reference.to_double (reference.add_assign b i (.signed x)) i
      = DoubleOps.add (reference.to_double b i) (DoubleOps.ofInt x) ∧
    ∀ j, j < b.size → j ≠ i →
      reference.to_double (reference.add_assign b i (.signed x)) j
        = reference.to_double b j := by
  obtain ⟨xs, hb, hl, _⟩ := well_formed_integral b hwf hT (by omega)
  have h5 : b.type ≠ 5 := by omega
  have hnx : ¬ x ≥ 0 := by omega
  have hcall : reference.add_assign b i (.signed x)
      = adder.is_x_integral_false b.type b i (.floating (DoubleOps.ofInt x)) := by
    unfold reference.add_assign
    rw [visit_of_lt _ _ (by omega)]
    simp only [adder.call, h5, if_false, adder.is_x_unsigned_false, hnx]
  rw [hcall]
  generalize b.type = T at *
  generalize b.size = n at *
  subst hb
  rw [is_x_integral_false_mk n T xs i _ (by omega) hl]
  refine ⟨rfl, rfl, ?_, ?_⟩
  · rw [to_double_mk_floating, to_double_mk_integral _ _ _ _ hT,
      getD_set_self _ _ _ _ (by simp; omega), getD_map_of_lt _ _ _ 0 _ (by omega)]
    rfl
  · intro j hj hji
    rw [to_double_mk_floating, to_double_mk_integral _ _ _ _ hT, getD_set_ne _ _ _ _ _ hji,
      getD_map_of_lt _ _ _ 0 _ (by omega)]

/-- Witness for C4: adding -3 to the cell holding 7 of a 3-cell 8-bit storage. -/
theorem add_assign_negative_witness :
    sample_uint8.well_formed ∧ (reference.add_assign sample_uint8 1 (.signed (-3))).type = 5 :=
  ⟨by decide,
    (add_assign_negative sample_uint8 1 (-3) (by decide) (by decide) (by decide)
      (by decide)).1⟩

/-- The operator `+=` with a double operand on an array of doubles. -/
theorem add_assign_mk_floating (n : Nat) (ds : List D) (i : Nat) (x : number D) :
    reference.add_assign
        ({ size := n, type := 5, ptr := some (.floating ds) } : buffer_type D) i x
      = { size := n, type := 5,
          ptr := some (.floating (ds.set i
            (DoubleOps.add (ds.getD i DoubleOps.zero) x.to_double))) } := by
  unfold reference.add_assign
  rw [visit_of_lt _ _ (by simp only; omega)]
  rfl

/-- C5: on a well-formed storage, for a valid index `i` and a floating-point `x`, after
`cell[i] += x` the buffer is in the floating representation and cell `i` holds
`(double)old_value_i + x`, whether the storage was in an integer representation or already
floating. -/
theorem add_assign_floating (b : buffer_type D) (i : Nat) (x : D) (hwf : b.well_formed)
    (hi : i < b.size) :
    (reference.add_assign b i (.floating x)).type = 5 ∧
    (reference.add_assign b i (.floating x)).size = b.size ∧
    reference.to_double (reference.add_assign b i (.floating x)) i
      = DoubleOps.add (reference.to_double b i) x := by
  rcases well_formed_cases b hwf with ⟨hb, _⟩ | ⟨xs, hb, hn, hl, hT, _⟩ | ⟨ds, hb, hn, hl⟩
  · rw [hb] at hi
    exact absurd hi (by simp)
  · have h5 : b.type ≠ 5 := by omega
    have hcall : reference.add_assign b i (.floating x)
        = adder.is_x_integral_false b.type b i (.floating x) := by
      unfold reference.add_assign
      rw [visit_of_lt _ _ (by omega)]
      simp only [adder.call, h5, if_false]
    rw [hcall]
    generalize b.type = T at *
    generalize b.size = n at *
    subst hb
    rw [is_x_integral_false_mk n T xs i _ (by omega) hl]
    refine ⟨rfl, rfl, ?_⟩
    rw [to_double_mk_floating, to_double_mk_integral _ _ _ _ hT,
      getD_set_self _ _ _ _ (by simp; omega), getD_map_of_lt _ _ _ 0 _ (by omega)]
    rfl
  · generalize b.size = n at *
    subst hb
    rw [add_assign_mk_floating]
    refine ⟨rfl, rfl, ?_⟩
    rw [to_double_mk_floating, to_double_mk_floating, getD_set_self _ _ _ _ (by omega)]
    rfl

/-- Witness for C5: adding the double 2 to the cell holding 7 of a 3-cell 8-bit storage. -/
theorem add_assign_floating_witness :
    sample_uint8.well_formed ∧
    (reference.add_assign sample_uint8 1 (.floating (2 : Int))).type = 5 :=
  ⟨by decide, (add_assign_floating sample_uint8 1 (2 : Int) (by decide) (by decide)).1⟩

/-- Scaling a whole array of doubles. -/
theorem multiplier_call_double_mk (n : Nat) (ds : List D) (x : D) (hl : ds.length = n) :
    multiplier.call_double
        ({ size := n, type := 5, ptr := some (.floating ds) } : buffer_type D) x
      = { size := n, type := 5,
          ptr := some (.floating (ds.map (fun d => DoubleOps.mul d x))) } := by
  subst hl
  simp [multiplier.call_double]

/-- C6: for every well-formed storage (any size including 0, any representation) and every
double `s`, after the whole-storage `*= s` the buffer is in the floating representation,
its size is unchanged, and every cell `i` holds `(double)old_value_i * s`. -/
theorem storage_mul_assign (s : unlimited_storage D) (x : D)
    (hwf : s.buffer_.well_formed) :
    (s.mul_assign x).buffer_.type = 5 ∧ (s.mul_assign x).size = s.size ∧
    (s.mul_assign x).buffer_.well_formed ∧
    ∀ i, i < s.size →
      reference.to_double (s.mul_assign x).buffer_ i
        = DoubleOps.mul (reference.to_double s.buffer_ i) x := by
  obtain ⟨b⟩ := s
  simp only [unlimited_storage.mul_assign, unlimited_storage.size] at hwf ⊢
  rw [visit_of_lt _ _ (well_formed_type_lt b hwf)]
  rcases well_formed_cases b hwf with ⟨hb, hT⟩ | ⟨xs, hb, hn, hl, hT, _⟩ | ⟨ds, hb, hn, hl⟩
  · generalize b.type = T at *
    subst hb
    by_cases h5 : T = 5
    · subst h5
      exact ⟨rfl, rfl, by simp [multiplier.call, multiplier.call_double,
        buffer_type.well_formed], fun i hi => absurd hi (by simp)⟩
    · exact ⟨by simp [multiplier.call, multiplier.call_double, h5, buffer_type.make_from,
        buffer_type.destroy], by simp [multiplier.call, multiplier.call_double, h5,
        buffer_type.make_from, buffer_type.destroy], by simp [multiplier.call,
        multiplier.call_double, h5, buffer_type.make_from, buffer_type.destroy,
        buffer_type.well_formed], fun i hi => absurd hi (by simp)⟩
  · have h5 : b.type ≠ 5 := by omega
    generalize b.type = T at *
    generalize b.size = n at *
    subst hb
    simp only [multiplier.call, h5, if_false]
    rw [make_from_integral_double n T xs hn hl,
      multiplier_call_double_mk n _ x (by simp [hl])]
    refine ⟨rfl, rfl, by simp [buffer_type.well_formed, hn, hl], ?_⟩
    intro i hi
    rw [to_double_mk_floating, to_double_mk_integral _ _ _ _ hT,
      getD_map_of_lt _ _ _ DoubleOps.zero _ (by simp; omega),
      getD_map_of_lt _ _ _ 0 _ (by omega)]
    rfl
  · generalize b.size = n at *
    have h5 : b.type = 5 := by rw [hb]
    rw [h5]
    subst hb
    simp only [multiplier.call, if_true]
    rw [multiplier_call_double_mk n _ x hl]
    refine ⟨rfl, rfl, by simp [buffer_type.well_formed, hn, hl], ?_⟩
    intro i hi
    rw [to_double_mk_floating, to_double_mk_floating,
      getD_map_of_lt _ _ _ DoubleOps.zero _ (by omega)]

/-- Witness for C6: scaling a 3-cell 8-bit storage by 2. -/
theorem storage_mul_assign_witness :
    sample_uint8.well_formed ∧
    (unlimited_storage.mul_assign { buffer_ := sample_uint8 } (2 : Int)).buffer_.type = 5 :=
  ⟨by decide,
    (storage_mul_assign { buffer_ := sample_uint8 } (2 : Int) (by decide)).1⟩

/-- One instantiation of `is_x_unsigned` for a fixed-width type `T`, unfolded. -/
theorem is_x_unsigned_true_unfold (T : Nat) (hT : T < 4) (b : buffer_type D) (i x : Nat) :
    adder.is_x_unsigned_true (4 - T) b i x =
      match detail.safe_radd T (b.int_at i) x with
      | some v => b.store_int i v
      | none => adder.is_x_unsigned_true (3 - T) (b.make_from (T + 1) T b.size b.ptr) i x := by
  have h1 : 4 - T = (3 - T) + 1 := by omega
  have h2 : 3 - (3 - T) = T := by omega
  rw [h1]
  simp only [adder.is_x_unsigned_true, h2]

/-- An address at which an array is live is an address of the free store. -/
theorem lifetime_load_lt {D : Type} (s : lifetime.buffer_type D) (p : Nat) (c : cells D)
    (h : s.load p = some c) : p < s.arrays.length := by
  unfold lifetime.buffer_type.load at h
  by_contra hlt
  rw [List.getD_eq_default _ _ (by omega)] at h
  cases h

/-- The if-chain of `visit` calls the functor with the type of the buffer. -/
theorem lifetime_visit_of_lt {D α : Type} (s : lifetime.buffer_type D) (f : Nat → α)
    (h : s.type < 6) : s.visit f = f s.type := by
  unfold lifetime.buffer_type.visit
  have : s.type = 0 ∨ s.type = 1 ∨ s.type = 2 ∨ s.type = 3 ∨ s.type = 4 ∨ s.type = 5 := by
    omega
  rcases this with h | h | h | h | h | h <;> simp [h]

/-- A write to a cell of the live integer array of a buffer: the array at that address
receives the value and every other array is as it was. -/
theorem lifetime_store_int {D : Type} (s : lifetime.buffer_type D) (p i v : Nat) (xs : List Nat)
    (hp : s.ptr = some p) (h : s.load p = some (.integral xs)) :
    ∃ r, s.store_int p i v = some r ∧
      r.value = some { size := s.size, type := s.type,
                       ptr := some (.integral (xs.set i v)) } ∧
      r.type = s.type ∧
      ∀ q, q ≠ p → r.load q = s.load q := by
  have hlt := lifetime_load_lt s p _ h
  refine ⟨{ s with arrays := s.arrays.set p (some (.integral (xs.set i v))) },
    ?_, ?_, rfl, ?_⟩
  · unfold lifetime.buffer_type.store_int
    rw [h]
  · unfold lifetime.buffer_type.value
    simp only [hp, lifetime.buffer_type.load]
    rw [getD_set_self _ _ _ _ hlt]
  · intro q hq
    unfold lifetime.buffer_type.load
    simp only
    rw [getD_set_ne _ _ _ _ _ hq]

/-- The call `make<T, U>(n, tp)` on the live array `tp` of a buffer: the new array is built
from the old cells at a fresh address, and the old array is released. -/
theorem lifetime_make_from (s : lifetime.buffer_type D) (T U n p : Nat) (c : cells D)
    (hp : s.ptr = some p) (h : s.load p = some c) (hn : 0 < n) :
    ∃ r, s.make_from T U n p = some r ∧
      r.ptr = some s.arrays.length ∧ r.size = n ∧ r.type = T ∧
      r.load s.arrays.length = some (detail.buffer_create_from T U n (some c)) ∧
      r.load p = none ∧
      r.arrays.length = s.arrays.length + 1 ∧
      ∀ q, q ≠ p → q < s.arrays.length → r.load q = s.load q := by
  have hlt := lifetime_load_lt s p _ h
  refine ⟨{ arrays :=
              (s.arrays ++ [some (detail.buffer_create_from T U n (some c))]).set p none,
            size := n, type := T, ptr := some s.arrays.length },
    ?_, rfl, rfl, rfl, ?_, ?_, ?_, ?_⟩
  · unfold lifetime.buffer_type.make_from
    simp only [hn, if_true, h, lifetime.buffer_type.destroy, hp]
  · unfold lifetime.buffer_type.load
    simp only
    rw [getD_set_ne _ _ _ _ _ (by omega)]
    simp [List.getD]
  · unfold lifetime.buffer_type.load
    simp only
    rw [getD_set_self _ _ _ _ (by simp; omega)]
  · simp
  · intro q hq hql
    unfold lifetime.buffer_type.load
    simp only
    rw [getD_set_ne _ _ _ _ _ hq]
    simp [List.getD, List.getElem?_append_left hql]

/-- The retry chain of `is_x_unsigned` on a buffer whose integer array is live, for an
operand that can be read at the start, be it a cell of that array: the chain runs to the
end with every array it reads live, the buffer it leaves is the one the by-value chain
computes from the value of the operand at the start, an array that was released before
stays released, and the array the chain started on is released when the type changed. -/
theorem lifetime_is_x_unsigned_true (k : Nat) :
    ∀ (s : lifetime.buffer_type D) (p : Nat) (xs : List Nat) (i : Nat)
      (x : lifetime.operand) (y : Nat),
      s.ptr = some p → s.load p = some (.integral xs) → 0 < s.size → s.read x = some y →
      ∃ r, lifetime.adder.is_x_unsigned_true k s p i x = some r ∧
        r.value = some (adder.is_x_unsigned_true k
          { size := s.size, type := s.type, ptr := some (.integral xs) } i y) ∧
        (∀ q, q ≠ p → q < s.arrays.length → s.load q = none → r.load q = none) ∧
        (r.type ≠ s.type → r.load p = none) := by
  induction k with
  | zero =>
    intro s p xs i x y hp h hn hx
    obtain ⟨r, hr, hv, ht, hq⟩ := lifetime_store_int s p i (xs.getD i 0 + y) xs hp h
    refine ⟨r, ?_, ?_, ?_, ?_⟩
    · simp only [lifetime.adder.is_x_unsigned_true, lifetime.buffer_type.int_at, h, hx]
      exact hr
    · rw [hv]
      rfl
    · intro q hqp _ hq0
      rw [hq q hqp, hq0]
    · intro hne
      exact absurd ht hne
  | succ k ih =>
    intro s p xs i x y hp h hn hx
    simp only [lifetime.adder.is_x_unsigned_true, lifetime.buffer_type.int_at, h, hx,
      adder.is_x_unsigned_true, int_at_mk]
    cases hsafe : detail.safe_radd (3 - k) (xs.getD i 0) y with
    | some v =>
      obtain ⟨r, hr, hv, ht, hq⟩ := lifetime_store_int s p i v xs hp h
      refine ⟨r, hr, ?_, ?_, ?_⟩
      · rw [hv]
        rfl
      · intro q hqp _ hq0
        rw [hq q hqp, hq0]
      · intro hne
        exact absurd ht hne
    | none =>
      have hlt := lifetime_load_lt s p _ h
      obtain ⟨s1, hs1, hp1, hsz, hty, hl1, hrel, hlen, hq1⟩ :=
        lifetime_make_from s (3 - k + 1) (3 - k) s.size p _ hp h hn
      have hc : detail.buffer_create_from (D := D) (3 - k + 1) (3 - k) s.size
          (some (.integral xs))
          = .integral ((xs.take s.size).map (wrap (3 - k + 1))) := by
        have h5 : 3 - k + 1 ≠ 5 := by omega
        simp only [detail.buffer_create_from, h5, if_false]
      rw [hc] at hl1
      obtain ⟨r, hr, hv, hq, _⟩ := ih s1 s.arrays.length _ i (.value y) y hp1 hl1
        (by rw [hsz]; exact hn) rfl
      refine ⟨r, ?_, ?_, ?_, ?_⟩
      · simp only [hs1, hp1]
        exact hr
      · rw [hv, hsz, hty]
        simp only [buffer_type.make_from, hn, if_true, hc, buffer_type.destroy]
      · intro q hqp hql hq0
        apply hq q (by omega) (by omega)
        rw [hq1 q hqp hql, hq0]
      · intro _
        exact hq p (by omega) (by omega) hrel

/-- The members of the by-value buffer behind a buffer with a live array. -/
theorem lifetime_value_some {D : Type} (s : lifetime.buffer_type D) (b : buffer_type D)
    (h : s.value = some b) :
    b.size = s.size ∧ b.type = s.type ∧
    ∀ c, b.ptr = some c → ∃ p, s.ptr = some p ∧ s.load p = some c := by
  unfold lifetime.buffer_type.value at h
  cases hp : s.ptr with
  | none =>
    rw [hp] at h
    simp only [Option.some.injEq] at h
    subst h
    exact ⟨rfl, rfl, fun c hc => by cases hc⟩
  | some p =>
    rw [hp] at h
    simp only at h
    cases hl : s.load p with
    | none =>
      rw [hl] at h
      cases h
    | some c =>
      rw [hl] at h
      simp only [Option.some.injEq] at h
      subst h
      refine ⟨rfl, rfl, fun c' hc => ⟨p, rfl, ?_⟩⟩
      simp only [Option.some.injEq] at hc
      rw [← hc]
      exact hl

/-- C7: on a well-formed storage in an integer representation, for a valid index `a`, the
self-aliased `cell[a] += cell[a]`, whose addend is a reference into the array of the
buffer, runs to its end without reading a released array, and leaves the storage that
copying the value of cell `a` first and adding the copy gives, also when the add releases
the array and widens the buffer one or more times. That storage is well-formed, has the
size it had, holds exactly twice the old value in cell `a` and the old value in every other
cell, and has the first type from the old one on whose range holds the doubled value. When
the type changed, the array the addend referred to has been released. -/
theorem add_assign_self_aliased (s : lifetime.buffer_type D) (b : buffer_type D) (a : Nat)
    (hs : s.value = some b) (hwf : b.well_formed) (hT : b.type < 5) (ha : a < b.size) :
    ∃ r R, lifetime.reference.add_assign_cursor s a a = some r ∧
      r.value = some R ∧
      R = reference.add_assign b a (b.cell a) ∧
      R = reference.add_assign_cursor b a a ∧
      R.well_formed ∧
      R.size = b.size ∧
      R.int_at a = 2 * b.int_at a ∧
      (∀ j, j ≠ a → R.int_at j = b.int_at j) ∧
      b.type ≤ R.type ∧ R.type < 5 ∧
      fits R.type (2 * b.int_at a) ∧
      (∀ T, b.type ≤ T → T < R.type → ¬ fits T (2 * b.int_at a)) ∧
      (R.type ≠ b.type → ∀ p, s.ptr = some p → r.load p = none) := by
  have h6 : b.type < 6 := by omega
  have h5 : b.type ≠ 5 := by omega
  have heq : reference.add_assign_cursor b a a = reference.add_assign b a (b.cell a) := by
    unfold reference.add_assign_cursor reference.add_assign buffer_type.cell
    rw [visit_of_lt _ _ h6, visit_of_lt _ _ h6, visit_of_lt _ _ h6, visit_of_lt _ _ h6]
    by_cases h4 : b.type = 4
    · simp only [adder.call_aliased, adder.call, buffer_type.element, h4, if_true,
        adder.call_large_int]
      rfl
    · simp only [adder.call_aliased, adder.call, buffer_type.element, h5, h4, if_false,
        adder.is_x_unsigned_true_aliased]
      rw [is_x_unsigned_true_unfold b.type (by omega)]
  rw [heq]
  obtain ⟨xs, hb, hl, hfit⟩ := well_formed_integral b hwf hT (by omega)
  obtain ⟨hsize, htype, hptr⟩ := lifetime_value_some s b hs
  obtain ⟨p, hp, hload⟩ := hptr (.integral xs) (by rw [hb])
  have hn : 0 < s.size := by omega
  have hs6 : s.type < 6 := by omega
  clear heq hwf hs
  rw [hsize] at hl ha hb
  rw [htype] at hfit hT h5 hb
  rw [hsize, htype]
  clear hsize htype h6
  subst hb
  have hcur : lifetime.reference.add_assign_cursor s a a
      = lifetime.adder.call s.type s p a p a := by
    unfold lifetime.reference.add_assign_cursor
    rw [lifetime_visit_of_lt _ _ hs6]
    simp only [hp]
    rw [lifetime_visit_of_lt _ _ hs6]
  rw [hcur]
  simp only [int_at_mk]
  by_cases h4 : s.type = 4
  · have hlarge : reference.add_assign
        ({ size := s.size, type := s.type, ptr := some (.integral xs) } : buffer_type D) a
        (buffer_type.cell { size := s.size, type := s.type, ptr := some (.integral xs) } a)
        = { size := s.size, type := s.type,
            ptr := some (.integral (xs.set a (xs.getD a 0 + xs.getD a 0))) } := by
      unfold reference.add_assign buffer_type.cell
      rw [visit_of_lt _ _ (by simp only; omega), visit_of_lt _ _ (by simp only; omega)]
      simp only [h4]
      rfl
    obtain ⟨r, hr, hv, ht, _⟩ :=
      lifetime_store_int s p a (xs.getD a 0 + xs.getD a 0) xs hp hload
    refine ⟨r, _, ?_, hv, hlarge.symm, hlarge.symm, ?_, rfl, ?_, ?_, le_refl _, hT, ?_, ?_, ?_⟩
    · simp only [lifetime.adder.call, h5, h4, if_false, if_true,
        lifetime.buffer_type.int_at, hload]
      exact hr
    · simp only [buffer_type.well_formed, hn, List.length_set, hl, hT, true_and]
      intro v _ h
      omega
    · rw [int_at_mk, getD_set_self _ _ _ _ (by omega)]
      omega
    · intro j hj
      rw [int_at_mk, getD_set_ne _ _ _ _ _ hj]
    · intro h
      simp only at h
      omega
    · intro T h1 h2
      simp only at h2
      omega
    · intro h
      exact absurd rfl h
  · have hT4 : s.type < 4 := by omega
    rw [cell_mk_fixed _ _ _ _ hT4]
    obtain ⟨U, hU, hTU, hU4, hfU, hmin⟩ := add_assign_nonneg_mk (D := D) s.size s.type xs a
      (xs.getD a 0) (.unsigned (xs.getD a 0)) hn hl hfit (by omega) (Or.inl rfl)
    have hchain : reference.add_assign
        ({ size := s.size, type := s.type, ptr := some (.integral xs) } : buffer_type D) a
        (.unsigned (xs.getD a 0))
        = adder.is_x_unsigned_true (4 - s.type)
          { size := s.size, type := s.type, ptr := some (.integral xs) } a (xs.getD a 0) := by
      unfold reference.add_assign
      rw [visit_of_lt _ _ (by simp only; omega)]
      simp [adder.call, h5]
    have hread : s.read (.element p a) = some (xs.getD a 0) := by
      simp only [lifetime.buffer_type.read, lifetime.buffer_type.int_at, hload]
    obtain ⟨r, hr, hv, _, hrel⟩ := lifetime_is_x_unsigned_true (4 - s.type) s p xs a
      (.element p a) (xs.getD a 0) hp hload hn hread
    have h2 : xs.getD a 0 + xs.getD a 0 = 2 * xs.getD a 0 := by omega
    have hrt : r.type = U := by
      obtain ⟨_, hrt, _⟩ := lifetime_value_some r _ hv
      rw [← hrt, ← hchain, hU]
    have hR := hU
    rw [hchain] at hR
    refine ⟨r, _, ?_, hv, hchain.symm, hchain.symm, ?_, ?_, ?_, ?_, ?_, ?_, ?_, ?_, ?_⟩
    · simp only [lifetime.adder.call, h5, h4, if_false]
      exact hr
    · rw [hR]
      simp only [buffer_type.well_formed, hn, List.length_set, hl, true_and]
      refine ⟨by omega, ?_⟩
      intro v hv'
      rcases List.mem_or_eq_of_mem_set hv' with h | h
      · exact fits_mono hTU (hfit v h)
      · rw [h]
        exact hfU
    · rw [hR]
    · rw [hR, int_at_mk, getD_set_self _ _ _ _ (by omega), h2]
    · intro j hj
      rw [hR, int_at_mk, getD_set_ne _ _ _ _ _ hj]
    · rw [hR]
      exact hTU
    · rw [hR]
      simp only
      omega
    · rw [hR, ← h2]
      exact hfU
    · intro T h1 h3
      rw [hR] at h3
      rw [← h2]
      exact hmin T h1 h3
    · intro hne q hq
      rw [hR] at hne
      rw [hp] at hq
      simp only [Option.some.injEq] at hq
      subst hq
      exact hrel (by rw [hrt]; exact hne)

/-- Witness for C7: doubling the cell holding 255 of a 3-cell 8-bit storage through a
reference to that cell, which widens the storage to 16 bits and releases the 8-bit array. -/
theorem add_assign_self_aliased_witness :
    lifetime.sample_uint8.value = some sample_uint8 ∧ sample_uint8.well_formed ∧
    ∃ r R, lifetime.reference.add_assign_cursor lifetime.sample_uint8 0 0 = some r ∧
      r.value = some R ∧
      R = reference.add_assign sample_uint8 0 (sample_uint8.cell 0) ∧
      R.int_at 0 = 2 * sample_uint8.int_at 0 :=
  ⟨by decide, by decide,
    match add_assign_self_aliased lifetime.sample_uint8 sample_uint8 0 (by decide)
      (by decide) (by decide) (by decide) with
    | ⟨r, R, h1, h2, h3, _, _, _, h7, _⟩ => ⟨r, R, h1, h2, h3, h7⟩⟩

/-- The result of `make<T, U>(n, iter)` does not depend on the members the buffer had. -/
theorem make_from_eq (b : buffer_type D) (T U n : Nat) (iter : Option (cells D)) :
    b.make_from T U n iter =
      { size := n, type := T,
        ptr := if n > 0 then some (detail.buffer_create_from T U n iter) else none } := rfl

/-- The copy constructor applied to a well-formed buffer gives an equal buffer. -/
theorem copy_eq_self (b : buffer_type D) (hwf : b.well_formed) : b.copy = b := by
  unfold buffer_type.copy
  rw [visit_of_lt _ _ (well_formed_type_lt b hwf), make_from_eq]
  rcases well_formed_cases b hwf with ⟨hb, _⟩ | ⟨xs, hb, hn, hl, hT, hfit⟩ | ⟨ds, hb, hn, hl⟩
  · generalize b.type = T at *
    subst hb
    rfl
  · have h5 : b.type ≠ 5 := by omega
    generalize b.type = T at *
    generalize b.size = n at *
    subst hb
    subst hl
    simp only [hn, if_true, detail.buffer_create_from, h5, if_false, List.take_length,
      map_wrap_of_fits hfit]
  · generalize b.size = n at *
    subst hb
    subst hl
    simp only [hn, if_true, detail.buffer_create_from, List.take_length]

/-- C9: for every well-formed storage `s` in any representation (large_int included), a
copy of `s`, by copy construction or by copy assignment over any storage `t`, has the same
size, the same representation tag and at every index the same cell value as `s`: it is
equal to `s`. -/
theorem copy_preserves (s t : unlimited_storage D) (hwf : s.buffer_.well_formed) :
    s.copy = s ∧ t.copy_assign s = s ∧
    s.copy.size = s.size ∧ s.copy.buffer_.type = s.buffer_.type ∧
    (∀ i, s.copy.buffer_.cell i = s.buffer_.cell i) ∧
    (t.copy_assign s).size = s.size ∧ (t.copy_assign s).buffer_.type = s.buffer_.type ∧
    (∀ i, (t.copy_assign s).buffer_.cell i = s.buffer_.cell i) := by
  have h1 : s.copy = s := by
    obtain ⟨b⟩ := s
    simp only [unlimited_storage.copy, copy_eq_self b hwf]
  have h2 : t.copy_assign s = s := by
    obtain ⟨b⟩ := s
    simp only [unlimited_storage.copy_assign, buffer_type.copy_assign,
      buffer_type.move_assign, copy_eq_self b hwf]
  rw [h1, h2]
  exact ⟨rfl, rfl, rfl, rfl, fun _ => rfl, rfl, rfl, fun _ => rfl⟩

/-- Witness for C9: copying a storage of two large_int cells, one above 64 bits. -/
theorem copy_preserves_witness :
    sample_large_int.well_formed ∧
    unlimited_storage.copy { buffer_ := sample_large_int } = { buffer_ := sample_large_int } :=
  ⟨by decide, (copy_preserves { buffer_ := sample_large_int } {} (by decide)).1⟩

/-- C8: `a == b` is true exactly when the sizes are equal and at every index the two
cells are equal under the representation-safe equality, whatever the representations of
the two buffers. In particular two storages of the same size with the same integer values
in two integer representations are equal, an all-zero 32-bit buffer equals an all-zero
floating buffer (given that the double comparison finds 0 converted from an unsigned
integer equal to the double 0), and storages of different sizes are unequal. -/
theorem operator_eq_iff (a b : unlimited_storage D) :
    (a.operator_eq b = true ↔
      a.size = b.size ∧
      ∀ i, i < a.size → detail.equal (a.buffer_.cell i) (b.buffer_.cell i) = true) ∧
    (∀ (n T U : Nat) (xs : List Nat), T < 5 → U < 5 →
      unlimited_storage.operator_eq
        ({ buffer_ := { size := n, type := T, ptr := some (.integral xs) } } :
          unlimited_storage D)
        { buffer_ := { size := n, type := U, ptr := some (.integral xs) } } = true) ∧
    (DoubleOps.eq (DoubleOps.ofUInt 0 : D) DoubleOps.zero = true →
      ∀ n : Nat, unlimited_storage.operator_eq
        ({ buffer_ :=
            { size := n, type := 2, ptr := some (.integral (List.replicate n 0)) } } :
          unlimited_storage D)
        { buffer_ :=
            { size := n, type := 5,
              ptr := some (.floating (List.replicate n DoubleOps.zero)) } } = true) ∧
    (a.size ≠ b.size → a.operator_eq b = false) := by
  have main : ∀ a b : unlimited_storage D, (a.operator_eq b = true ↔
      a.size = b.size ∧
      ∀ i, i < a.size → detail.equal (a.buffer_.cell i) (b.buffer_.cell i) = true) := by
    intro a b
    have hcell : ∀ (c : buffer_type D) (i : Nat), c.cell i = c.element (c.visit id) i :=
      fun c i => visit_eq_apply c _
    unfold unlimited_storage.operator_eq
    rw [visit_eq_apply a.buffer_, visit_eq_apply b.buffer_]
    simp only [hcell]
    by_cases hs : a.size = b.size
    · simp only [hs, ne_eq, not_true_eq_false, if_false, unlimited_storage.std_equal, List.all_eq_true,
        List.mem_range, true_and]
    · simp [hs]
  refine ⟨main a b, ?_, ?_, ?_⟩
  · intro n T U xs hT hU
    rw [main]
    refine ⟨rfl, ?_⟩
    intro i _
    have h5 : T ≠ 5 := by omega
    have h5' : U ≠ 5 := by omega
    unfold buffer_type.cell
    rw [visit_of_lt _ _ (by simp only; omega), visit_of_lt _ _ (by simp only; omega)]
    simp only [buffer_type.element, h5, h5', if_false, int_at_mk]
    by_cases h4 : T = 4 <;> by_cases h4' : U = 4 <;>
      simp [h4, h4', detail.equal, number.to_int]
  · intro hz n
    rw [main]
    refine ⟨rfl, ?_⟩
    intro i hi
    simp only [unlimited_storage.size] at hi
    unfold buffer_type.cell
    rw [visit_of_lt _ _ (by simp only; omega), visit_of_lt _ _ (by simp only; omega)]
    simp [buffer_type.element, buffer_type.int_at, buffer_type.dbl_at, hi, detail.equal,
      number.to_double, hz]
  · intro hs
    simp [unlimited_storage.operator_eq, hs]

/-- Witness for C8: an all-zero 32-bit buffer and an all-zero floating buffer of three
cells compare equal. -/
theorem operator_eq_iff_witness :
    unlimited_storage.operator_eq
      ({ buffer_ :=
          { size := 3, type := 2, ptr := some (.integral (List.replicate 3 0)) } } :
        unlimited_storage Int)
      { buffer_ :=
          { size := 3, type := 5,
            ptr := some (.floating (List.replicate 3 DoubleOps.zero)) } } = true :=
  (operator_eq_iff ({} : unlimited_storage Int) {}).2.2.1 (by decide) 3

theorem make_from_type (b : buffer_type D) (T U n : Nat) (iter : Option (cells D)) :
    (b.make_from T U n iter).type = T := rfl

theorem multiplier_call_double_type (b : buffer_type D) (x : D) :
    (multiplier.call_double b x).type = b.type := by
  unfold multiplier.call_double
  split <;> rfl

/-- The retry chain of `is_x_unsigned` never ends in a type before the one it starts from. -/
theorem is_x_unsigned_true_type (k : Nat) (b : buffer_type D) (i x : Nat) :
    (adder.is_x_unsigned_true k b i x).type = b.type ∨
    (4 - k ≤ (adder.is_x_unsigned_true k b i x).type ∧
      (adder.is_x_unsigned_true k b i x).type ≤ 4) := by
  induction k generalizing b with
  | zero =>
    left
    simp only [adder.is_x_unsigned_true, store_int_type]
  | succ k ih =>
    simp only [adder.is_x_unsigned_true]
    split
    · left
      exact store_int_type _ _ _
    · right
      rcases ih (b.make_from (3 - k + 1) (3 - k) b.size b.ptr) with h | h
      · rw [h, make_from_type]
        omega
      · omega

/-- The functor `incrementor` does not move the buffer back on the ladder. -/
theorem incrementor_type (b : buffer_type D) (i T : Nat)
    (hT : (b.type < 5 ∧ T = b.type) ∨ (5 ≤ b.type ∧ T = 5)) :
    b.type ≤ (incrementor T b i).type ∧ (5 ≤ b.type → (incrementor T b i).type = b.type) := by
  unfold incrementor
  rcases hT with ⟨h1, h2⟩ | ⟨h1, h2⟩
  · subst h2
    have h5 : b.type ≠ 5 := by omega
    simp only [h5, if_false]
    split
    · simp only [store_int_type]
      omega
    · split
      · simp only [store_int_type]
        omega
      · simp only [store_int_type, make_from_type]
        omega
  · subst h2
    rw [if_pos rfl, store_dbl_type]
    omega

/-- The functor `adder` does not move the buffer back on the ladder. -/
theorem adder_call_type (b : buffer_type D) (i T : Nat) (x : number D)
    (hT : (b.type < 5 ∧ T = b.type) ∨ (5 ≤ b.type ∧ T = 5)) :
    b.type ≤ (adder.call T b i x).type ∧ (5 ≤ b.type → (adder.call T b i x).type = b.type) := by
  unfold adder.call
  rcases hT with ⟨h1, h2⟩ | ⟨h1, h2⟩
  · subst h2
    have h5 : b.type ≠ 5 := by omega
    have hu : ∀ v : Nat, b.type ≤ (adder.is_x_unsigned_true (4 - b.type) b i v).type := by
      intro v
      rcases is_x_unsigned_true_type (4 - b.type) b i v with h | h <;> omega
    have hf : ∀ y : number D, (adder.is_x_integral_false b.type b i y).type = 5 := by
      intro y
      simp only [adder.is_x_integral_false, adder.call_double, store_dbl_type, make_from_type]
    simp only [h5, if_false]
    cases x with
    | unsigned v => exact ⟨hu v, fun h => absurd h (by omega)⟩
    | signed v =>
      refine ⟨?_, fun h => absurd h (by omega)⟩
      simp only [adder.is_x_unsigned_false]
      split
      · exact hu _
      · rw [hf]
        omega
    | large v =>
      refine ⟨?_, fun h => absurd h (by omega)⟩
      simp only []
      split
      · simp only [adder.call_large_int, store_int_type]
        omega
      · simp only [adder.is_x_integral_false_large_int, adder.call_large_int, store_int_type,
          make_from_type]
        omega
    | floating v =>
      refine ⟨?_, fun h => absurd h (by omega)⟩
      simp only [hf]
      omega
  · subst h2
    rw [if_pos rfl, adder.call_double, store_dbl_type]
    omega

/-- The aliased call of `adder` does not move the buffer back on the ladder. -/
theorem adder_call_aliased_type (b : buffer_type D) (i ix T : Nat)
    (hT : (b.type < 5 ∧ T = b.type) ∨ (5 ≤ b.type ∧ T = 5)) :
    b.type ≤ (adder.call_aliased T b i ix).type ∧
    (5 ≤ b.type → (adder.call_aliased T b i ix).type = b.type) := by
  unfold adder.call_aliased
  rcases hT with ⟨h1, h2⟩ | ⟨h1, h2⟩
  · subst h2
    have h5 : b.type ≠ 5 := by omega
    refine ⟨?_, fun h => absurd h (by omega)⟩
    rw [if_neg h5]
    split
    · rw [store_int_type]
    · unfold adder.is_x_unsigned_true_aliased
      split
      · rw [store_int_type]
      · dsimp only
        rcases is_x_unsigned_true_type (3 - b.type)
          (b.make_from (b.type + 1) b.type b.size b.ptr) i (b.int_at ix) with h | h
        · rw [h, make_from_type]
          omega
        · omega
  · subst h2
    rw [if_pos rfl, store_dbl_type]
    omega

/-- The single-cell call of `multiplier` does not move the buffer back on the ladder. -/
theorem multiplier_call_at_type (b : buffer_type D) (i T : Nat) (x : D)
    (hT : (b.type < 5 ∧ T = b.type) ∨ (5 ≤ b.type ∧ T = 5)) :
    b.type ≤ (multiplier.call_at T b i x).type ∧
    (5 ≤ b.type → (multiplier.call_at T b i x).type = b.type) := by
  unfold multiplier.call_at multiplier.call_double_at
  rcases hT with ⟨h1, h2⟩ | ⟨h1, h2⟩
  · subst h2
    have h5 : b.type ≠ 5 := by omega
    rw [if_neg h5, store_dbl_type, make_from_type]
    omega
  · subst h2
    rw [if_pos rfl, store_dbl_type]
    omega

/-- The whole-buffer call of `multiplier` does not move the buffer back on the ladder. -/
theorem multiplier_call_type (b : buffer_type D) (T : Nat) (x : D)
    (hT : (b.type < 5 ∧ T = b.type) ∨ (5 ≤ b.type ∧ T = 5)) :
    b.type ≤ (multiplier.call T b x).type ∧
    (5 ≤ b.type → (multiplier.call T b x).type = b.type) := by
  unfold multiplier.call
  rcases hT with ⟨h1, h2⟩ | ⟨h1, h2⟩
  · subst h2
    have h5 : b.type ≠ 5 := by omega
    rw [if_neg h5, multiplier_call_double_type, make_from_type]
    omega
  · subst h2
    rw [if_pos rfl, multiplier_call_double_type]
    omega

theorem reference_add_assign_type (b : buffer_type D) (i : Nat) (x : number D) :
    b.type ≤ (reference.add_assign b i x).type ∧
    (5 ≤ b.type → (reference.add_assign b i x).type = b.type) := by
  unfold reference.add_assign
  rw [visit_eq_apply]
  exact adder_call_type b i _ x (visit_id_cases b)

theorem reference_mul_assign_type (b : buffer_type D) (i : Nat) (x : D) :
    b.type ≤ (reference.mul_assign b i x).type ∧
    (5 ≤ b.type → (reference.mul_assign b i x).type = b.type) := by
  unfold reference.mul_assign
  rw [visit_eq_apply]
  exact multiplier_call_at_type b i _ x (visit_id_cases b)

theorem reference_assign_type (b : buffer_type D) (i : Nat) (x : number D) :
    b.type ≤ (reference.assign b i x).type ∧
    (5 ≤ b.type → (reference.assign b i x).type = b.type) := by
  unfold reference.assign
  rw [visit_eq_apply]
  have hz : (reference.zero_cell (b.visit id) b i).type = b.type := by
    unfold reference.zero_cell
    split
    · rw [store_dbl_type]
    · rw [store_int_type]
  have h := adder_call_type (reference.zero_cell (b.visit id) b i) i (b.visit id) x
    (by rw [hz]; exact visit_id_cases b)
  rw [hz] at h
  exact h

/-- C10: every arithmetic operation of a cursor (`++`, `+=`, `-=`, `*=`, `/=`, `=`) and the
whole-storage `*=`, with any operand and on any buffer, leaves the representation at the
same position on the ladder (8-bit < 16-bit < 32-bit < 64-bit < large_int < double) or
moves it forward; a buffer in the floating representation stays floating. -/
theorem ladder_forward (op : operation D) (b : buffer_type D) :
    b.type ≤ (op.apply b).type ∧ (b.type = 5 → (op.apply b).type = 5) := by
  have key : b.type ≤ (op.apply b).type ∧ (5 ≤ b.type → (op.apply b).type = b.type) := by
    cases op with
    | increment i =>
      simp only [operation.apply, reference.increment]
      rw [visit_eq_apply]
      exact incrementor_type b i _ (visit_id_cases b)
    | add_assign i x => exact reference_add_assign_type b i x
    | add_assign_cursor i ix =>
      simp only [operation.apply, reference.add_assign_cursor]
      rw [visit_eq_apply, visit_eq_apply b (fun T => adder.call_aliased T b i ix)]
      exact adder_call_aliased_type b i ix _ (visit_id_cases b)
    | add_assign_other i xb ix =>
      simp only [operation.apply, reference.add_assign_other]
      rw [visit_eq_apply]
      exact reference_add_assign_type b i _
    | sub_assign i x => exact reference_add_assign_type b i _
    | mul_assign i x => exact reference_mul_assign_type b i x
    | div_assign i x => exact reference_mul_assign_type b i _
    | assign i x => exact reference_assign_type b i x
    | assign_cursor i xb ix =>
      simp only [operation.apply, reference.assign_cursor]
      rw [visit_eq_apply]
      exact reference_assign_type b i _
    | storage_mul_assign x =>
      simp only [operation.apply, unlimited_storage.mul_assign]
      rw [visit_eq_apply]
      exact multiplier_call_type b _ x (visit_id_cases b)
  exact ⟨key.1, fun h => by rw [key.2 (by omega), h]⟩

theorem getD_mem {α : Type} (xs : List α) (i : Nat) (a : α) (hi : i < xs.length) :
    xs.getD i a ∈ xs := by
  rw [List.getD_eq_getElem _ _ hi]
  exact List.getElem_mem hi

/-- Prefix increment of a cell of a large_int array. -/
theorem increment_mk_large (n : Nat) (xs : List Nat) (i : Nat) :
    reference.increment
        ({ size := n, type := 4, ptr := some (.integral xs) } : buffer_type D) i
      = { size := n, type := 4, ptr := some (.integral (xs.set i (xs.getD i 0 + 1))) } := by
  unfold reference.increment
  rw [visit_of_lt _ _ (by simp only; omega)]
  rfl

/-- Prefix increment on a well-formed integer array writes cell `i` only and ends in the
same or the next integer type. -/
theorem increment_mk (n T : Nat) (xs : List Nat) (i : Nat) (hn : 0 < n)
    (hl : xs.length = n) (hfit : ∀ v ∈ xs, fits T v) (hT : T ≤ 4) (hi : i < n) :
    ∃ U, reference.increment
        ({ size := n, type := T, ptr := some (.integral xs) } : buffer_type D) i
        = { size := n, type := U, ptr := some (.integral (xs.set i (xs.getD i 0 + 1))) } ∧
      T ≤ U ∧ U ≤ 4 ∧ (U = T ∨ (U = T + 1 ∧ xs.getD i 0 = max_value T)) ∧
      (T < 4 → xs.getD i 0 = max_value T → U = T + 1) := by
  by_cases h4 : T = 4
  · subst h4
    exact ⟨4, increment_mk_large n xs i, le_refl _, le_refl _, Or.inl rfl,
      fun h => absurd h (by omega)⟩
  · have hT4 : T < 4 := by omega
    have hmem : xs.getD i 0 ∈ xs := getD_mem xs i 0 (by omega)
    have hle : xs.getD i 0 ≤ max_value T := by
      have := hfit _ hmem hT4
      unfold max_value
      omega
    by_cases hmax : xs.getD i 0 = max_value T
    · exact ⟨T + 1, increment_mk_max n T xs i hT4 hn hl hfit hmax, by omega, by omega,
        Or.inr ⟨rfl, hmax⟩, fun _ _ => rfl⟩
    · exact ⟨T, increment_mk_lt n T xs i hT4 (by omega), le_refl _, hT, Or.inl rfl,
        fun _ h => absurd h hmax⟩

/-- The operator `+=` with a large_int operand on a well-formed integer array: the array
is rebuilt as large_int unless it is large_int already, and cell `i` receives the sum. -/
theorem add_assign_large_mk (n T : Nat) (xs : List Nat) (i x : Nat) (hn : 0 < n)
    (hl : xs.length = n) (hfit : ∀ v ∈ xs, fits T v) (hT : T ≤ 4) :
    reference.add_assign
        ({ size := n, type := T, ptr := some (.integral xs) } : buffer_type D) i (.large x)
      = { size := n, type := 4, ptr := some (.integral (xs.set i (xs.getD i 0 + x))) } := by
  unfold reference.add_assign
  rw [visit_of_lt _ _ (by simp only; omega)]
  have h5 : T ≠ 5 := by omega
  by_cases h4 : T = 4
  · subst h4
    rfl
  · simp only [adder.call, h5, h4, if_false, adder.is_x_integral_false_large_int]
    rw [make_from_integral n T 4 T xs hn hl hfit hT (le_refl _)]
    rfl

/-- C11: on a well-formed storage in an integer representation, for a valid index `i` and
an operation on cell `i` that stays on the integer ladder (prefix increment, or `+=` of a
nonnegative integer or of a large_int value), the element count is unchanged and every
other cell `j ≠ i` holds the same integer value afterwards as before, whether or not the
operation widened the buffer. -/
theorem integer_operation_frame (b : buffer_type D) (i : Nat) (op : operation D)
    (hwf : b.well_formed) (hT : b.type < 5) (hi : i < b.size)
    (hop : op = .increment i ∨ ∃ x : Nat, op = .add_assign i (.unsigned x) ∨
      op = .add_assign i (.signed (x : Int)) ∨ op = .add_assign i (.large x)) :
    (op.apply b).size = b.size ∧ b.type ≤ (op.apply b).type ∧ (op.apply b).type < 5 ∧
    (op.apply b).well_formed ∧
    ∀ j, j ≠ i → (op.apply b).int_at j = b.int_at j := by
  obtain ⟨xs, hb, hl, hfit⟩ := well_formed_integral b hwf hT (by omega)
  have hn : 0 < b.size := by omega
  have hT4 : b.type ≤ 4 := by omega
  clear hwf hT
  generalize b.type = T at *
  generalize b.size = n at *
  subst hb
  have key : ∃ U v, op.apply
      ({ size := n, type := T, ptr := some (.integral xs) } : buffer_type D)
      = { size := n, type := U, ptr := some (.integral (xs.set i v)) } ∧ T ≤ U ∧ U ≤ 4 ∧
        fits U v := by
    rcases hop with h | ⟨x, h | h | h⟩
    · subst h
      obtain ⟨U, hU, h1, h2, h3, _⟩ := increment_mk (D := D) n T xs i hn hl hfit hT4 hi
      refine ⟨U, _, hU, h1, h2, ?_⟩
      intro hU4
      rcases h3 with h3 | ⟨h3, h3'⟩
      · subst h3
        have hmem : xs.getD i 0 ∈ xs := getD_mem xs i 0 (by omega)
        have hlt := hfit _ hmem hU4
        by_cases hmax : xs.getD i 0 = max_value U
        · obtain ⟨U', hU', -, -, -, h5⟩ :=
            increment_mk (D := D) n U xs i hn hl hfit hT4 hi
          have hU1 := h5 hU4 hmax
          rw [hU] at hU'
          injection hU' with _ hty _
          omega
        · unfold max_value at hmax
          omega
      · subst h3
        rw [h3']
        have h1 : 0 < 2 ^ bits T := Nat.pow_pos (by decide)
        have h2 : 2 ^ bits T < 2 ^ bits (T + 1) :=
          Nat.pow_lt_pow_right (by decide) (bits_lt_succ T)
        unfold max_value
        omega
    · subst h
      obtain ⟨U, hU, h1, h2, h3, _⟩ :=
        add_assign_nonneg_mk (D := D) n T xs i x (.unsigned x) hn hl hfit hT4 (Or.inl rfl)
      exact ⟨U, _, hU, h1, h2, h3⟩
    · subst h
      obtain ⟨U, hU, h1, h2, h3, _⟩ :=
        add_assign_nonneg_mk (D := D) n T xs i x (.signed x) hn hl hfit hT4 (Or.inr rfl)
      exact ⟨U, _, hU, h1, h2, h3⟩
    · subst h
      exact ⟨4, _, add_assign_large_mk n T xs i x hn hl hfit hT4, hT4, le_refl _,
        fun h => absurd h (by omega)⟩
  obtain ⟨U, v, hU, h1, h2, h3⟩ := key
  rw [hU]
  refine ⟨rfl, h1, by simp only; omega, ?_, ?_⟩
  · simp only [buffer_type.well_formed, hn, List.length_set, hl, true_and]
    refine ⟨by omega, ?_⟩
    intro w hw
    rcases List.mem_or_eq_of_mem_set hw with h | h
    · exact fits_mono h1 (hfit w h)
    · rw [h]
      exact h3
  · intro j hj
    rw [int_at_mk, int_at_mk, getD_set_ne _ _ _ _ _ hj]

/-- Witness for C11: incrementing the cell holding 255 of a 3-cell 8-bit storage widens the
buffer and keeps the cell holding 7. -/
theorem integer_operation_frame_witness :
    sample_uint8.well_formed ∧
    ((operation.increment 0).apply sample_uint8).int_at 1 = sample_uint8.int_at 1 :=
  ⟨by decide,
    (integer_operation_frame sample_uint8 0 (.increment 0) (by decide) (by decide)
      (by decide) (Or.inl rfl)).2.2.2.2 1 (by decide)⟩

/-- Counterexample to C12 as stated: adding the large_int 1 to the cell holding 7 of an
8-bit storage, where the sum 8 fits the 8-bit type, does not keep the 8-bit
representation: the buffer becomes large_int. -/
theorem add_assign_large_int_in_place_counterexample :
    sample_uint8.well_formed ∧ sample_uint8.type = 0 ∧ 1 < sample_uint8.size ∧
    sample_uint8.int_at 1 + 1 ≤ max_value sample_uint8.type ∧
    (reference.add_assign sample_uint8 1 (.large 1)).type ≠ sample_uint8.type ∧
    (reference.add_assign sample_uint8 1 (.large 1)).type = 4 := by
  decide

/-- C12 (amended): on a well-formed storage in a fixed-width integer representation, for a
valid index `i` and a large_int addend `x`, `cell[i] += x` makes no in-place attempt: the
buffer is rebuilt in the large_int representation whatever the sum is, cell `i` holds
`old_value_i + x`, every other cell keeps its value and the size is unchanged. -/
theorem add_assign_large_int_always_widens (b : buffer_type D) (i x : Nat)
    (hwf : b.well_formed) (hT : b.type < 4) (hi : i < b.size) :
    (reference.add_assign b i (.large x)).type = 4 ∧
    (reference.add_assign b i (.large x)).size = b.size ∧
    (reference.add_assign b i (.large x)).int_at i = b.int_at i + x ∧
    ∀ j, j ≠ i → (reference.add_assign b i (.large x)).int_at j = b.int_at j := by
  obtain ⟨xs, hb, hl, hfit⟩ := well_formed_integral b hwf (by omega) (by omega)
  have hn : 0 < b.size := by omega
  have hT4 : b.type ≤ 4 := by omega
  clear hwf hT
  generalize b.type = T at *
  generalize b.size = n at *
  subst hb
  rw [add_assign_large_mk n T xs i x hn hl hfit hT4]
  refine ⟨rfl, rfl, ?_, ?_⟩
  · rw [int_at_mk, int_at_mk, getD_set_self _ _ _ _ (by omega)]
  · intro j hj
    rw [int_at_mk, int_at_mk, getD_set_ne _ _ _ _ _ hj]

/-- Witness for C12 (amended): adding the large_int 1 to the cell holding 7 of a 3-cell
8-bit storage. -/
theorem add_assign_large_int_always_widens_witness :
    sample_uint8.well_formed ∧
    (reference.add_assign sample_uint8 1 (.large 1)).int_at 1 = sample_uint8.int_at 1 + 1 :=
  ⟨by decide,
    (add_assign_large_int_always_widens sample_uint8 1 1 (by decide) (by decide)
      (by decide)).2.2.1⟩

theorem zero_cell_type (T : Nat) (b : buffer_type D) (i : Nat) :
    (reference.zero_cell T b i).type = b.type := by
  unfold reference.zero_cell
  split
  · rw [store_dbl_type]
  · rw [store_int_type]

/-- The assignment `cell[i] = x` is: zero the cell in the current representation, then
`cell[i] += x`. -/
theorem assign_eq_zero_add (b : buffer_type D) (i : Nat) (x : number D) :
    reference.assign b i x
      = reference.add_assign (b.visit (fun T => reference.zero_cell T b i)) i x := by
  unfold reference.assign reference.add_assign
  rw [visit_eq_apply b, visit_eq_apply b (fun T => reference.zero_cell T b i),
    visit_eq_apply (reference.zero_cell (b.visit id) b i)]
  have h : (reference.zero_cell (b.visit id) b i).visit id = b.visit id := by
    unfold buffer_type.visit
    rw [zero_cell_type]
  rw [h]

/-- Zeroing cell `i` of an integer array. -/
theorem zero_cell_mk (n T : Nat) (xs : List Nat) (i : Nat) (hT : T ≤ 4) :
    ({ size := n, type := T, ptr := some (.integral xs) } : buffer_type D).visit
        (fun U => reference.zero_cell U
          ({ size := n, type := T, ptr := some (.integral xs) } : buffer_type D) i)
      = { size := n, type := T, ptr := some (.integral (xs.set i 0)) } := by
  rw [visit_of_lt _ _ (by simp only; omega)]
  have h5 : T ≠ 5 := by omega
  simp only [reference.zero_cell, h5, if_false, store_int_mk]

/-- The assignment of a nonnegative integer or of a large_int to a cell of a well-formed
integer array. -/
theorem assign_integer_mk (n T : Nat) (xs : List Nat) (i x : Nat) (op : number D)
    (hn : 0 < n) (hl : xs.length = n) (hfit : ∀ v ∈ xs, fits T v) (hT : T ≤ 4) (hi : i < n)
    (hop : op = .unsigned x ∨ op = .signed (x : Int) ∨ op = .large x) :
    ∃ U, reference.assign
        ({ size := n, type := T, ptr := some (.integral xs) } : buffer_type D) i op
        = { size := n, type := U, ptr := some (.integral (xs.set i x)) } ∧
      T ≤ U ∧ U ≤ 4 ∧ fits U x ∧ (op ≠ .large x → ∀ V, T ≤ V → V < U → ¬ fits V x) ∧
      (op = .large x → U = 4) := by
  rw [assign_eq_zero_add, zero_cell_mk n T xs i hT]
  have hfit0 : ∀ v ∈ xs.set i 0, fits T v := by
    intro v hv
    rcases List.mem_or_eq_of_mem_set hv with h | h
    · exact hfit v h
    · rw [h]
      intro _
      exact Nat.pow_pos (by decide)
  have hl0 : (xs.set i 0).length = n := by rw [List.length_set, hl]
  have hg : (xs.set i 0).getD i 0 + x = x := by
    rw [getD_set_self _ _ _ _ (by omega)]
    omega
  rcases hop with h | h | h
  · obtain ⟨U, hU, h1, h2, h3, h4⟩ :=
      add_assign_nonneg_mk (D := D) n T (xs.set i 0) i x op hn hl0 hfit0 hT (Or.inl h)
    rw [hg, List.set_set] at hU
    rw [hg] at h3 h4
    exact ⟨U, hU, h1, h2, h3, fun _ => h4, fun hc => by rw [h] at hc; cases hc⟩
  · obtain ⟨U, hU, h1, h2, h3, h4⟩ :=
      add_assign_nonneg_mk (D := D) n T (xs.set i 0) i x op hn hl0 hfit0 hT (Or.inr h)
    rw [hg, List.set_set] at hU
    rw [hg] at h3 h4
    exact ⟨U, hU, h1, h2, h3, fun _ => h4, fun hc => by rw [h] at hc; cases hc⟩
  · subst h
    have hU := add_assign_large_mk (D := D) n T (xs.set i 0) i x hn hl0 hfit0 hT
    rw [hg, List.set_set] at hU
    exact ⟨4, hU, hT, le_refl _, fun hc => absurd hc (by omega),
      fun hc => absurd rfl hc, fun _ => rfl⟩

theorem set_getD_self {α : Type} (xs : List α) (i : Nat) (a : α) (hi : i < xs.length) :
    xs.set i (xs.getD i a) = xs := by
  apply List.ext_getElem (by simp)
  intro m h1 h2
  rw [List.getElem_set]
  split
  · rename_i h
    subst h
    rw [List.getD_eq_getElem _ _ hi]
  · rfl

/-- C13: the cursor assignment `cell[i] = x` gives the same storage as setting cell `i` to
zero in the current representation and then performing `cell[i] += x`. Hence on a
well-formed integer buffer, for a nonnegative integer `x`, cell `i` afterwards holds
exactly `x`, the representation is the first one from the current one on whose range holds
`x` (never a narrower one), and every other cell is unchanged; assigning a cell of an
integer buffer to itself through a cursor leaves the whole buffer unchanged, and a cell of
a double buffer then holds `0.0 + old_value`. -/
theorem cursor_assign (b : buffer_type D) (i : Nat) (op : number D) (hwf : b.well_formed)
    (hi : i < b.size) :
    reference.assign b i op
      = reference.add_assign (b.visit (fun T => reference.zero_cell T b i)) i op ∧
    (b.type < 5 → ∀ x : Nat, op = .unsigned x ∨ op = .signed (x : Int) →
      (reference.assign b i op).int_at i = x ∧
      (reference.assign b i op).size = b.size ∧
      b.type ≤ (reference.assign b i op).type ∧ (reference.assign b i op).type < 5 ∧
      fits (reference.assign b i op).type x ∧
      (∀ V, b.type ≤ V → V < (reference.assign b i op).type → ¬ fits V x) ∧
      ∀ j, j ≠ i → (reference.assign b i op).int_at j = b.int_at j) ∧
    (b.type < 5 → reference.assign_cursor b i b i = b) ∧
    (b.type = 5 →
      (reference.assign_cursor b i b i).type = 5 ∧
      reference.to_double (reference.assign_cursor b i b i) i
        = DoubleOps.add DoubleOps.zero (reference.to_double b i) ∧
      ∀ j, j ≠ i → reference.to_double (reference.assign_cursor b i b i) j
        = reference.to_double b j) := by
  refine ⟨assign_eq_zero_add b i op, ?_, ?_, ?_⟩
  · intro hT x hop
    obtain ⟨xs, hb, hl, hfit⟩ := well_formed_integral b hwf hT (by omega)
    have hn : 0 < b.size := by omega
    have hT4 : b.type ≤ 4 := by omega
    clear hwf hT
    generalize b.type = T at *
    generalize b.size = n at *
    subst hb
    obtain ⟨U, hU, h1, h2, h3, h4, _⟩ := assign_integer_mk (D := D) n T xs i x op hn hl hfit
      hT4 hi (by rcases hop with h | h; exact Or.inl h; exact Or.inr (Or.inl h))
    have hne : op ≠ .large x := by
      rcases hop with h | h <;> rw [h] <;> intro hc <;> cases hc
    rw [hU]
    refine ⟨?_, rfl, h1, by simp only; omega, h3, h4 hne, ?_⟩
    · rw [int_at_mk, getD_set_self _ _ _ _ (by omega)]
    · intro j hj
      rw [int_at_mk, int_at_mk, getD_set_ne _ _ _ _ _ hj]
  · intro hT
    obtain ⟨xs, hb, hl, hfit⟩ := well_formed_integral b hwf hT (by omega)
    have hn : 0 < b.size := by omega
    have hT4 : b.type ≤ 4 := by omega
    clear hwf hT
    generalize b.type = T at *
    generalize b.size = n at *
    subst hb
    have hself : xs.set i (xs.getD i 0) = xs := set_getD_self xs i 0 (by omega)
    have hfv : fits T (xs.getD i 0) := hfit _ (getD_mem xs i 0 (by omega))
    unfold reference.assign_cursor
    rw [visit_of_lt _ _ (by simp only; omega)]
    simp only []
    have h5 : T ≠ 5 := by omega
    by_cases h4 : T = 4
    · subst h4
      obtain ⟨U, hU, -, -, -, -, h6⟩ := assign_integer_mk (D := D) n 4 xs i (xs.getD i 0)
        (.large (xs.getD i 0)) hn hl hfit hT4 hi (Or.inr (Or.inr rfl))
      simp only [buffer_type.element, if_true, int_at_mk]
      rw [if_neg (by decide), hU, h6 rfl, hself]
    · obtain ⟨U, hU, h1, h2, -, h6, -⟩ := assign_integer_mk (D := D) n T xs i (xs.getD i 0)
        (.unsigned (xs.getD i 0)) hn hl hfit hT4 hi (Or.inl rfl)
      simp only [buffer_type.element, h5, h4, if_false, int_at_mk]
      have hUT : U = T := by
        by_contra hne
        exact h6 (by intro hc; cases hc) T (le_refl _) (by omega) hfv
      rw [hU, hUT, hself]
  · intro hT
    obtain ⟨ds, hb, hl⟩ := well_formed_floating b hwf hT (by omega)
    clear hwf hT
    generalize b.size = n at *
    subst hb
    have hres : reference.assign_cursor
        ({ size := n, type := 5, ptr := some (.floating ds) } : buffer_type D) i
        { size := n, type := 5, ptr := some (.floating ds) } i
        = { size := n, type := 5, ptr := some (.floating (ds.set i
            (DoubleOps.add DoubleOps.zero (ds.getD i DoubleOps.zero)))) } := by
      unfold reference.assign_cursor reference.assign
      rw [visit_of_lt _ _ (by simp only; omega), visit_of_lt _ _ (by simp only; omega)]
      simp only [buffer_type.element, if_true, adder.call, reference.zero_cell,
        adder.call_double, buffer_type.store_dbl, buffer_type.dbl_at, number.to_double,
        List.set_set]
      rw [getD_set_self _ _ _ _ (by omega)]
    rw [hres]
    refine ⟨rfl, ?_, ?_⟩
    · rw [to_double_mk_floating, to_double_mk_floating, getD_set_self _ _ _ _ (by omega)]
    · intro j hj
      rw [to_double_mk_floating, to_double_mk_floating, getD_set_ne _ _ _ _ _ hj]

/-- Witness for C13: assigning 300 to the cell holding 7 of a 3-cell 8-bit storage. -/
theorem cursor_assign_witness :
    sample_uint8.well_formed ∧
    (reference.assign sample_uint8 1 (.unsigned 300)).int_at 1 = 300 :=
  ⟨by decide,
    ((cursor_assign sample_uint8 1 (.unsigned 300) (by decide) (by decide)).2.1 (by decide)
      300 (Or.inl rfl)).1⟩

/-- C14: move-constructing a buffer from `o` gives the new buffer exactly the array, the
element count and the representation tag `o` had, and leaves `o` empty: count 0, tag reset
to the 8-bit type, no array. -/
theorem move_constructor {D : Type} (o : buffer_type D) :
    (buffer_type.move o).1 = o ∧
    (buffer_type.move o).1.ptr = o.ptr ∧ (buffer_type.move o).1.size = o.size ∧
    (buffer_type.move o).1.type = o.type ∧
    (buffer_type.move o).2.size = 0 ∧ (buffer_type.move o).2.type = 0 ∧
    (buffer_type.move o).2.ptr = none :=
  ⟨rfl, rfl, rfl, rfl, rfl, rfl, rfl⟩

/-- Counterexample to C15 as stated: move-assigning a large_int buffer into a non-empty
8-bit buffer of three cells leaves the source with those three 8-bit cells, not empty. -/
theorem move_assign_source_counterexample :
    (buffer_type.move_assign sample_uint8 sample_large_int).1 = sample_large_int ∧
    (buffer_type.move_assign sample_uint8 sample_large_int).2.size = 3 ∧
    (buffer_type.move_assign sample_uint8 sample_large_int).2.size ≠ 0 ∧
    (buffer_type.move_assign sample_uint8 sample_large_int).2.ptr ≠ none := by
  decide

/-- C15 (amended): move-assigning a buffer `o` into a distinct buffer `d` gives `d` exactly
the array, element count and tag `o` had, and leaves `o` with the array, element count and
tag `d` had: the members are swapped, so `o` is left empty exactly when `d` was empty. -/
theorem move_assign_swaps {D : Type} (d o : buffer_type D) :
    (buffer_type.move_assign d o).1 = o ∧ (buffer_type.move_assign d o).2 = d ∧
    ((buffer_type.move_assign d o).2.size = 0 ↔ d.size = 0) ∧
    ((buffer_type.move_assign d o).2.ptr = none ↔ d.ptr = none) :=
  ⟨rfl, rfl, Iff.rfl, Iff.rfl⟩

theorem invariant_of_same {D : Type} (b r : buffer_type D) (h : b.invariant)
    (hs : r.size = b.size) (ht : r.type = b.type) (hp : r.ptr.isNone = b.ptr.isNone) :
    r.invariant := by
  unfold buffer_type.invariant at *
  rw [hs, ht, hp]
  exact h

theorem invariant_store_int {D : Type} (b : buffer_type D) (i v : Nat) (h : b.invariant) :
    (b.store_int i v).invariant := by
  apply invariant_of_same b _ h <;> unfold buffer_type.store_int <;> split <;>
    simp_all

theorem invariant_store_dbl {D : Type} (b : buffer_type D) (i : Nat) (v : D)
    (h : b.invariant) : (b.store_dbl i v).invariant := by
  apply invariant_of_same b _ h <;> unfold buffer_type.store_dbl <;> split <;>
    simp_all

theorem invariant_destroy {D : Type} (b : buffer_type D) (h : b.invariant) :
    b.destroy.invariant := by
  unfold buffer_type.destroy
  split
  · exact h
  · exact ⟨by simp, by simp⟩

theorem invariant_make (b : buffer_type D) (T n : Nat) (hT : T < 6) :
    (b.make T n).invariant := by
  unfold buffer_type.make buffer_type.destroy buffer_type.invariant
  by_cases hn : 0 < n
  · cases hp : b.ptr <;> simp [hn, hT] <;> omega
  · have h0 : n = 0 := by omega
    subst h0
    cases hp : b.ptr <;> simp [hT, hp]

theorem invariant_make_from (b : buffer_type D) (T U n : Nat) (iter : Option (cells D))
    (hT : T < 6) : (b.make_from T U n iter).invariant := by
  rw [make_from_eq]
  unfold buffer_type.invariant
  by_cases hn : 0 < n
  · simp [hn, hT]
    omega
  · have h0 : n = 0 := by omega
    subst h0
    simp [hT]

theorem invariant_multiplier_call_double (b : buffer_type D) (x : D) (h : b.invariant) :
    (multiplier.call_double b x).invariant := by
  apply invariant_of_same b _ h <;> unfold multiplier.call_double <;> split <;> simp_all

theorem invariant_is_x_unsigned_true (k : Nat) (b : buffer_type D) (i x : Nat)
    (h : b.invariant) : (adder.is_x_unsigned_true k b i x).invariant := by
  induction k generalizing b with
  | zero => exact invariant_store_int b i _ h
  | succ k ih =>
    simp only [adder.is_x_unsigned_true]
    split
    · exact invariant_store_int b i _ h
    · exact ih _ (invariant_make_from b _ _ _ _ (by omega))

theorem visit_id_le {D : Type} (b : buffer_type D) : b.visit id ≤ 5 := by
  rcases visit_id_cases b with ⟨h1, h2⟩ | ⟨_, h2⟩ <;> omega

theorem invariant_incrementor (T : Nat) (b : buffer_type D) (i : Nat) (hT : T ≤ 5)
    (h : b.invariant) : (incrementor T b i).invariant := by
  unfold incrementor
  split
  · exact invariant_store_dbl b i _ h
  · split
    · exact invariant_store_int b i _ h
    · split
      · exact invariant_store_int b i _ h
      · exact invariant_store_int _ i _ (invariant_make_from b _ _ _ _ (by omega))

theorem invariant_adder_call (T : Nat) (b : buffer_type D) (i : Nat) (x : number D)
    (h : b.invariant) : (adder.call T b i x).invariant := by
  have hf : ∀ y : number D, (adder.is_x_integral_false T b i y).invariant := by
    intro y
    exact invariant_store_dbl _ i _ (invariant_make_from b _ _ _ _ (by decide))
  unfold adder.call
  split
  · exact invariant_store_dbl b i _ h
  · cases x with
    | unsigned v => exact invariant_is_x_unsigned_true _ b i v h
    | signed v =>
      simp only [adder.is_x_unsigned_false]
      split
      · exact invariant_is_x_unsigned_true _ b i _ h
      · exact hf _
    | large v =>
      simp only []
      split
      · exact invariant_store_int b i _ h
      · exact invariant_store_int _ i _ (invariant_make_from b _ _ _ _ (by decide))
    | floating v => exact hf _

theorem invariant_adder_call_aliased (T : Nat) (b : buffer_type D) (i ix : Nat) (hT : T ≤ 5)
    (h : b.invariant) : (adder.call_aliased T b i ix).invariant := by
  unfold adder.call_aliased
  split
  · exact invariant_store_dbl b i _ h
  · split
    · exact invariant_store_int b i _ h
    · unfold adder.is_x_unsigned_true_aliased
      split
      · exact invariant_store_int b i _ h
      · exact invariant_is_x_unsigned_true _ _ i _
          (invariant_make_from b _ _ _ _ (by omega))

theorem invariant_reference_add_assign (b : buffer_type D) (i : Nat) (x : number D)
    (h : b.invariant) : (reference.add_assign b i x).invariant := by
  unfold reference.add_assign
  rw [visit_eq_apply]
  exact invariant_adder_call _ b i x h

theorem invariant_reference_mul_assign (b : buffer_type D) (i : Nat) (x : D)
    (h : b.invariant) : (reference.mul_assign b i x).invariant := by
  unfold reference.mul_assign
  rw [visit_eq_apply]
  unfold multiplier.call_at multiplier.call_double_at
  split
  · exact invariant_store_dbl b i _ h
  · exact invariant_store_dbl _ i _ (invariant_make_from b _ _ _ _ (by decide))

theorem invariant_reference_assign (b : buffer_type D) (i : Nat) (x : number D)
    (h : b.invariant) : (reference.assign b i x).invariant := by
  rw [assign_eq_zero_add]
  apply invariant_reference_add_assign
  rw [visit_eq_apply]
  unfold reference.zero_cell
  split
  · exact invariant_store_dbl b i _ h
  · exact invariant_store_int b i _ h

/-- Every operation of a cursor and the whole-storage `*=` keep the invariant. -/
theorem invariant_operation (op : operation D) (b : buffer_type D) (h : b.invariant) :
    (op.apply b).invariant := by
  cases op with
  | increment i =>
    simp only [operation.apply, reference.increment]
    rw [visit_eq_apply]
    exact invariant_incrementor _ b i (visit_id_le b) h
  | add_assign i x => exact invariant_reference_add_assign b i x h
  | add_assign_cursor i ix =>
    simp only [operation.apply, reference.add_assign_cursor]
    rw [visit_eq_apply, visit_eq_apply b (fun T => adder.call_aliased T b i ix)]
    exact invariant_adder_call_aliased _ b i ix (visit_id_le b) h
  | add_assign_other i xb ix =>
    simp only [operation.apply, reference.add_assign_other]
    rw [visit_eq_apply]
    exact invariant_reference_add_assign b i _ h
  | sub_assign i x => exact invariant_reference_add_assign b i _ h
  | mul_assign i x => exact invariant_reference_mul_assign b i x h
  | div_assign i x => exact invariant_reference_mul_assign b i _ h
  | assign i x => exact invariant_reference_assign b i x h
  | assign_cursor i xb ix =>
    simp only [operation.apply, reference.assign_cursor]
    rw [visit_eq_apply]
    exact invariant_reference_assign b i _ h
  | storage_mul_assign x =>
    simp only [operation.apply, unlimited_storage.mul_assign]
    rw [visit_eq_apply]
    unfold multiplier.call
    split
    · exact invariant_multiplier_call_double b x h
    · exact invariant_multiplier_call_double _ x (invariant_make_from b _ _ _ _ (by decide))

/-- C16: every buffer state reached from a default-constructed buffer by any sequence of
reset, make with a source, destroy, copy, move construction, move assignment and the
increment, add and multiply promotion algorithms satisfies: the array is absent exactly
when the element count is 0, and the tag is one of the six ladder members (0..5); so the
assertion of `destroy()` holds in every such state. -/
theorem reachable_invariant (b : buffer_type D) (h : reachable b) :
    (b.ptr.isNone = true ↔ b.size = 0) ∧ b.type < 6 := by
  have key : b.invariant := by
    induction h with
    | default => exact ⟨by simp, by simp⟩
    | make b T n _ hT _ => exact invariant_make b T n hT
    | make_from b T U n iter _ hT _ => exact invariant_make_from b T U n iter hT
    | destroy b _ ih => exact invariant_destroy b ih
    | copy x _ ih =>
      unfold buffer_type.copy
      rw [visit_eq_apply]
      exact invariant_make_from _ _ _ _ _ (by have := visit_id_le x; omega)
    | copy_assign d o _ _ _ ih =>
      show (buffer_type.copy o).invariant
      unfold buffer_type.copy
      rw [visit_eq_apply]
      exact invariant_make_from _ _ _ _ _ (by have := visit_id_le o; omega)
    | move_new o _ ih => exact ih
    | move_source o _ _ => exact ⟨by simp [buffer_type.move], by simp [buffer_type.move]⟩
    | move_assign_target d o _ _ _ ih => exact ih
    | move_assign_source d o _ _ ih _ => exact ih
    | store_int b i v _ ih => exact invariant_store_int b i v ih
    | store_dbl b i v _ ih => exact invariant_store_dbl b i v ih
    | operation op b _ ih => exact invariant_operation op b ih
  exact key

/-- Witness for C16: the buffer after a reset to three cells and an increment of cell 0. -/
theorem reachable_invariant_witness :
    ((operation.increment 0).apply (({} : buffer_type Int).make 0 3)).type < 6 :=
  (reachable_invariant _
    (reachable.operation (.increment 0) _ (reachable.make _ 0 3 reachable.default
      (by decide)))).2

/-- C17: for a cell of a well-formed buffer in an unsigned integer representation (8, 16,
32 or 64 bits) and a negative signed integer `x`, the comparisons do not wrap `x` to a
large unsigned value: `cell < x` is false, `cell == x` is false, `cell > x` is true, and
symmetrically `x < cell` is true and `x == cell` is false. -/
theorem compare_negative (b : buffer_type D) (i : Nat) (x : Int) (hwf : b.well_formed)
    (hT : b.type < 4) (hi : i < b.size) (hx : x < 0) :
    const_reference.lt_value b i (.signed x) = false ∧
    const_reference.eq_value b i (.signed x) = false ∧
    const_reference.gt_value b i (.signed x) = true ∧
    const_reference.value_lt (.signed x) b i = true ∧
    const_reference.value_eq (.signed x) b i = false := by
  obtain ⟨xs, hb, _, _⟩ := well_formed_integral b hwf (by omega) (by omega)
  have h6 : b.type < 6 := by omega
  have h5 : b.type ≠ 5 := by omega
  have h4 : b.type ≠ 4 := by omega
  have helt : b.element b.type i = .unsigned (b.int_at i) := by
    simp only [buffer_type.element, h5, h4, if_false]
  simp only [const_reference.lt_value, const_reference.eq_value, const_reference.gt_value,
    const_reference.value_lt, const_reference.value_eq, const_reference.op_value,
    visit_of_lt _ _ h6, helt, detail.less, detail.equal, detail.greater, number.to_int]
  refine ⟨?_, ?_, ?_, ?_, ?_⟩ <;> simp <;> omega

/-- Witness for C17: the cell holding 255 of an 8-bit storage compared with -1. -/
theorem compare_negative_witness :
    sample_uint8.well_formed ∧
    const_reference.eq_value sample_uint8 0 (.signed (-1)) = false :=
  ⟨by decide,
    (compare_negative sample_uint8 0 (-1) (by decide) (by decide) (by decide)
      (by decide)).2.1⟩

/-- C18 at a failing input: `x` a cursor to a double cell holding NaN and `y` a cursor to a
double cell holding 1.0. The cursor-versus-cursor `x <= y` is `!(y < x)` and evaluates to
true although `x < y` and `x == y` are both false, and likewise `x >= y`; the
cursor-versus-value `x <= u` and `x >= u` with `u = 1.0`, the value held by `y`, are
false. -/
theorem derived_comparison_nan :
    sample_nan.well_formed ∧
    const_reference.le sample_nan 0 sample_nan 1 = true ∧
    const_reference.lt sample_nan 0 sample_nan 1 = false ∧
    const_reference.eq sample_nan 0 sample_nan 1 = false ∧
    const_reference.ge sample_nan 0 sample_nan 1 = true ∧
    const_reference.gt sample_nan 0 sample_nan 1 = false ∧
    sample_nan.cell 1 = .floating (some 1) ∧
    const_reference.le_value sample_nan 0 (.floating (some 1)) = false ∧
    const_reference.ge_value sample_nan 0 (.floating (some 1)) = false := by
  decide

/-- The element of an integer buffer is an integer of its type. -/
theorem element_integer (b : buffer_type D) (i : Nat) (hT : b.type < 5) :
    b.visit (fun T => b.element T i) = .unsigned (b.int_at i) ∨
    b.visit (fun T => b.element T i) = .large (b.int_at i) := by
  rw [visit_of_lt _ _ (by omega)]
  have h5 : b.type ≠ 5 := by omega
  by_cases h4 : b.type = 4
  · right
    simp only [buffer_type.element, h4, if_true]
    rfl
  · left
    simp only [buffer_type.element, h5, h4, if_false]

/-- A comparison of two cursors applies the comparator to the two cells. -/
theorem op_cursor_cell (f : number D → number D → Bool) (b : buffer_type D) (i : Nat)
    (yb : buffer_type D) (iy : Nat) :
    const_reference.op_cursor f b i yb iy = f (b.cell i) (yb.cell iy) := by
  unfold const_reference.op_cursor const_reference.op_value buffer_type.cell
  rw [visit_eq_apply yb, visit_eq_apply b,
    visit_eq_apply yb (fun T => yb.element T iy), visit_eq_apply b (fun T => b.element T i)]

/-- On cells of integer buffers the derived operators of two cursors agree with the
primitive ones: there the order is total. -/
theorem derived_comparison_integer (b : buffer_type D) (i : Nat) (yb : buffer_type D)
    (iy : Nat) (hT : b.type < 5) (hU : yb.type < 5) :
    const_reference.le b i yb iy
      = (const_reference.lt b i yb iy || const_reference.eq b i yb iy) ∧
    const_reference.ge b i yb iy
      = (const_reference.gt b i yb iy || const_reference.eq b i yb iy) := by
  simp only [const_reference.le, const_reference.ge, const_reference.lt, const_reference.gt,
    const_reference.eq, op_cursor_cell]
  have hx := element_integer b i hT
  have hy := element_integer yb iy hU
  unfold buffer_type.cell
  rcases hx with hx | hx <;> rcases hy with hy | hy <;> rw [hx, hy] <;>
    simp only [detail.less, detail.greater, detail.equal, number.to_int] <;>
    constructor <;> rw [Bool.eq_iff_iff] <;> simp <;> omega

/-- C19: `s == q` for an iterable `q` is true exactly when `s.size()` equals the length of
`q` and at every index the cell of `s`, in its current representation, equals the element
of `q` under the representation-safe equality; it is false whenever the lengths differ. -/
theorem operator_eq_iterable_iff (s : unlimited_storage D) (q : List (number D)) :
    (s.operator_eq_iterable q = true ↔
      s.size = q.length ∧
      ∀ i (h : i < q.length), detail.equal (s.buffer_.cell i) (q.get ⟨i, h⟩) = true) ∧
    (s.size ≠ q.length → s.operator_eq_iterable q = false) := by
  have hcell : ∀ (c : buffer_type D) (i : Nat), c.cell i = c.element (c.visit id) i :=
    fun c i => visit_eq_apply c _
  unfold unlimited_storage.operator_eq_iterable
  rw [visit_eq_apply s.buffer_]
  simp only [hcell]
  by_cases hs : s.size = q.length
  · simp only [hs, ne_eq, not_true_eq_false, if_false, unlimited_storage.std_equal,
      List.all_eq_true, List.mem_range, true_and, false_implies, and_true]
    constructor
    · intro h i hi
      have := h i hi
      rw [List.getD_eq_getElem _ _ hi] at this
      exact this
    · intro h i hi
      rw [List.getD_eq_getElem _ _ hi]
      exact h i hi
  · simp [hs]

/-- The operator `*=` of one cell on an array of doubles. -/
theorem mul_assign_mk_floating (n : Nat) (ds : List D) (i : Nat) (x : D) :
    reference.mul_assign
        ({ size := n, type := 5, ptr := some (.floating ds) } : buffer_type D) i x
      = { size := n, type := 5,
          ptr := some (.floating (ds.set i
            (DoubleOps.mul (ds.getD i DoubleOps.zero) x))) } := by
  unfold reference.mul_assign
  rw [visit_of_lt _ _ (by simp only; omega)]
  rfl

/-- The operator `*=` of one cell on an integer array: the array is rebuilt as doubles and
the cell is scaled. -/
theorem mul_assign_mk_integral (n T : Nat) (xs : List Nat) (i : Nat) (x : D) (hn : 0 < n)
    (hl : xs.length = n) (hT : T < 5) :
    reference.mul_assign
        ({ size := n, type := T, ptr := some (.integral xs) } : buffer_type D) i x
      = { size := n, type := 5,
          ptr := some (.floating ((xs.map (cell_to_double T)).set i
            (DoubleOps.mul ((xs.map (cell_to_double T)).getD i DoubleOps.zero) x))) } := by
  unfold reference.mul_assign
  rw [visit_of_lt _ _ (by simp only; omega)]
  have h5 : T ≠ 5 := by omega
  simp only [multiplier.call_at, h5, if_false]
  rw [make_from_integral_double n T xs hn hl]
  rfl

/-- C20: on a well-formed storage in any representation, for a valid index `i` and a double
`s`, after the single-cell `cell[i] *= s` the whole buffer is in the floating
representation, cell `i` holds `(double)old_value_i * s`, every other cell `j` holds
`(double)old_value_j` unscaled, and the element count is unchanged. -/
theorem cell_mul_assign (b : buffer_type D) (i : Nat) (s : D) (hwf : b.well_formed)
    (hi : i < b.size) :
    (reference.mul_assign b i s).type = 5 ∧ (reference.mul_assign b i s).size = b.size ∧
    reference.to_double (reference.mul_assign b i s) i
      = DoubleOps.mul (reference.to_double b i) s ∧
    ∀ j, j < b.size → j ≠ i →
      reference.to_double (reference.mul_assign b i s) j = reference.to_double b j := by
  rcases well_formed_cases b hwf with ⟨hb, _⟩ | ⟨xs, hb, hn, hl, hT, _⟩ | ⟨ds, hb, hn, hl⟩
  · rw [hb] at hi
    exact absurd hi (by simp)
  · generalize b.type = T at *
    generalize b.size = n at *
    subst hb
    rw [mul_assign_mk_integral n T xs i s hn hl hT]
    refine ⟨rfl, rfl, ?_, ?_⟩
    · rw [to_double_mk_floating, to_double_mk_integral _ _ _ _ hT,
        getD_set_self _ _ _ _ (by simp; omega), getD_map_of_lt _ _ _ 0 _ (by omega)]
    · intro j hj hji
      rw [to_double_mk_floating, to_double_mk_integral _ _ _ _ hT,
        getD_set_ne _ _ _ _ _ hji, getD_map_of_lt _ _ _ 0 _ (by omega)]
  · generalize b.size = n at *
    subst hb
    rw [mul_assign_mk_floating]
    refine ⟨rfl, rfl, ?_, ?_⟩
    · rw [to_double_mk_floating, to_double_mk_floating, getD_set_self _ _ _ _ (by omega)]
    · intro j _ hji
      rw [to_double_mk_floating, to_double_mk_floating, getD_set_ne _ _ _ _ _ hji]

/-- Witness for C20: scaling the cell holding 7 of a 3-cell 8-bit storage by 2. -/
theorem cell_mul_assign_witness :
    sample_uint8.well_formed ∧
    reference.to_double (reference.mul_assign sample_uint8 1 (2 : Int)) 0
      = reference.to_double sample_uint8 0 :=
  ⟨by decide,
    (cell_mul_assign sample_uint8 1 (2 : Int) (by decide) (by decide)).2.2.2 0 (by decide)
      (by decide)⟩

/-- C23: on a well-formed storage in a fixed-width integer representation of `w` bits
(`w` = 8, 16, 32, 64 for the type index 0..3) and for a valid index `i`, prefix increment
raises the cell by exactly 1; the buffer widens, by exactly one ladder step, if and only if
the cell held the maximum `2^w - 1`, and otherwise the representation is unchanged. In the
large_int representation increment adds exactly 1 and keeps the representation. -/
theorem increment_widens_iff (b : buffer_type D) (i : Nat) (hwf : b.well_formed)
    (hT : b.type < 5) (hi : i < b.size) :
    (reference.increment b i).int_at i = b.int_at i + 1 ∧
    (reference.increment b i).size = b.size ∧
    (b.type < 4 →
      ((reference.increment b i).type = b.type + 1 ↔ b.int_at i = 2 ^ bits b.type - 1) ∧
      (b.int_at i ≠ 2 ^ bits b.type - 1 → (reference.increment b i).type = b.type)) ∧
    (b.type = 4 → (reference.increment b i).type = 4) ∧
    bits 0 = 8 ∧ bits 1 = 16 ∧ bits 2 = 32 ∧ bits 3 = 64 := by
  obtain ⟨xs, hb, hl, hfit⟩ := well_formed_integral b hwf hT (by omega)
  have hn : 0 < b.size := by omega
  have hT4 : b.type ≤ 4 := by omega
  clear hwf hT
  generalize b.type = T at *
  generalize b.size = n at *
  subst hb
  obtain ⟨U, hU, h1, h2, h3, h4⟩ := increment_mk (D := D) n T xs i hn hl hfit hT4 hi
  rw [hU]
  simp only [int_at_mk]
  refine ⟨getD_set_self _ _ _ _ (by omega), trivial, ?_, ?_, by decide, by decide, by decide,
    by decide⟩
  · intro hlt
    constructor
    · constructor
      · intro hUT
        rcases h3 with h | ⟨_, h⟩
        · omega
        · exact h
      · intro hmax
        exact h4 hlt hmax
    · intro hne
      rcases h3 with h | ⟨_, h⟩
      · exact h
      · exact absurd h hne
  · intro h4'
    omega

/-- Witness for C23: incrementing the cell holding 255 of a 3-cell 8-bit storage. -/
theorem increment_widens_iff_witness :
    sample_uint8.well_formed ∧ (reference.increment sample_uint8 0).int_at 0 = 255 + 1 :=
  ⟨by decide,
    (increment_widens_iff sample_uint8 0 (by decide) (by decide) (by decide)).1⟩

/-- The operator `+=` with a double operand on an integer array. -/
theorem add_assign_floating_mk (n T : Nat) (xs : List Nat) (i : Nat) (x : D) (hn : 0 < n)
    (hl : xs.length = n) (hT : T < 5) :
    reference.add_assign
        ({ size := n, type := T, ptr := some (.integral xs) } : buffer_type D) i
        (.floating x)
      = { size := n, type := 5,
          ptr := some (.floating ((xs.map (cell_to_double T)).set i
            (DoubleOps.add ((xs.map (cell_to_double T)).getD i DoubleOps.zero) x))) } := by
  unfold reference.add_assign
  rw [visit_of_lt _ _ (by simp only; omega)]
  have h5 : T ≠ 5 := by omega
  simp only [adder.call, h5, if_false]
  rw [is_x_integral_false_mk n T xs i _ hn hl]
  rfl

/-- C26: on a well-formed storage not in the floating representation, for a valid index `i`
and every double `x` (0 and integer values included), `cell[i] -= x` converts the whole
buffer to the floating representation and gives the same storage as `cell[i] += (-x)`, the
cell holding `(double)old_value_i + (-x)`; and `cell[i] /= x` gives the same storage as
`cell[i] *= (1.0 / x)`. -/
theorem sub_div_assign (b : buffer_type D) (i : Nat) (x : D) (hwf : b.well_formed)
    (hT : b.type < 5) (hi : i < b.size) :
    (reference.sub_assign b i x).type = 5 ∧
    (reference.sub_assign b i x).size = b.size ∧
    reference.sub_assign b i x = reference.add_assign b i (.floating (DoubleOps.neg x)) ∧
    reference.to_double (reference.sub_assign b i x) i
      = DoubleOps.add (reference.to_double b i) (DoubleOps.neg x) ∧
    (∀ j, j < b.size → j ≠ i →
      reference.to_double (reference.sub_assign b i x) j = reference.to_double b j) ∧
    reference.div_assign b i x
      = reference.mul_assign b i (DoubleOps.div DoubleOps.one x) := by
  obtain ⟨xs, hb, hl, _⟩ := well_formed_integral b hwf hT (by omega)
  have hn : 0 < b.size := by omega
  refine ⟨?_, ?_, rfl, ?_, ?_, rfl⟩ <;> unfold reference.sub_assign <;> clear hwf <;>
    generalize b.type = T at * <;> generalize b.size = n at * <;> subst hb <;>
    rw [add_assign_floating_mk n T xs i _ hn hl hT]
  · rw [to_double_mk_floating, to_double_mk_integral _ _ _ _ hT,
      getD_set_self _ _ _ _ (by simp; omega), getD_map_of_lt _ _ _ 0 _ (by omega)]
  · intro j hj hji
    rw [to_double_mk_floating, to_double_mk_integral _ _ _ _ hT,
      getD_set_ne _ _ _ _ _ hji, getD_map_of_lt _ _ _ 0 _ (by omega)]

/-- Witness for C26: subtracting the double 0 from the cell holding 7 of a 3-cell 8-bit
storage makes the buffer floating. -/
theorem sub_div_assign_witness :
    sample_uint8.well_formed ∧ (reference.sub_assign sample_uint8 1 (0 : Int)).type = 5 :=
  ⟨by decide,
    (sub_div_assign sample_uint8 1 (0 : Int) (by decide) (by decide) (by decide)).1⟩

/-- The counted retry chain computes the same buffer as `is_x_unsigned` and performs at
most as many widenings as there are fixed-width types from the current one on. -/
theorem is_x_unsigned_true_counted_spec (k : Nat) (b : buffer_type D) (i x : Nat) :
    (adder.is_x_unsigned_true_counted k b i x).1 = adder.is_x_unsigned_true k b i x ∧
    (adder.is_x_unsigned_true_counted k b i x).2 ≤ k := by
  induction k generalizing b with
  | zero => exact ⟨rfl, le_refl _⟩
  | succ k ih =>
    simp only [adder.is_x_unsigned_true_counted, adder.is_x_unsigned_true]
    split
    · exact ⟨rfl, Nat.zero_le _⟩
    · have h := ih (b.make_from (3 - k + 1) (3 - k) b.size b.ptr)
      exact ⟨h.1, by omega⟩

/-- C24: the promotion algorithms terminate for every input: they are total functions, and
the retry chain of add (`is_x_unsigned`) performs at most four widenings before the add
succeeds, increment performs at most one widening, and neither performs a widening when
the buffer is in the large_int or in the floating representation. -/
theorem widenings_bounded (b : buffer_type D) (i x : Nat) :
    (reference.add_assign_unsigned_counted b i x).1 = reference.add_assign b i (.unsigned x) ∧
    (reference.add_assign_unsigned_counted b i x).2 ≤ 4 ∧
    (reference.increment_counted b i).1 = reference.increment b i ∧
    (reference.increment_counted b i).2 ≤ 1 ∧
    (4 ≤ b.type → (reference.add_assign_unsigned_counted b i x).2 = 0 ∧
      (reference.increment_counted b i).2 = 0 ∧
      (reference.add_assign b i (.unsigned x)).type = b.type ∧
      (reference.increment b i).type = b.type) := by
  unfold reference.add_assign_unsigned_counted reference.increment_counted
    reference.add_assign reference.increment
  rw [visit_eq_apply b
      (fun T => if T = 5 then (adder.call_double b i (.unsigned x), 0)
        else adder.is_x_unsigned_true_counted (4 - T) b i x),
    visit_eq_apply b (fun T => incrementor_counted T b i),
    visit_eq_apply b (fun T => adder.call T b i (.unsigned x)),
    visit_eq_apply b (fun T => incrementor T b i)]
  have hadd : ∀ T, (if T = 5 then (adder.call_double b i (.unsigned x), 0)
        else adder.is_x_unsigned_true_counted (4 - T) b i x).1
        = adder.call T b i (.unsigned x) ∧
      (if T = 5 then (adder.call_double b i (.unsigned x), 0)
        else adder.is_x_unsigned_true_counted (4 - T) b i x).2 ≤ 4 - T := by
    intro T
    unfold adder.call
    split
    · exact ⟨rfl, Nat.zero_le _⟩
    · exact is_x_unsigned_true_counted_spec (4 - T) b i x
  have hinc : ∀ T, (incrementor_counted T b i).1 = incrementor T b i ∧
      (incrementor_counted T b i).2 ≤ 1 ∧
      (4 ≤ T → T ≤ 5 → (incrementor_counted T b i).2 = 0) := by
    intro T
    unfold incrementor_counted incrementor
    split
    · exact ⟨rfl, Nat.zero_le _, fun _ _ => rfl⟩
    · split
      · exact ⟨rfl, Nat.zero_le _, fun _ _ => rfl⟩
      · split
        · exact ⟨rfl, Nat.zero_le _, fun _ _ => rfl⟩
        · exact ⟨rfl, le_refl _, fun h h' => by omega⟩
  refine ⟨(hadd _).1, by have := (hadd (b.visit id)).2; omega, (hinc _).1, (hinc _).2.1, ?_⟩
  intro h4
  have hv : 4 ≤ b.visit id := by
    rcases visit_id_cases b with ⟨h1, h2⟩ | ⟨_, h2⟩ <;> omega
  have hty := reference_add_assign_type b i (.unsigned x)
  unfold reference.add_assign at hty
  rw [visit_eq_apply b (fun T => adder.call T b i (.unsigned x))] at hty
  have hty2 := incrementor_type b i (b.visit id) (visit_id_cases b)
  refine ⟨by have := (hadd (b.visit id)).2; omega, (hinc _).2.2 hv (visit_id_le b), ?_, ?_⟩
  · by_cases h5 : 5 ≤ b.type
    · exact hty.2 h5
    · have h4e : b.type = 4 := by omega
      have hv4 : b.visit id = 4 := by
        rcases visit_id_cases b with ⟨_, h2⟩ | ⟨h1, _⟩ <;> omega
      rw [hv4]
      simp [adder.call, adder.is_x_unsigned_true, store_int_type]
  · by_cases h5 : 5 ≤ b.type
    · exact hty2.2 h5
    · have h4e : b.type = 4 := by omega
      have hv4 : b.visit id = 4 := by
        rcases visit_id_cases b with ⟨_, h2⟩ | ⟨h1, _⟩ <;> omega
      rw [hv4]
      simp [incrementor, store_int_type]

/-- The loop from position `k` to position `n ≥ k` ends within `n - k + 1` evaluations of its
condition and visits the positions `k, ..., n - 1` in order. -/
theorem traverse_range {D : Type} (fuel : Nat) (b b' : buffer_type D) (k n : Nat)
    (hk : k ≤ n) (hf : n - k < fuel) :
    iterator_impl.traverse fuel { buffer_ := b, base := k } { buffer_ := b', base := n }
      = some ((List.range' k (n - k)).map (fun j => ({ bref_ := b, idx_ := j } : cursor D))) := by
  induction fuel generalizing k with
  | zero => omega
  | succ f ih =>
    unfold iterator_impl.traverse
    by_cases hkn : k = n
    · subst hkn
      simp [iterator_impl.equal]
    · have hne : (iterator_impl.equal { buffer_ := b, base := k }
          ({ buffer_ := b', base := n } : iterator_impl D)) = false := by
        simp [iterator_impl.equal, hkn]
      rw [hne]
      simp only [Bool.false_eq_true, if_false, iterator_impl.increment]
      rw [ih (k + 1) (by omega) (by omega)]
      have hlen : n - k = (n - (k + 1)) + 1 := by omega
      rw [hlen, List.range'_succ]
      simp [iterator_impl.deref]

/-- C21: for a storage `s` of size `n`, the iteration from `begin()` to `end()` ends and
visits exactly `n` positions, in the order 0, 1, ..., n-1; dereferencing the iterator at
position `i` gives the cursor with the buffer of `s` and the index `i`, the cursor `s[i]`,
so that a read through it gives the value of `s[i]` and a write through it changes
cell `i`. -/
theorem iterate_storage (s : unlimited_storage D) (fuel : Nat) (hf : s.size < fuel) :
    iterator_impl.traverse fuel s.begin s.end_
      = some ((List.range s.size).map (fun i => s.at i)) ∧
    (∀ cs, iterator_impl.traverse fuel s.begin s.end_ = some cs → cs.length = s.size) ∧
    (∀ i, (s.begin.advance i).deref = s.at i ∧
      (s.begin.advance i).deref.bref_ = s.buffer_ ∧ (s.begin.advance i).deref.idx_ = i ∧
      reference.to_double (s.begin.advance i).deref.bref_ (s.begin.advance i).deref.idx_
        = reference.to_double s.buffer_ i ∧
      ∀ x, reference.add_assign (s.begin.advance i).deref.bref_
          (s.begin.advance i).deref.idx_ x = reference.add_assign s.buffer_ i x) ∧
    (Nat.iterate iterator_impl.increment s.size s.begin).equal s.end_ = true := by
  have h1 : iterator_impl.traverse fuel s.begin s.end_
      = some ((List.range s.size).map (fun i => s.at i)) := by
    unfold unlimited_storage.begin unlimited_storage.end_
    rw [traverse_range fuel _ _ 0 s.size (Nat.zero_le _) (by omega)]
    simp only [Nat.sub_zero, List.range_eq_range']
    rfl
  have hadv : ∀ i, (s.begin.advance i).deref = s.at i := by
    intro i
    simp [unlimited_storage.begin, iterator_impl.advance, iterator_impl.deref,
      unlimited_storage.at]
  refine ⟨h1, ?_, ?_, ?_⟩
  · intro cs hcs
    rw [h1] at hcs
    injection hcs with hcs
    rw [← hcs]
    simp
  · intro i
    rw [hadv i]
    exact ⟨rfl, rfl, rfl, rfl, fun _ => rfl⟩
  · have hit : ∀ m (it : iterator_impl D),
        (Nat.iterate iterator_impl.increment m it).base = it.base + m := by
      intro m
      induction m with
      | zero => intro it; rfl
      | succ m ih =>
        intro it
        rw [Function.iterate_succ_apply, ih]
        simp only [iterator_impl.increment]
        omega
    simp [iterator_impl.equal, hit, unlimited_storage.begin, unlimited_storage.end_]

/-- Witness for C21: the iteration over a storage of three cells. -/
theorem iterate_storage_witness :
    iterator_impl.traverse 4 (unlimited_storage.begin { buffer_ := sample_uint8 })
        (unlimited_storage.end_ { buffer_ := sample_uint8 })
      = some ((List.range 3).map (fun i =>
          unlimited_storage.at { buffer_ := sample_uint8 } i)) :=
  (iterate_storage { buffer_ := sample_uint8 } 4 (by decide)).1

/-- An index below the length reads the element that `getD` reads. -/
theorem get_eq_some_getD {α : Type} (xs : List α) (i : Nat) (a : α) (hi : i < xs.length) :
    xs.get? i = some (xs.getD i a) := by
  rw [List.get?_eq_get hi, List.getD_eq_getElem _ _ hi]
  rfl

/-- C27: the storage constructed from an iterable `q` of length `n` has size `n` and at
every index the cell `q[i]` converted to the chosen representation. The representation is
the element type itself when it is one of the six ladder members, and the floating
representation for every other element type (a signed integer type, bool, an unsigned
type that is none of the four fixed-width ones, float and so on), whatever the element
values are: the cell is then `static_cast<double>` of the element. -/
theorem from_iterable_spec (q : iterable D)
    (hq : ∀ T xs, q = .unsigned T xs → T < 4 ∧ ∀ v ∈ xs, fits T v) :
    (unlimited_storage.from_iterable q).size = q.distance ∧
    (unlimited_storage.from_iterable q).buffer_.type
      = (if q.type_index < 6 then q.type_index else 5) ∧
    (∀ xs, q = .signed xs → (unlimited_storage.from_iterable q).buffer_.type = 5) ∧
    (∀ (E : Type) (cast : E → D) (xs : List E), q = .other E cast xs →
      (unlimited_storage.from_iterable q).buffer_.type = 5) ∧
    (unlimited_storage.from_iterable q).buffer_.well_formed ∧
    ∀ i, i < q.distance →
      (match q with
        | .unsigned _ xs => (xs.get? i).map (fun v => number.unsigned v)
        | .large_int xs => (xs.get? i).map (fun v => number.large v)
        | .floating xs => (xs.get? i).map (fun d => number.floating d)
        | .signed xs => (xs.get? i).map (fun z => number.floating (DoubleOps.ofInt z))
        | .other _ cast xs => (xs.get? i).map (fun e => number.floating (cast e)))
      = some ((unlimited_storage.from_iterable q).buffer_.cell i) := by
  cases q with
  | unsigned T xs =>
    obtain ⟨hT, hfit⟩ := hq T xs rfl
    have h5 : T ≠ 5 := by omega
    have h6 : T < 6 := by omega
    by_cases hn : 0 < xs.length
    · have hb : (unlimited_storage.from_iterable (iterable.unsigned T xs : iterable D)).buffer_
          = { size := xs.length, type := T, ptr := some (.integral xs) } := by
        simp only [unlimited_storage.from_iterable, iterable.type_index, h6, if_true,
          buffer_type.make_from_iterable, iterable.distance, make_from_eq, hn,
          detail.buffer_create_from, h5, if_false, List.take_length, map_wrap_of_fits hfit]
      refine ⟨?_, ?_, ?_, ?_, ?_, ?_⟩
      · simp [unlimited_storage.size, hb, iterable.distance]
      · simp [hb, iterable.type_index, h6]
      · intro ys h
        cases h
      · intro E cast ys h
        cases h
      · rw [hb]
        simp only [buffer_type.well_formed, hn, true_and]
        exact ⟨by omega, hfit⟩
      · intro i hi
        rw [hb, cell_mk_fixed _ _ _ _ hT]
        simp only
        rw [get_eq_some_getD xs i 0 hi]
        rfl
    · have h0 : xs = [] := List.length_eq_zero.mp (by omega)
      subst h0
      simp [unlimited_storage.from_iterable, iterable.type_index, h6,
        buffer_type.make_from_iterable, iterable.distance, make_from_eq,
        unlimited_storage.size, buffer_type.well_formed]
  | large_int xs =>
    by_cases hn : 0 < xs.length
    · have hb : (unlimited_storage.from_iterable (iterable.large_int xs : iterable D)).buffer_
          = { size := xs.length, type := 4, ptr := some (.integral xs) } := by
        have hw : xs.map (wrap 4) = xs := map_wrap_of_fits (fun v _ h => absurd h (by omega))
        simp [unlimited_storage.from_iterable, iterable.type_index,
          buffer_type.make_from_iterable, iterable.distance, make_from_eq, hn,
          detail.buffer_create_from, hw]
      refine ⟨?_, ?_, ?_, ?_, ?_, ?_⟩
      · simp [unlimited_storage.size, hb, iterable.distance]
      · simp [hb, iterable.type_index]
      · intro ys h
        cases h
      · intro E cast ys h
        cases h
      · rw [hb]
        simp only [buffer_type.well_formed, hn, true_and]
        exact ⟨by omega, fun v _ h => absurd h (by omega)⟩
      · intro i hi
        rw [hb]
        unfold buffer_type.cell
        rw [visit_of_lt _ _ (by simp only; omega)]
        simp only
        rw [get_eq_some_getD xs i 0 hi]
        rfl
    · have h0 : xs = [] := List.length_eq_zero.mp (by omega)
      subst h0
      simp [unlimited_storage.from_iterable, iterable.type_index,
        buffer_type.make_from_iterable, iterable.distance, make_from_eq,
        unlimited_storage.size, buffer_type.well_formed]
  | floating xs =>
    by_cases hn : 0 < xs.length
    · have hb : (unlimited_storage.from_iterable (iterable.floating xs : iterable D)).buffer_
          = { size := xs.length, type := 5, ptr := some (.floating xs) } := by
        simp [unlimited_storage.from_iterable, iterable.type_index,
          buffer_type.make_from_iterable, iterable.distance, make_from_eq, hn,
          detail.buffer_create_from]
      refine ⟨?_, ?_, ?_, ?_, ?_, ?_⟩
      · simp [unlimited_storage.size, hb, iterable.distance]
      · simp [hb, iterable.type_index]
      · intro ys h
        cases h
      · intro E cast ys h
        cases h
      · rw [hb]
        simp only [buffer_type.well_formed, hn, true_and]
      · intro i hi
        rw [hb]
        unfold buffer_type.cell
        rw [visit_of_lt _ _ (by simp only; omega)]
        simp only
        rw [get_eq_some_getD xs i DoubleOps.zero hi]
        rfl
    · have h0 : xs = [] := List.length_eq_zero.mp (by omega)
      subst h0
      simp [unlimited_storage.from_iterable, iterable.type_index,
        buffer_type.make_from_iterable, iterable.distance, make_from_eq,
        unlimited_storage.size, buffer_type.well_formed]
  | signed xs =>
    by_cases hn : 0 < xs.length
    · have hb : (unlimited_storage.from_iterable (iterable.signed xs : iterable D)).buffer_
          = { size := xs.length, type := 5,
              ptr := some (.floating (xs.map (fun z => DoubleOps.ofInt z))) } := by
        simp [unlimited_storage.from_iterable, iterable.type_index,
          buffer_type.make_from_iterable, iterable.distance, buffer_type.make_from_signed,
          buffer_type.destroy, hn]
      refine ⟨?_, ?_, ?_, ?_, ?_, ?_⟩
      · simp [unlimited_storage.size, hb, iterable.distance]
      · simp [hb, iterable.type_index]
      · intro ys _
        rw [hb]
      · intro E cast ys h
        cases h
      · rw [hb]
        simp only [buffer_type.well_formed, hn, List.length_map, true_and]
      · intro i hi
        rw [hb]
        unfold buffer_type.cell
        rw [visit_of_lt _ _ (by simp only; omega)]
        simp only [buffer_type.element, if_true, buffer_type.dbl_at]
        rw [getD_map_of_lt _ _ _ 0 _ hi, get_eq_some_getD xs i 0 hi]
        rfl
    · have h0 : xs = [] := List.length_eq_zero.mp (by omega)
      subst h0
      simp [unlimited_storage.from_iterable, iterable.type_index,
        buffer_type.make_from_iterable, iterable.distance, buffer_type.make_from_signed,
        buffer_type.destroy, unlimited_storage.size, buffer_type.well_formed]
  | other E cast xs =>
    by_cases hn : 0 < xs.length
    · have hb : (unlimited_storage.from_iterable (iterable.other E cast xs : iterable D)).buffer_
          = { size := xs.length, type := 5, ptr := some (.floating (xs.map cast)) } := by
        simp [unlimited_storage.from_iterable, iterable.type_index,
          buffer_type.make_from_iterable, iterable.distance, buffer_type.make_from_other,
          buffer_type.destroy, hn]
      refine ⟨?_, ?_, ?_, ?_, ?_, ?_⟩
      · simp [unlimited_storage.size, hb, iterable.distance]
      · simp [hb, iterable.type_index]
      · intro ys h
        cases h
      · intro E' cast' ys _
        rw [hb]
      · rw [hb]
        simp only [buffer_type.well_formed, hn, List.length_map, true_and]
      · intro i hi
        have hi' : i < xs.length := hi
        obtain ⟨e, he⟩ : ∃ e, xs.get? i = some e := ⟨_, List.get?_eq_get hi'⟩
        rw [hb]
        unfold buffer_type.cell
        rw [visit_of_lt _ _ (by simp only; omega)]
        simp only [buffer_type.element, if_true, buffer_type.dbl_at]
        rw [getD_map_of_lt _ _ _ e _ hi', he]
        have : xs.getD i e = e := by
          rw [List.getD_eq_getElem _ _ hi']
          rw [List.get?_eq_get hi'] at he
          exact Option.some.inj he
        rw [this]
        rfl
    · have h0 : xs = [] := List.length_eq_zero.mp (by omega)
      subst h0
      simp [unlimited_storage.from_iterable, iterable.type_index,
        buffer_type.make_from_iterable, iterable.distance, buffer_type.make_from_other,
        buffer_type.destroy, unlimited_storage.size, buffer_type.well_formed]

/-- Witness for C27: the storage built from two values of an unsigned 64-bit type that is
not `uint64_t` is floating, although both values fit the widest fixed-width integer. -/
theorem from_iterable_spec_witness :
    (∀ T xs, sample_other_unsigned = .unsigned T xs → T < 4 ∧ ∀ v ∈ xs, fits T v) ∧
    (unlimited_storage.from_iterable sample_other_unsigned).size = 2 ∧
    (unlimited_storage.from_iterable sample_other_unsigned).buffer_.type = 5 :=
  ⟨fun _ _ h => (by cases h),
   (from_iterable_spec sample_other_unsigned (fun _ _ h => (by cases h))).1,
   (from_iterable_spec sample_other_unsigned (fun _ _ h => (by cases h))).2.2.2.1
     Nat DoubleOps.ofUInt [0, 2 ^ 64 - 1] rfl⟩

/-- A call of `make` under a failing allocator either throws and leaves the buffer as it
was, or does what `make` does. -/
theorem make_from_alloc_cases (ok : Bool) (b : buffer_type D) (T U n : Nat)
    (iter : Option (cells D)) :
    ((b.make_from_alloc ok T U n iter).thrown = true ∧
      (b.make_from_alloc ok T U n iter).buffer = b ∧ 0 < n ∧ ok = false) ∨
    ((b.make_from_alloc ok T U n iter).thrown = false ∧
      (b.make_from_alloc ok T U n iter).buffer = b.make_from T U n iter) := by
  unfold buffer_type.make_from_alloc
  split
  · rename_i h
    exact Or.inl ⟨rfl, rfl, h.1, h.2⟩
  · exact Or.inr ⟨rfl, rfl⟩

/-- When the retry chain of `is_x_unsigned` does not throw it computes what the chain
computes without a failing allocator. -/
theorem is_x_unsigned_true_alloc_ok (k a : Nat) (b : buffer_type D) (i x : Nat)
    (h : (adder.is_x_unsigned_true_alloc k a b i x).thrown = false) :
    (adder.is_x_unsigned_true_alloc k a b i x).buffer = adder.is_x_unsigned_true k b i x := by
  induction k generalizing a b with
  | zero => rfl
  | succ k ih =>
    simp only [adder.is_x_unsigned_true_alloc, adder.is_x_unsigned_true] at h ⊢
    split
    · rfl
    · rename_i hs
      rw [hs] at h
      simp only [] at h
      rcases make_from_alloc_cases (decide (0 < a)) b (3 - k + 1) (3 - k) b.size b.ptr
        with ⟨h1, _⟩ | ⟨h1, h2⟩
      · rw [h1] at h
        simp only [if_true] at h
        rw [h1] at h
        cases h
      · rw [h1] at h ⊢
        simp only [Bool.false_eq_true, if_false] at h ⊢
        rw [h2] at h ⊢
        exact ih _ _ h

/-- When the retry chain of `is_x_unsigned` throws on a well-formed integer array, the
array holds the values it held before, in the same or a wider integer type. -/
theorem is_x_unsigned_true_alloc_thrown (k : Nat) (hk : k ≤ 4) (a n : Nat) (xs : List Nat)
    (i x : Nat) (hn : 0 < n) (hl : xs.length = n) (hfit : ∀ v ∈ xs, fits (4 - k) v)
    (h : (adder.is_x_unsigned_true_alloc k a
      ({ size := n, type := 4 - k, ptr := some (.integral xs) } : buffer_type D) i x).thrown
        = true) :
    ∃ U, (adder.is_x_unsigned_true_alloc k a
        ({ size := n, type := 4 - k, ptr := some (.integral xs) } : buffer_type D) i x).buffer
        = { size := n, type := U, ptr := some (.integral xs) } ∧ 4 - k ≤ U ∧ U ≤ 4 := by
  induction k generalizing a with
  | zero => simp [adder.is_x_unsigned_true_alloc] at h
  | succ k ih =>
    have hT : 4 - (k + 1) = 3 - k := by omega
    have hT1 : 3 - k + 1 = 4 - k := by omega
    rw [hT] at hfit h ⊢
    simp only [adder.is_x_unsigned_true_alloc] at h ⊢
    split
    · rename_i hs
      rw [hs] at h
      simp at h
    · rename_i hs
      rw [hs] at h
      simp only [] at h
      rcases make_from_alloc_cases (decide (0 < a))
        ({ size := n, type := 3 - k, ptr := some (.integral xs) } : buffer_type D)
        (3 - k + 1) (3 - k) n (some (.integral xs)) with ⟨h1, h2, _⟩ | ⟨h1, h2⟩
      · rw [h1]
        simp only [if_true]
        exact ⟨3 - k, h2, le_refl _, by omega⟩
      · rw [h1] at h ⊢
        simp only [Bool.false_eq_true, if_false] at h ⊢
        rw [h2, make_from_integral n (3 - k) (3 - k + 1) (3 - k) xs hn hl hfit (by omega)
          (by omega), hT1] at h ⊢
        obtain ⟨U, hU, h3, h4⟩ :=
          ih (by omega) (a - 1) (fun v hv => fits_mono (by omega) (hfit v hv)) h
        exact ⟨U, hU, by omega, h4⟩

/-- An operation that calls `make` once and then works on the new array: under a failing
allocator it either throws with the buffer as it was, or gives the result of the
operation. -/
theorem once_alloc_cases (ok : Bool) (b : buffer_type D) (T U : Nat)
    (f : buffer_type D → buffer_type D) :
    let r := b.make_from_alloc ok T U b.size b.ptr
    let o : outcome D := if r.thrown then r else { buffer := f r.buffer, thrown := false }
    (o.thrown = true ∧ o.buffer = b) ∨
    (o.thrown = false ∧ o.buffer = f (b.make_from T U b.size b.ptr)) := by
  intro r o
  rcases make_from_alloc_cases ok b T U b.size b.ptr with ⟨h1, h2, _⟩ | ⟨h1, h2⟩
  · left
    simp only [o, r, h1, if_true, h2, and_self]
  · right
    simp only [o, r, h1, Bool.false_eq_true, if_false, h2, and_self]

/-- The functor `incrementor` under a failing allocator: it throws with the buffer as it
was, or gives the result of `incrementor`. -/
theorem incrementor_alloc_cases (a T : Nat) (b : buffer_type D) (i : Nat) :
    ((incrementor_alloc a T b i).thrown = true ∧ (incrementor_alloc a T b i).buffer = b) ∨
    ((incrementor_alloc a T b i).thrown = false ∧
      (incrementor_alloc a T b i).buffer = incrementor T b i) := by
  unfold incrementor_alloc incrementor
  split
  · exact Or.inr ⟨rfl, rfl⟩
  · split
    · exact Or.inr ⟨rfl, rfl⟩
    · split
      · exact Or.inr ⟨rfl, rfl⟩
      · exact once_alloc_cases (decide (0 < a)) b (T + 1) T
          (fun c => c.store_int i (wrap (T + 1) (c.int_at i + 1)))

/-- The call of `multiplier` on one cell under a failing allocator. -/
theorem multiplier_call_at_alloc_cases (a T : Nat) (b : buffer_type D) (i : Nat) (x : D) :
    ((multiplier.call_at_alloc a T b i x).thrown = true ∧
      (multiplier.call_at_alloc a T b i x).buffer = b) ∨
    ((multiplier.call_at_alloc a T b i x).thrown = false ∧
      (multiplier.call_at_alloc a T b i x).buffer = multiplier.call_at T b i x) := by
  unfold multiplier.call_at_alloc multiplier.call_at
  split
  · exact Or.inr ⟨rfl, rfl⟩
  · exact once_alloc_cases (decide (0 < a)) b 5 T (fun c => multiplier.call_double_at c i x)

/-- The call of `multiplier` on the whole buffer under a failing allocator. -/
theorem multiplier_call_alloc_cases (a T : Nat) (b : buffer_type D) (x : D) :
    ((multiplier.call_alloc a T b x).thrown = true ∧
      (multiplier.call_alloc a T b x).buffer = b) ∨
    ((multiplier.call_alloc a T b x).thrown = false ∧
      (multiplier.call_alloc a T b x).buffer = multiplier.call T b x) := by
  unfold multiplier.call_alloc multiplier.call
  split
  · exact Or.inr ⟨rfl, rfl⟩
  · exact once_alloc_cases (decide (0 < a)) b 5 T (fun c => multiplier.call_double c x)

/-- The call of `adder` under a failing allocator, when it does not throw, gives the
result of `adder`. -/
theorem adder_call_alloc_ok (a T : Nat) (b : buffer_type D) (i : Nat) (x : number D)
    (h : (adder.call_alloc a T b i x).thrown = false) :
    (adder.call_alloc a T b i x).buffer = adder.call T b i x := by
  have hf : ∀ y : number D, (adder.is_x_integral_false_alloc a T b i y).thrown = false →
      (adder.is_x_integral_false_alloc a T b i y).buffer
        = adder.is_x_integral_false T b i y := by
    intro y hy
    rcases once_alloc_cases (decide (0 < a)) b 5 T
      (fun c => adder.call_double c i (.floating y.to_double)) with ⟨h1, _⟩ | ⟨_, h2⟩
    · unfold adder.is_x_integral_false_alloc at hy
      rw [hy] at h1
      cases h1
    · exact h2
  unfold adder.call_alloc adder.call at *
  split
  · rfl
  · rename_i h5
    rw [if_neg h5] at h
    cases x with
    | unsigned v => exact is_x_unsigned_true_alloc_ok _ a b i v h
    | signed v =>
      simp only [adder.is_x_unsigned_false_alloc, adder.is_x_unsigned_false] at h ⊢
      split
      · rename_i hv
        rw [if_pos hv] at h
        exact is_x_unsigned_true_alloc_ok _ a b i _ h
      · rename_i hv
        rw [if_neg hv] at h
        exact hf _ h
    | large v =>
      simp only [] at h ⊢
      split
      · rfl
      · rename_i h4
        rw [if_neg h4] at h
        rcases once_alloc_cases (decide (0 < a)) b 4 T
          (fun c => adder.call_large_int c i v) with ⟨h1, _⟩ | ⟨_, h2⟩
        · unfold adder.is_x_integral_false_large_int_alloc at h
          rw [h] at h1
          cases h1
        · exact h2
    | floating v => exact hf _ h

/-- The call of `adder` under a failing allocator, when it throws on a well-formed
integer array: the array holds the values it held before, in the same or a wider integer
type. -/
theorem adder_call_alloc_thrown (a n T : Nat) (xs : List Nat) (i : Nat) (x : number D)
    (hn : 0 < n) (hl : xs.length = n) (hfit : ∀ v ∈ xs, fits T v) (hT : T ≤ 4)
    (h : (adder.call_alloc a T
      ({ size := n, type := T, ptr := some (.integral xs) } : buffer_type D) i x).thrown
        = true) :
    ∃ U, (adder.call_alloc a T
        ({ size := n, type := T, ptr := some (.integral xs) } : buffer_type D) i x).buffer
        = { size := n, type := U, ptr := some (.integral xs) } ∧ T ≤ U ∧ U ≤ 4 := by
  have hk : 4 - (4 - T) = T := by omega
  have hchain : ∀ v : Nat, (adder.is_x_unsigned_true_alloc (4 - T) a
      ({ size := n, type := T, ptr := some (.integral xs) } : buffer_type D) i v).thrown
        = true →
      ∃ U, (adder.is_x_unsigned_true_alloc (4 - T) a
        ({ size := n, type := T, ptr := some (.integral xs) } : buffer_type D) i v).buffer
        = { size := n, type := U, ptr := some (.integral xs) } ∧ T ≤ U ∧ U ≤ 4 := by
    intro v hv
    have key := is_x_unsigned_true_alloc_thrown (D := D) (4 - T) (by omega) a n xs i v hn hl
      (by rw [hk]; exact hfit)
    rw [hk] at key
    exact key hv
  have hf : ∀ y : number D, (adder.is_x_integral_false_alloc a T
      ({ size := n, type := T, ptr := some (.integral xs) } : buffer_type D) i y).thrown
        = true →
      (adder.is_x_integral_false_alloc a T
        ({ size := n, type := T, ptr := some (.integral xs) } : buffer_type D) i y).buffer
        = { size := n, type := T, ptr := some (.integral xs) } := by
    intro y hy
    rcases once_alloc_cases (decide (0 < a))
      ({ size := n, type := T, ptr := some (.integral xs) } : buffer_type D) 5 T
      (fun c => adder.call_double c i (.floating y.to_double)) with ⟨_, h2⟩ | ⟨h1, _⟩
    · exact h2
    · unfold adder.is_x_integral_false_alloc at hy
      rw [hy] at h1
      cases h1
  have h5 : T ≠ 5 := by omega
  unfold adder.call_alloc at h ⊢
  rw [if_neg h5] at h ⊢
  cases x with
  | unsigned v => exact hchain v h
  | signed v =>
    simp only [adder.is_x_unsigned_false_alloc] at h ⊢
    split
    · rename_i hv
      rw [if_pos hv] at h
      exact hchain _ h
    · rename_i hv
      rw [if_neg hv] at h
      exact ⟨T, hf _ h, le_refl _, hT⟩
  | large v =>
    simp only [] at h ⊢
    split
    · rename_i h4
      rw [if_pos h4] at h
      cases h
    · rename_i h4
      rw [if_neg h4] at h
      rcases once_alloc_cases (decide (0 < a))
        ({ size := n, type := T, ptr := some (.integral xs) } : buffer_type D) 4 T
        (fun c => adder.call_large_int c i v) with ⟨_, h2⟩ | ⟨h1, _⟩
      · exact ⟨T, h2, le_refl _, hT⟩
      · unfold adder.is_x_integral_false_large_int_alloc at h
        rw [h] at h1
        cases h1
  | floating v => exact ⟨T, hf _ h, le_refl _, hT⟩

/-- Counterexample to C25 as stated: assigning 300 to the cell holding 7 of an 8-bit
storage when the allocation of the 16-bit array fails. The exception is propagated, but the
cell has been set to 0 before the add was tried and no longer holds 7. -/
theorem allocation_failure_assign_counterexample :
    sample_uint8.well_formed ∧ sample_uint8.int_at 1 = 7 ∧
    (operation.apply_alloc 0 (.assign 1 (.unsigned 300)) sample_uint8).thrown = true ∧
    (operation.apply_alloc 0 (.assign 1 (.unsigned 300)) sample_uint8).buffer.int_at 1 = 0 ∧
    (operation.apply_alloc 0 (.assign 1 (.unsigned 300)) sample_uint8).buffer.int_at 1
      ≠ sample_uint8.int_at 1 := by
  decide

/-- C25 (amended): with an allocator that may fail, on a well-formed storage and for a
valid index `i`: when `++`, `+=`, `*=` of the cursor or the whole-storage `*=` leaves by the
exception of a failed allocation, the element count is unchanged and every cell holds the
value it held before the operation; when the cursor assignment `=` leaves that way, the
element count is unchanged, cell `i` holds 0 (it was zeroed before the add) and every other
cell holds the value it held before. When no allocation fails the result is that of the
operation. -/
theorem allocation_failure (a : Nat) (b : buffer_type D) (i : Nat) (hwf : b.well_formed)
    (hi : i < b.size) :
    (∀ op : operation D,
      (op = .increment i ∨ (∃ x, op = .add_assign i x) ∨ (∃ x, op = .mul_assign i x) ∨
        ∃ s, op = .storage_mul_assign s) →
      ((op.apply_alloc a b).thrown = false → (op.apply_alloc a b).buffer = op.apply b) ∧
      ((op.apply_alloc a b).thrown = true →
        (op.apply_alloc a b).buffer.size = b.size ∧
        (op.apply_alloc a b).buffer.ptr = b.ptr ∧
        ∀ j, (op.apply_alloc a b).buffer.int_at j = b.int_at j ∧
          (op.apply_alloc a b).buffer.dbl_at j = b.dbl_at j)) ∧
    (∀ x : number D,
      ((operation.apply_alloc a (.assign i x) b).thrown = false →
        (operation.apply_alloc a (.assign i x) b).buffer = reference.assign b i x) ∧
      ((operation.apply_alloc a (.assign i x) b).thrown = true →
        (operation.apply_alloc a (.assign i x) b).buffer.size = b.size ∧
        (operation.apply_alloc a (.assign i x) b).buffer.int_at i = 0 ∧
        ∀ j, j ≠ i →
          (operation.apply_alloc a (.assign i x) b).buffer.int_at j = b.int_at j)) := by
  have hsame : ∀ r : buffer_type D, r = b →
      r.size = b.size ∧ r.ptr = b.ptr ∧ ∀ j, r.int_at j = b.int_at j ∧
        r.dbl_at j = b.dbl_at j := by
    intro r hr
    subst hr
    exact ⟨rfl, rfl, fun _ => ⟨rfl, rfl⟩⟩
  have hptr : ∀ r : buffer_type D, r.size = b.size → r.ptr = b.ptr →
      r.size = b.size ∧ r.ptr = b.ptr ∧ ∀ j, r.int_at j = b.int_at j ∧
        r.dbl_at j = b.dbl_at j := by
    intro r hs hp
    refine ⟨hs, hp, fun j => ?_⟩
    unfold buffer_type.int_at buffer_type.dbl_at
    rw [hp]
    exact ⟨rfl, rfl⟩
  have h6 := well_formed_type_lt b hwf
  constructor
  · intro op hop
    rcases hop with h | ⟨x, h⟩ | ⟨x, h⟩ | ⟨s, h⟩ <;> subst h
    · simp only [operation.apply_alloc, operation.apply, reference.increment]
      rw [visit_of_lt _ _ h6, visit_of_lt _ _ h6]
      rcases incrementor_alloc_cases a b.type b i with ⟨h1, h2⟩ | ⟨h1, h2⟩
      · exact ⟨fun h => absurd h (by rw [h1]; simp), fun _ => hsame _ h2⟩
      · exact ⟨fun _ => h2, fun h => absurd h (by rw [h1]; simp)⟩
    · simp only [operation.apply_alloc, operation.apply, reference.add_assign]
      rw [visit_of_lt _ _ h6, visit_of_lt _ _ h6]
      refine ⟨adder_call_alloc_ok a b.type b i x, ?_⟩
      intro hth
      rcases well_formed_cases b hwf with ⟨hb, _⟩ | ⟨xs, hb, hn, hl, hT, hfit⟩ |
        ⟨ds, hb, hn, hl⟩
      · rw [hb] at hi
        exact absurd hi (by simp)
      · have hT4 : b.type ≤ 4 := by omega
        clear hwf hsame h6
        generalize b.type = T at *
        generalize b.size = n at *
        subst hb
        obtain ⟨U, hU, _, _⟩ := adder_call_alloc_thrown a n T xs i x hn hl hfit hT4 hth
        exact hptr _ (by rw [hU]) (by rw [hU])
      · have h5 : b.type = 5 := by rw [hb]
        rw [h5] at hth
        simp [adder.call_alloc] at hth
    · simp only [operation.apply_alloc, operation.apply, reference.mul_assign]
      rw [visit_of_lt _ _ h6, visit_of_lt _ _ h6]
      rcases multiplier_call_at_alloc_cases a b.type b i x with ⟨h1, h2⟩ | ⟨h1, h2⟩
      · exact ⟨fun h => absurd h (by rw [h1]; simp), fun _ => hsame _ h2⟩
      · exact ⟨fun _ => h2, fun h => absurd h (by rw [h1]; simp)⟩
    · simp only [operation.apply_alloc, operation.apply, unlimited_storage.mul_assign]
      rw [visit_of_lt _ _ h6, visit_of_lt _ _ h6]
      rcases multiplier_call_alloc_cases a b.type b s with ⟨h1, h2⟩ | ⟨h1, h2⟩
      · exact ⟨fun h => absurd h (by rw [h1]; simp), fun _ => hsame _ h2⟩
      · exact ⟨fun _ => h2, fun h => absurd h (by rw [h1]; simp)⟩
  · intro x
    simp only [operation.apply_alloc, reference.assign]
    rw [visit_of_lt _ _ h6, visit_of_lt _ _ h6]
    refine ⟨adder_call_alloc_ok a b.type _ i x, ?_⟩
    intro hth
    rcases well_formed_cases b hwf with ⟨hb, _⟩ | ⟨xs, hb, hn, hl, hT, hfit⟩ |
      ⟨ds, hb, hn, hl⟩
    · rw [hb] at hi
      exact absurd hi (by simp)
    · have hT4 : b.type ≤ 4 := by omega
      have h5 : b.type ≠ 5 := by omega
      clear hwf hsame hptr h6
      generalize b.type = T at *
      generalize b.size = n at *
      subst hb
      have hz : reference.zero_cell T
          ({ size := n, type := T, ptr := some (.integral xs) } : buffer_type D) i
          = { size := n, type := T, ptr := some (.integral (xs.set i 0)) } := by
        simp only [reference.zero_cell, h5, if_false, store_int_mk]
      rw [hz] at hth ⊢
      have hfit0 : ∀ v ∈ xs.set i 0, fits T v := by
        intro v hv
        rcases List.mem_or_eq_of_mem_set hv with h | h
        · exact hfit v h
        · rw [h]
          intro _
          exact Nat.pow_pos (by decide)
      obtain ⟨U, hU, _, _⟩ := adder_call_alloc_thrown a n T (xs.set i 0) i x hn
        (by rw [List.length_set, hl]) hfit0 hT4 hth
      rw [hU]
      refine ⟨rfl, ?_, ?_⟩
      · rw [int_at_mk, getD_set_self _ _ _ _ (by omega)]
      · intro j hj
        rw [int_at_mk, int_at_mk, getD_set_ne _ _ _ _ _ hj]
    · have h5 : b.type = 5 := by rw [hb]
      rw [h5] at hth
      simp [adder.call_alloc] at hth

/-- Witness for C25 (amended): incrementing the cell holding 255 of a 3-cell 8-bit storage
when the allocation of the 16-bit array fails leaves the array as it was. -/
theorem allocation_failure_witness :
    sample_uint8.well_formed ∧
    (operation.apply_alloc 0 (.increment 0) sample_uint8).thrown = true ∧
    (operation.apply_alloc 0 (.increment 0) sample_uint8).buffer.ptr = sample_uint8.ptr :=
  ⟨by decide, by decide,
    (((allocation_failure 0 sample_uint8 0 (by decide) (by decide)).1 (.increment 0)
      (Or.inl rfl)).2 (by decide)).2.1⟩

/-- The alternative held by a variant with a valid index is one of its alternatives. -/
theorem held_mem (v : axis.variant) (hi : v.index < v.types.length) :
    ∃ t, v.held = some t ∧ t ∈ v.types := by
  unfold axis.variant.held
  rw [List.get?_eq_get hi]
  exact ⟨_, rfl, List.get_mem _ _ _⟩

theorem first_mem (v : axis.variant) : v.first ∈ v.types := by
  simp [axis.variant.types]

theorem is_axis_iff (t : cpp_type) : t.is_axis = true ↔ ∃ id, t = .axis id := by
  cases t <;> simp [cpp_type.is_axis]

theorem is_ref_axis_iff (t : cpp_type) :
    t.is_ref_axis = true ↔ ∃ id, t = .reference_wrapper (.axis id) := by
  cases t with
  | reference_wrapper r => cases r <;> simp [cpp_type.is_ref_axis]
  | _ => simp [cpp_type.is_ref_axis]

theorem is_cref_axis_iff (t : cpp_type) :
    t.is_cref_axis = true ↔ ∃ id, t = .reference_wrapper (.const_axis id) := by
  cases t with
  | reference_wrapper r => cases r <;> simp [cpp_type.is_cref_axis]
  | _ => simp [cpp_type.is_cref_axis]

/-- In a uniform variant with a valid index the first and the held alternative are of the
same one of the three kinds. -/
theorem uniform_cases (v : axis.variant) (hu : v.uniform) (hi : v.index < v.types.length) :
    (∃ f j, v.first = .axis f ∧ v.held = some (.axis j)) ∨
    (∃ f j, v.first = .reference_wrapper (.axis f) ∧
      v.held = some (.reference_wrapper (.axis j))) ∨
    (∃ f j, v.first = .reference_wrapper (.const_axis f) ∧
      v.held = some (.reference_wrapper (.const_axis j))) := by
  obtain ⟨t, ht, hmem⟩ := held_mem v hi
  have hf := first_mem v
  unfold axis.variant.uniform at hu
  simp only [List.all_eq_true] at hu
  rcases hu with h | h | h
  · obtain ⟨f, hf'⟩ := (is_axis_iff _).mp (h _ hf)
    obtain ⟨j, hj⟩ := (is_axis_iff _).mp (h _ hmem)
    exact Or.inl ⟨f, j, hf', by rw [ht, hj]⟩
  · obtain ⟨f, hf'⟩ := (is_ref_axis_iff _).mp (h _ hf)
    obtain ⟨j, hj⟩ := (is_ref_axis_iff _).mp (h _ hmem)
    exact Or.inr (Or.inl ⟨f, j, hf', by rw [ht, hj]⟩)
  · obtain ⟨f, hf'⟩ := (is_cref_axis_iff _).mp (h _ hf)
    obtain ⟨j, hj⟩ := (is_cref_axis_iff _).mp (h _ hmem)
    exact Or.inr (Or.inr ⟨f, j, hf', by rw [ht, hj]⟩)

/-- Counterexample to C22 as stated: a variant over the axis class 0 and a reference to an
axis of class 1 that holds the reference, so holds an axis of class 1. `ref_handler` takes
the kind from the first alternative, an axis class, `get_if<T>` for the class 1 asks the
variant for an alternative of type `T` itself, and the result is the null pointer. A
variant over a reference to a const axis and a reference to a non-const axis fails the same
way: there `get_if<T>` asks for a reference to a const axis. -/
theorem get_if_mixed_counterexample :
    sample_variant_mixed.index < sample_variant_mixed.types.length ∧
    sample_variant_mixed.holds_axis 1 ∧
    axis.get_if (.axis 1) sample_variant_mixed = none ∧
    sample_variant_mixed_ref.index < sample_variant_mixed_ref.types.length ∧
    sample_variant_mixed_ref.holds_axis 1 ∧
    axis.get_if (.axis 1) sample_variant_mixed_ref = none := by
  decide

/-- C22 (amended): for an axis variant `v` of one of the three kinds (all alternatives axis
classes, all references to axes, or all references to const axes) and an axis class `T`,
`get_if<T>(&v)` returns the address of the axis held by `v` exactly when `v` holds an axis
of class `T`, and a null pointer otherwise; the pass-through `get_if<T>(U*)` returns the
address of the object when `T` is the type of the object and a null pointer otherwise. -/
theorem get_if_spec (v : axis.variant) (id : Nat) (hu : v.uniform)
    (hi : v.index < v.types.length) :
    (v.holds_axis id → axis.get_if (.axis id) v = some v.axis_address) ∧
    (¬ v.holds_axis id → axis.get_if (.axis id) v = none) ∧
    (∀ (T U : cpp_type) (a : Nat),
      (T = U.remove_cvref → axis.get_if_pass_through T U (some a) = some a) ∧
      (T ≠ U.remove_cvref → axis.get_if_pass_through T U (some a) = none)) := by
  refine ⟨?_, ?_, ?_⟩
  · intro hh
    unfold axis.variant.holds_axis at hh
    rcases uniform_cases v hu hi with ⟨f, j, h1, h2⟩ | ⟨f, j, h1, h2⟩ | ⟨f, j, h1, h2⟩ <;>
      rw [h2] at hh <;>
      simp only [Option.map_some', cpp_type.axis_id, Option.some.injEq] at hh <;>
      subst hh <;>
      simp [axis.get_if, axis.variant_access_get_if, detail.ref_handler, h1,
        axis.variant.impl_get_if, h2, axis.variant.axis_address, cpp_type.add_const]
  · intro hh
    unfold axis.variant.holds_axis at hh
    rcases uniform_cases v hu hi with ⟨f, j, h1, h2⟩ | ⟨f, j, h1, h2⟩ | ⟨f, j, h1, h2⟩ <;>
      rw [h2] at hh <;>
      simp only [Option.map_some', cpp_type.axis_id, Option.some.injEq] at hh <;>
      simp [axis.get_if, axis.variant_access_get_if, detail.ref_handler, h1,
        axis.variant.impl_get_if, h2, cpp_type.add_const, hh]
  · intro T U a
    unfold axis.get_if_pass_through
    exact ⟨fun h => by rw [if_pos h], fun h => by rw [if_neg h]⟩

/-- Witness for C22 (amended): a variant over references to const axes that refers to an
axis of class 1 at address 200. -/
theorem get_if_spec_witness :
    sample_variant_cref.uniform ∧
    axis.get_if (.axis 1) sample_variant_cref = some 200 :=
  ⟨by decide,
    (get_if_spec sample_variant_cref 1 (by decide) (by decide)).1 (by decide)⟩

/-- The type the visitor of the converting assignment sees for a uniform variant: the
class of the axis held. -/
theorem visited_type_uniform (u : axis.variant) (hu : u.uniform)
    (hi : u.index < u.types.length) :
    ∃ id, u.holds_axis id ∧ axis.visited_type u = some (.axis id) := by
  rcases uniform_cases u hu hi with ⟨f, j, h1, h2⟩ | ⟨f, j, h1, h2⟩ | ⟨f, j, h1, h2⟩ <;>
    refine ⟨j, ?_, ?_⟩ <;>
    simp [axis.variant.holds_axis, axis.visited_type, detail.ref_handler, h1, h2,
      cpp_type.axis_id, cpp_type.remove_cvref]

/-- Counterexample to C28 as stated: the source is a variant over the axis class 0 and a
reference to an axis of class 1 that holds the reference, the destination a variant over
the axis classes 0 and 1. The class of the axis held by the source is an alternative of
the destination, but the source is no reference variant by its first alternative, the
visitor sees the `reference_wrapper` itself, which is no alternative of the destination,
and the assignment throws `std::runtime_error`. -/
theorem converting_assign_mixed_counterexample :
    sample_variant_mixed.index < sample_variant_mixed.types.length ∧
    sample_variant_mixed.holds_axis 1 ∧
    cpp_type.axis 1 ∈ sample_variant.types ∧
    axis.operator_assign sample_variant sample_variant_mixed
      = (sample_variant, some .runtime_error) := by
  decide

/-- C28 (amended): for a source variant `u` of one of the three kinds (all alternatives
axis classes, all references to axes, or all references to const axes), holding an axis of
class `id`, and a destination variant `v`, the converting assignment `v = u` succeeds
exactly when that class is one of the alternatives of `v`; then `v` holds an axis of that
class with the state of the axis of `u`, over the same alternatives; otherwise
`std::runtime_error` is thrown and `v` is what it was before. -/
theorem converting_assign (v u : axis.variant) (id : Nat) (hu : u.uniform)
    (hi : u.index < u.types.length) (hh : u.holds_axis id) :
    (cpp_type.axis id ∈ v.types →
      (axis.operator_assign v u).2 = none ∧
      (axis.operator_assign v u).1.held = some (.axis id) ∧
      (axis.operator_assign v u).1.holds_axis id ∧
      (axis.operator_assign v u).1.value = u.value ∧
      (axis.operator_assign v u).1.types = v.types) ∧
    (cpp_type.axis id ∉ v.types →
      axis.operator_assign v u = (v, some .runtime_error)) := by
  obtain ⟨id', hh', hv⟩ := visited_type_uniform u hu hi
  have hid : id' = id := by
    unfold axis.variant.holds_axis at hh hh'
    rw [hh] at hh'
    injection hh' with h
    exact h.symm
  subst hid
  refine ⟨?_, ?_⟩
  · intro hmem
    have hheld : (v.impl_assign (.axis id') u.target u.value).held = some (.axis id') := by
      unfold axis.variant.held axis.variant.impl_assign
      exact List.indexOf_get? hmem
    simp only [axis.operator_assign, hv, hmem, if_true]
    refine ⟨trivial, hheld, ?_, rfl, rfl⟩
    unfold axis.variant.holds_axis
    rw [hheld]
    rfl
  · intro hmem
    simp only [axis.operator_assign, hv, hmem, if_false]

/-- Witness for C28 (amended): assigning a variant over references to const axes, which
refers to an axis of class 1, to a variant over the axis classes 0 and 1. -/
theorem converting_assign_witness :
    sample_variant_cref.uniform ∧ sample_variant_cref.holds_axis 1 ∧
    (axis.operator_assign sample_variant sample_variant_cref).2 = none :=
  ⟨by decide, by decide,
    ((converting_assign sample_variant sample_variant_cref 1 (by decide) (by decide)
      (by decide)).1 (by decide)).1⟩

end claims

end boost_histogram
